import Mathlib

/-!
# Neuro-RAG front-end: skill levels, skill-gap analysis and resource matching

A shallow embedding of the deterministic scoring logic of the React front-end:

* the level derivation of `Dashboard.js`, `EnhancedDashboard.js` and `ModernDashboard.js`;
* `SkillGapAnalysis.js` (`analyzeSkillGaps` and its helpers, and the render branches);
* `FreeResourcesCard.js` (`calculateSkillRelevance` and the ranking effect);
* `AISuggestionsCard.js` (`loadSuggestions`, its local cache and its chain of sources);
* the assessment loop: the hooks `useAssessment.js` and `useBatchAssessment.js`, and the submit
  handlers of `EnhancedAssessmentFlow.js`, `QuestionCard.js` and `QuestionCardUpdated.js`;
* the option normalisation of `QuestionCard.js` and `MCQBatchModule.js`, with `JSON.parse`
  modelled by its outcome (an array, another value, `null`, or a syntax error).

Asynchronous code is modelled by explicit state passing: an operation takes the answers of the
remote calls it awaits as an argument and returns the state it leaves together with the list of
requests it issued, in order.

JavaScript numbers are modelled by rationals (`ℚ`): every constant of the code
(`0.5`, `1.5`, `0.3`, `0.9`, ...) is a rational and the operations used are `+`, `-`, `*`, `/`,
`Math.min`, `Math.max` and `Math.round`.  The typing speed is computed in double precision, as
in the program: `toDouble` rounds the exact result of each of its operations to the nearest
double.  Elsewhere binary floating-point rounding is outside the model.
JavaScript strings are modelled by `String`, operated on through their list of characters.
-/

namespace NeuroRAG

/-! ## JavaScript primitives -/

/-- The JavaScript `x || y` on numbers: `0` is falsy, every other number is truthy. -/
def jsOr (x y : ℚ) : ℚ := if x = 0 then y else x

/-- The JavaScript `x || y` on integer-valued numbers. -/
def jsOrInt (x y : ℤ) : ℤ := if x = 0 then y else x

/-- `Math.round`: the nearest integer, a tie going towards `+∞`, that is `⌊x + 1/2⌋`. -/
def mathRound (x : ℚ) : ℤ := ⌊x + 1 / 2⌋

/-! ### Double-precision arithmetic

The typing speed is the one value of the model that is computed in double precision, as the
program computes it: `toDouble` rounds a real to the nearest number with 53 significant binary
digits, a tie going to the even significand, and each `/` and `*` of the code is the exact
operation followed by `toDouble`.  The exponent range is not bounded, so overflow and subnormal
numbers are outside the model; the quantities of the typing speed stay far from both. -/

/-- Helper of `floorLog2`: the recursion, `fuel` bounding its depth. -/
def floorLog2Aux : ℕ → ℕ → ℕ
  | 0, _ => 0
  | fuel + 1, n => if n < 2 then 0 else floorLog2Aux fuel (n / 2) + 1

/-- The position of the leading binary digit of a positive integer:
`2 ^ floorLog2 n ≤ n < 2 ^ (floorLog2 n + 1)`. -/
def floorLog2 (n : ℕ) : ℕ := floorLog2Aux n n

/-- The power `2 ^ e` for an integer exponent. -/
def pow2 (e : ℤ) : ℚ :=
  if 0 ≤ e then ((2 ^ e.toNat : ℕ) : ℚ) else 1 / ((2 ^ (-e).toNat : ℕ) : ℚ)

/-- The binary exponent of a rational `x ≠ 0`: the `e` with `2 ^ e ≤ |x| < 2 ^ (e + 1)`. -/
def binaryExponent (x : ℚ) : ℤ :=
  let d : ℤ := (floorLog2 x.num.natAbs : ℤ) - (floorLog2 x.den : ℤ)
  if pow2 d ≤ |x| then d else d - 1

/-- Rounding to the nearest integer, a tie going to the even one. -/
def roundHalfEven (x : ℚ) : ℤ :=
  if x - ⌊x⌋ < 1 / 2 then ⌊x⌋
  else if 1 / 2 < x - ⌊x⌋ then ⌊x⌋ + 1
  else if ⌊x⌋ % 2 = 0 then ⌊x⌋ else ⌊x⌋ + 1

/-- The double nearest to `x` (IEEE 754 binary64, round to nearest, ties to even): `x` is
scaled to a significand in `[2^52, 2^53)`, the significand is rounded to an integer, and the
scaling is undone. -/
def toDouble (x : ℚ) : ℚ :=
  if x = 0 then 0
  else (roundHalfEven (x * pow2 (52 - binaryExponent x)) : ℚ) * pow2 (binaryExponent x - 52)

/-- `String.prototype.toLowerCase`, on the ASCII letters. -/
def toLowerCase (s : String) : String := ⟨s.data.map Char.toLower⟩

/-- Substring test on character lists: `isInfixOf p s` holds when `p` occurs in `s`. -/
def isInfixOf (p : List Char) : List Char → Bool
  | [] => p.isEmpty
  | c :: cs => p.isPrefixOf (c :: cs) || isInfixOf p cs

/-- `s.includes(p)`: the string `p` occurs in `s` (always true for the empty `p`). -/
def includes (s p : String) : Bool := isInfixOf p.data s.data

/-- Replace the first occurrence of the character `c` by `d`. -/
def replaceFirstChar (c d : Char) : List Char → List Char
  | [] => []
  | x :: xs => if x = c then d :: xs else x :: replaceFirstChar c d xs

/-- `s.replace(c, d)` for one-character string patterns: a string pattern replaces the FIRST
occurrence only. -/
def replace (s : String) (c d : Char) : String := ⟨replaceFirstChar c d s.data⟩

/-- Replace every occurrence of the character `c` by `d` (what `replaceAll` would do). -/
def replaceEvery (s : String) (c d : Char) : String :=
  ⟨s.data.map fun x => if x = c then d else x⟩

/-- Helper of `split`: the first word and the remaining words of a space-separated text. -/
def splitWords : List Char → List Char × List (List Char)
  | [] => ([], [])
  | c :: cs =>
    let r := splitWords cs
    if c = ' ' then ([], r.1 :: r.2) else (c :: r.1, r.2)

/-- `s.split(' ')`: the pieces between single spaces; never empty (`''.split(' ')` is `['']`). -/
def split (s : String) : List String :=
  let r := splitWords s.data
  (r.1 :: r.2).map String.mk

/-! ## Progress Aggregator: `Dashboard.js`, `EnhancedDashboard.js`, `ModernDashboard.js` -/

/-- One entry of the derived skill list `{ name, level, confidence }`; `confidence` is `none`
where the object literal has no such property. -/
structure SkillEntry where
  name : String
  level : ℤ
  confidence : Option ℚ
  deriving DecidableEq, Repr

namespace Dashboard

/-- The level of `Dashboard.js`, `load`. -/
def level (confidence : ℚ) : ℤ :=
  max 1 (min 5 (jsOrInt (mathRound (jsOr confidence 0 * 5)) 1))

/-- The derived list of `Dashboard.js`:
`Object.entries(levels).map(([code, confidence]) => ({ name, level }))`. -/
def derived (levels : List (String × ℚ)) : List SkillEntry :=
  levels.map fun e =>
    { name := replace e.1 '_' ' ', level := level e.2, confidence := none }

end Dashboard

namespace EnhancedDashboard

/-- The level of `EnhancedDashboard.js`, `loadData`. -/
def level (confidence : ℚ) : ℤ :=
  max 1 (min 5 (jsOrInt (mathRound (jsOr confidence 0 * 5)) 1))

/-- The derived list of `EnhancedDashboard.js`: `confidence: confidence`. -/
def derived (levels : List (String × ℚ)) : List SkillEntry :=
  levels.map fun e =>
    { name := replace e.1 '_' ' ', level := level e.2, confidence := some e.2 }

end EnhancedDashboard

namespace ModernDashboard

/-- The level of `ModernDashboard.js`, `loadData`. -/
def level (confidence : ℚ) : ℤ :=
  max 1 (min 5 (jsOrInt (mathRound (jsOr confidence 0 * 5)) 1))

/-- The derived list of `ModernDashboard.js`: `confidence: confidence || 0`. -/
def derived (levels : List (String × ℚ)) : List SkillEntry :=
  levels.map fun e =>
    { name := replace e.1 '_' ' ', level := level e.2, confidence := some (jsOr e.2 0) }

end ModernDashboard

/-- The level as the specification words it: `clamp(1, 5, round(c*5) or 1)`, with round-half-up
and a zero result replaced by `1`. -/
def specLevel (c : ℚ) : ℤ :=
  let r : ℤ := ⌊c * 5 + 1 / 2⌋
  let r1 : ℤ := if r = 0 then 1 else r
  if r1 < 1 then 1 else if 5 < r1 then 5 else r1

/-! ## Skill-Gap Analyzer: `SkillGapAnalysis.js` -/

namespace SkillGapAnalysis

/-- One element of the `skillData` prop: `{ name, level, confidence }`. -/
structure Skill where
  name : String
  level : ℚ
  confidence : Option ℚ
  deriving DecidableEq, Repr

/-- One entry of `resume.extractedSkills`; a property that is absent is `none`. -/
structure ResumeItem where
  skillName : Option String
  yearsExperience : Option ℚ
  deriving DecidableEq, Repr

/-- What `JSON.parse` makes of a string: it throws, or yields a value that is not an array, or
yields an array (a `null` element is `none`). -/
inductive JsonParse where
  | syntaxError
  | notArray
  | array (items : List (Option ResumeItem))
  deriving DecidableEq, Repr

/-- The property `resume.extractedSkills`: a non-empty string (given with what `JSON.parse`
returns on it), an array, or anything else. -/
inductive ExtractedSkills where
  | text (parsed : JsonParse)
  | array (items : List (Option ResumeItem))
  | other
  deriving DecidableEq, Repr

/-- The `resumeData` prop. -/
structure Resume where
  extractedSkills : ExtractedSkills
  deriving DecidableEq, Repr

/-- One element of the `userResponses` prop. -/
structure Response where
  questionType : Option String
  responseText : Option String
  confidenceLevel : Option ℚ
  thinkTimeSeconds : Option ℚ
  deriving DecidableEq, Repr

/-- The counters object built by `analyzeUserResponses`; a counter never written is `none`. -/
structure ResponseEvidence where
  shortResponses : Option ℕ
  lowConfidence : Option ℕ
  quickResponses : Option ℕ
  deriving DecidableEq, Repr

/-- One roadmap entry `{ phase, duration, activities }`. -/
structure Phase where
  phase : String
  duration : String
  activities : List String
  deriving DecidableEq, Repr

/-- One growth opportunity, the object literal built in `analyzeSkillGaps`. -/
structure Opportunity where
  skill : String
  currentLevel : ℚ
  targetLevel : ℚ
  growth : ℚ
  priority : ℚ
  evidence : List String
  roadmap : List Phase
  id : String
  deriving DecidableEq, Repr

/-- The object passed to `setGapAnalysis`. -/
structure GapAnalysis where
  totalOpportunities : ℕ
  highImpact : ℕ
  moderateImpact : ℕ
  opportunities : List Opportunity
  deriving DecidableEq, Repr

/-- The props of the component that the analysis reads. -/
structure Props where
  skillData : Option (List Skill)
  targetRole : Option String
  resumeData : Option Resume
  userResponses : Option (List Response)
  deriving DecidableEq, Repr

/-- Truthiness of a string-valued prop: neither absent nor the empty string. -/
def truthy (role : Option String) : Bool :=
  match role with
  | some r => r != ""
  | none => false

/-- The object `map` of `extractResumeSkills`, as an association list in insertion order: its
own properties and their numeric values.  The property names an object inherits from
`Object.prototype` are not modelled here; `ObjectMap` models the object with them, and the two
read the same value under every other name (`WithPrototype.extractResumeSkills_agrees`). -/
abbrev BoostMap := List (String × ℚ)

/-- The lookup `map[key]`, `none` for `undefined`. -/
def BoostMap.get (m : BoostMap) (key : String) : Option ℚ := m.lookup key

/-- The assignment `map[key] = v`. -/
def BoostMap.set (m : BoostMap) (key : String) (v : ℚ) : BoostMap :=
  if (m.lookup key).isSome then m.map fun e => if e.1 = key then (key, v) else e
  else m ++ [(key, v)]

/-- The body of the `forEach` of `extractResumeSkills`; `none` when the body throws (a `null`
element has no `skillName`). -/
def extractStep (map : BoostMap) (item : Option ResumeItem) : Option BoostMap :=
  match item with
  | none => none
  | some it =>
    let key := toLowerCase (it.skillName.getD "")
    if key = "" then some map
    else
      let boost : ℚ := match it.yearsExperience with
        | some y => if y ≥ 2 then 1 else 1 / 2
        | none => 1 / 2
      some (map.set key (max (jsOr ((map.get key).getD 0) 0) boost))

/-- The `forEach` loop of `extractResumeSkills`, from the map built so far. -/
def extractLoop : BoostMap → List (Option ResumeItem) → Option BoostMap
  | map, [] => some map
  | map, item :: rest =>
    match extractStep map item with
    | none => none
    | some map1 => extractLoop map1 rest

/-- `extractResumeSkills`: the boost map of a resume; every exception ends in `{}`. -/
def extractResumeSkills (resume : Option Resume) : BoostMap :=
  match resume with
  | none => []
  | some r =>
    match r.extractedSkills with
    | ExtractedSkills.text JsonParse.syntaxError => []
    | ExtractedSkills.text JsonParse.notArray => []
    | ExtractedSkills.text (JsonParse.array items) => (extractLoop [] items).getD []
    | ExtractedSkills.array items => (extractLoop [] items).getD []
    | ExtractedSkills.other => []

/-- The body of the `forEach` of `analyzeUserResponses`. -/
def responseStep (evidence : ResponseEvidence) (response : Response) : ResponseEvidence :=
  let questionType := match response.questionType with
    | some t => if t = "" then "text" else t
    | none => "text"
  let responseText := response.responseText.getD ""
  let confidence := jsOr (response.confidenceLevel.getD 0) (1 / 2)
  let e1 : ResponseEvidence :=
    if questionType = "text" ∧ responseText.length < 50 then
      { evidence with shortResponses := some (evidence.shortResponses.getD 0 + 1) }
    else evidence
  let e2 : ResponseEvidence :=
    if confidence < 3 / 5 then { e1 with lowConfidence := some (e1.lowConfidence.getD 0 + 1) }
    else e1
  match response.thinkTimeSeconds with
  | some t =>
    if t ≠ 0 ∧ t < 30 then { e2 with quickResponses := some (e2.quickResponses.getD 0 + 1) }
    else e2
  | none => e2

/-- `analyzeUserResponses`: the counters over the past responses (`{}` when there are none). -/
def analyzeUserResponses (responses : Option (List Response)) : ResponseEvidence :=
  match responses with
  | none => ⟨none, none, none⟩
  | some rs => rs.foldl responseStep ⟨none, none, none⟩

/-- `calculatePriority(skill, role)`. -/
def calculatePriority (skill : Skill) (role : Option String) : ℚ :=
  let baseGap : ℚ := 4 - min 4 skill.level
  let programming : Bool :=
    includes (toLowerCase skill.name) "programming" || includes (toLowerCase skill.name) "coding"
  let roleBoost : ℚ :=
    if truthy role && includes (toLowerCase skill.name) (toLowerCase (role.getD "")) then 1 / 2
    else 0
  baseGap * (if programming then 3 / 2 else 1) + roleBoost

/-- `generateEvidence(skill, resume, responseEvidence)`; `targetRole` is the prop it closes
over. -/
def generateEvidence (targetRole : Option String) (skill : Skill) (resume : Option Resume)
    (responseEvidence : ResponseEvidence) : List String :=
  let resumeSkills := extractResumeSkills resume
  (if responseEvidence.lowConfidence.getD 0 > 2 then
      ["Multiple responses showed uncertainty - indicates knowledge gaps"] else []) ++
  (if responseEvidence.shortResponses.getD 0 > 3 then
      ["Brief responses suggest areas needing deeper understanding"] else []) ++
  (if responseEvidence.quickResponses.getD 0 > 2 then
      ["Quick responses may indicate surface-level knowledge"] else []) ++
  (match skill.confidence with
    | some c => if c < 2 / 5 then ["Assessment confidence indicates room for improvement"] else []
    | none => []) ++
  (if skill.level < 5 / 2 then
      ["Current proficiency level suggests foundational gaps"] else []) ++
  (match resumeSkills.get (toLowerCase skill.name) with
    | some b =>
      if b > 0 then ["Resume shows related experience - build on existing foundation"]
      else ["Limited direct experience in this area"]
    | none => ["Limited direct experience in this area"]) ++
  (if truthy targetRole &&
      includes (toLowerCase skill.name) (toLowerCase (targetRole.getD "")) then
      ["Highly relevant to target career path"] else [])

/-- `generateRoadmap(skill, role, evidence, responseEvidence)`: it reads `skill.level` only. -/
def generateRoadmap (skill : Skill) (_role : Option String) (_evidence : List String)
    (_responseEvidence : ResponseEvidence) : List Phase :=
  let currentLevel := skill.level
  (if currentLevel < 5 / 2 then
      [{ phase := "Foundation Building", duration := "2-4 weeks",
         activities := ["Complete introductory tutorials and courses",
           "Practice basic concepts through exercises",
           "Build simple projects to reinforce learning"] }]
    else []) ++
  [{ phase := "Skill Development", duration := "4-6 weeks",
     activities := ["Work on intermediate-level projects",
       "Study real-world applications and use cases",
       "Participate in coding challenges or exercises"] }] ++
  (if currentLevel < 4 then
      [{ phase := "Advanced Practice", duration := "6-8 weeks",
         activities := ["Build complex, portfolio-worthy projects",
           "Contribute to open-source or team projects",
           "Prepare for technical interviews and assessments"] }]
    else []) ++
  [{ phase := "Mastery & Specialization", duration := "Ongoing",
     activities := ["Stay updated with latest trends and technologies",
       "Mentor others and share knowledge",
       "Pursue advanced certifications or specializations"] }]

/-- `inferTargetLevel(skill, role)`. -/
def inferTargetLevel (skill : Skill) (role : Option String) : ℚ :=
  if !truthy role then 4
  else
    let name := toLowerCase skill.name
    if includes name (toLowerCase (role.getD "")) then 5
    else if includes name "foundations" || includes name "basics" then 3
    else 4

/-- The value `resumeSkills[skill.name.toLowerCase()] || 0` of `analyzeSkillGaps`. -/
def resumeBoost (resumeSkills : BoostMap) (skill : Skill) : ℚ :=
  jsOr ((resumeSkills.get (toLowerCase skill.name)).getD 0) 0

/-- The callback of `.map` in `analyzeSkillGaps`: the opportunity built for one skill. -/
def toOpportunity (props : Props) (resumeSkills : BoostMap) (responseEvidence : ResponseEvidence)
    (skill : Skill) : Opportunity :=
  let resumeBoost := jsOr ((resumeSkills.get (toLowerCase skill.name)).getD 0) 0
  let adjustedLevel := min 5 (max 1 (skill.level + resumeBoost))
  let targetLevel := inferTargetLevel skill props.targetRole
  let evidence := generateEvidence props.targetRole skill props.resumeData responseEvidence
  { skill := skill.name
    currentLevel := adjustedLevel
    targetLevel := targetLevel
    growth := max 0 (targetLevel - adjustedLevel)
    priority := calculatePriority skill props.targetRole
    evidence := evidence
    roadmap := generateRoadmap skill props.targetRole evidence responseEvidence
    id := skill.name }

/-- The comparator `(a, b) => b.priority - a.priority` does not put `b` before `a`. -/
def byPriority (a b : Opportunity) : Prop := b.priority - a.priority ≤ 0

instance byPriority.decidable : DecidableRel byPriority := fun a b =>
  inferInstanceAs (Decidable (b.priority - a.priority ≤ 0))

/-- The mapped list before `.filter(opp => opp.growth > 0)`: one opportunity for each skill with
`skill.level < 4`.  The effect calls `analyzeSkillGaps` for a non-empty array only; an absent
`skillData` is read as the empty array here. -/
def mapped (props : Props) : List Opportunity :=
  let resumeSkills := extractResumeSkills props.resumeData
  let responseEvidence := analyzeUserResponses props.userResponses
  ((props.skillData.getD []).filter fun skill => skill.level < 4).map
    (toOpportunity props resumeSkills responseEvidence)

/-- The constant `opportunities` of `analyzeSkillGaps`: filtered on `growth > 0` and sorted by
the comparator (`Array.prototype.sort` is stable). -/
def opportunities (props : Props) : List Opportunity :=
  ((mapped props).filter fun opp => opp.growth > 0).insertionSort byPriority

/-- The object `analyzeSkillGaps` passes to `setGapAnalysis`. -/
def analyzeSkillGaps (props : Props) : GapAnalysis :=
  let opportunities := opportunities props
  { totalOpportunities := opportunities.length
    highImpact := (opportunities.filter fun o => o.priority > 7 / 10).length
    moderateImpact :=
      (opportunities.filter fun o => o.priority ≤ 7 / 10 ∧ o.priority > 2 / 5).length
    opportunities := opportunities.take 5 }

/-- The component state: `gapAnalysis`, `loading`, `activeTab`. -/
structure State where
  gapAnalysis : Option GapAnalysis
  loading : Bool
  activeTab : String
  deriving DecidableEq, Repr

/-- The state of the `useState` initialisers. -/
def initialState : State := ⟨none, false, "insights"⟩

/-- The state once the effect and its timer have run: the effect starts an analysis only for a
non-empty `skillData`, and the timer callback stores the result and clears `loading`. -/
def settledState (props : Props) : State :=
  match props.skillData with
  | some (_ :: _) =>
    { initialState with gapAnalysis := some (analyzeSkillGaps props), loading := false }
  | _ => initialState

/-- The three `return`s of the component body. -/
inductive View where
  | loadingSkeleton
  | noGapsCard
  | analysisTabs (targetRole : Option String) (activeTab : String) (gapAnalysis : GapAnalysis)
  deriving DecidableEq, Repr

/-- The render branches: `if (loading)`, then
`if (!gapAnalysis || gapAnalysis.totalOpportunities === 0)`, then the tabbed view. -/
def render (props : Props) (state : State) : View :=
  if state.loading then View.loadingSkeleton
  else
    match state.gapAnalysis with
    | none => View.noGapsCard
    | some g =>
      if g.totalOpportunities = 0 then View.noGapsCard
      else View.analysisTabs props.targetRole state.activeTab g

/-- The opportunity `analyzeSkillGaps` builds for `skill` under the given props. -/
def opportunityOf (props : Props) (skill : Skill) : Opportunity :=
  toOpportunity props (extractResumeSkills props.resumeData)
    (analyzeUserResponses props.userResponses) skill

/-- The specification's `clamp(lo, hi, x)`. -/
def clamp (lo hi x : ℚ) : ℚ := max lo (min hi x)

/-- The phase names of the roadmap template as the specification words it, keyed off a level:
"Foundation Building" only below 2.5, "Skill Development" always, "Advanced Practice" only
below 4, "Mastery & Specialization" always last. -/
def specRoadmapPhases (level : ℚ) : List String :=
  (if level < 5 / 2 then ["Foundation Building"] else []) ++ ["Skill Development"] ++
    (if level < 4 then ["Advanced Practice"] else []) ++ ["Mastery & Specialization"]

/-- The test `programming` of `calculatePriority`: the name mentions programming or coding. -/
def mentionsProgramming (skill : Skill) : Bool :=
  includes (toLowerCase skill.name) "programming" || includes (toLowerCase skill.name) "coding"

/-- The specification's scenario: `javascript` at level 2, three years of it on the resume,
target role "Software Engineer". -/
def scenarioProps : Props :=
  { skillData := some [⟨"javascript", 2, some (3 / 10)⟩]
    targetRole := some "Software Engineer"
    resumeData := some ⟨ExtractedSkills.array [some ⟨some "JavaScript", some 3⟩]⟩
    userResponses := none }

/-- Two skills of the same level and no role: their priorities tie. -/
def tieProps : Props :=
  { skillData := some [⟨"sql", 2, none⟩, ⟨"docker", 2, none⟩]
    targetRole := none, resumeData := none, userResponses := none }

/-- A skill matching the role at level 3 and a "basics" skill at level 2. -/
def roleProps : Props :=
  { skillData := some [⟨"react", 3, none⟩, ⟨"sql basics", 2, none⟩]
    targetRole := some "React", resumeData := none, userResponses := none }

/-- A skill at level 3 without resume evidence and one at level 2.5 with two years of it. -/
def boostProps : Props :=
  { skillData := some [⟨"sql", 3, none⟩, ⟨"docker", 5 / 2, none⟩]
    targetRole := none
    resumeData := some ⟨ExtractedSkills.array [some ⟨some "Docker", some 2⟩]⟩
    userResponses := none }

/-- A plain skill at level 2.8 and a "coding" skill at level 3. -/
def codingProps : Props :=
  { skillData := some [⟨"sql", 14 / 5, none⟩, ⟨"coding", 3, none⟩]
    targetRole := none, resumeData := none, userResponses := none }

/-- An empty skill list: the effect never starts an analysis. -/
def emptyProps : Props :=
  { skillData := some [], targetRole := none, resumeData := none, userResponses := none }

/-- One skill already at level 5: the analysis runs and no opportunity survives. -/
def masteredProps : Props :=
  { skillData := some [⟨"sql", 5, none⟩]
    targetRole := none, resumeData := none, userResponses := none }

end SkillGapAnalysis

/-! ## Resource Relevance Matcher: `FreeResourcesCard.js` -/

namespace FreeResourcesCard

/-- One element of the `skillGaps` prop; the component reads its `skill` only. -/
structure SkillGap where
  skill : String
  deriving DecidableEq, Repr

/-- One learning resource.  The two score properties are `none` on the catalog entries and are
added by the spread `{ ...resource, relevanceScore, averageRelevance }`. -/
structure Resource where
  id : ℕ
  title : String
  platform : String
  type : String
  duration : String
  rating : ℚ
  students : String
  url : String
  skills : List String
  difficulty : String
  description : String
  relevanceScore : Option ℚ
  averageRelevance : Option ℚ
  deriving DecidableEq, Repr

/-- The catalog `mockResources`. -/
def mockResources : List Resource := [
  { id := 1, title := "JavaScript Fundamentals", platform := "freeCodeCamp",
    type := "Interactive Course", duration := "10 hours", rating := 48 / 10,
    students := "2.1M",
    url := "https://www.freecodecamp.org/learn/javascript-algorithms-and-data-structures/",
    skills := ["javascript", "programming", "algorithms"],
    difficulty := "Beginner",
    description := "Complete interactive JavaScript course with hands-on projects",
    relevanceScore := none, averageRelevance := none },
  { id := 2, title := "Python for Data Science", platform := "Coursera",
    type := "Course", duration := "8 hours", rating := 47 / 10,
    students := "500K",
    url := "https://www.coursera.org/learn/python-data-analysis",
    skills := ["python", "data analysis", "pandas"],
    difficulty := "Intermediate",
    description := "Learn Python data analysis with pandas and numpy",
    relevanceScore := none, averageRelevance := none },
  { id := 3, title := "React.js Documentation", platform := "React",
    type := "Documentation", duration := "Self-paced", rating := 49 / 10,
    students := "N/A",
    url := "https://reactjs.org/docs/getting-started.html",
    skills := ["react", "frontend", "javascript"],
    difficulty := "All Levels",
    description := "Official React documentation with tutorials and guides",
    relevanceScore := none, averageRelevance := none },
  { id := 4, title := "SQLZoo", platform := "SQLZoo",
    type := "Interactive Exercises", duration := "6 hours", rating := 46 / 10,
    students := "1M",
    url := "https://sqlzoo.net/",
    skills := ["sql", "database", "queries"],
    difficulty := "Beginner to Intermediate",
    description := "Interactive SQL exercises from basic to advanced queries",
    relevanceScore := none, averageRelevance := none },
  { id := 5, title := "CS50's Introduction to Computer Science", platform := "Harvard University",
    type := "Video Lectures", duration := "12 weeks", rating := 49 / 10,
    students := "2M",
    url := "https://cs50.harvard.edu/college/2022/spring/",
    skills := ["computer science", "programming", "algorithms"],
    difficulty := "Beginner",
    description := "Harvard's introductory computer science course",
    relevanceScore := none, averageRelevance := none },
  { id := 6, title := "The Odin Project", platform := "The Odin Project",
    type := "Full Curriculum", duration := "Self-paced", rating := 47 / 10,
    students := "500K",
    url := "https://www.theodinproject.com/",
    skills := ["web development", "html", "css", "javascript"],
    difficulty := "Beginner to Advanced",
    description := "Open-source full-stack web development curriculum",
    relevanceScore := none, averageRelevance := none },
  { id := 7, title := "Machine Learning by Andrew Ng", platform := "Coursera",
    type := "Course", duration := "11 weeks", rating := 49 / 10,
    students := "3.2M",
    url := "https://www.coursera.org/learn/machine-learning",
    skills := ["machine learning", "ai", "python", "mathematics"],
    difficulty := "Intermediate",
    description := "Stanford's machine learning course by Andrew Ng",
    relevanceScore := none, averageRelevance := none },
  { id := 8, title := "AWS Cloud Practitioner Essentials", platform := "AWS",
    type := "Course", duration := "6 hours", rating := 46 / 10,
    students := "800K",
    url := "https://aws.amazon.com/training/learn-about/cloud-practitioner/",
    skills := ["cloud computing", "aws", "devops"],
    difficulty := "Beginner",
    description := "Learn AWS cloud fundamentals and core services",
    relevanceScore := none, averageRelevance := none },
  { id := 9, title := "Docker for Beginners", platform := "Docker",
    type := "Tutorial", duration := "4 hours", rating := 45 / 10,
    students := "600K",
    url := "https://docker-curriculum.com/",
    skills := ["docker", "containers", "devops"],
    difficulty := "Beginner to Intermediate",
    description := "Learn containerization with Docker",
    relevanceScore := none, averageRelevance := none },
  { id := 10, title := "Git & GitHub Crash Course", platform := "freeCodeCamp",
    type := "Video Course", duration := "1.5 hours", rating := 47 / 10,
    students := "1.8M",
    url := "https://www.youtube.com/watch?v=SWYqp7iY_Tc",
    skills := ["git", "github", "version control"],
    difficulty := "Beginner",
    description := "Complete Git and GitHub tutorial for beginners",
    relevanceScore := none, averageRelevance := none },
  { id := 11, title := "System Design Interview", platform := "Grokking",
    type := "Course", duration := "8 hours", rating := 48 / 10,
    students := "150K",
    url := "https://www.educative.io/courses/grokking-the-system-design-interview",
    skills := ["system design", "architecture", "scalability"],
    difficulty := "Advanced",
    description := "Master system design for technical interviews",
    relevanceScore := none, averageRelevance := none },
  { id := 12, title := "Cybersecurity Fundamentals", platform := "Cybrary",
    type := "Course", duration := "10 hours", rating := 46 / 10,
    students := "400K",
    url := "https://www.cybrary.it/course/comptia-cysa/",
    skills := ["cybersecurity", "security", "networking"],
    difficulty := "Beginner to Intermediate",
    description := "Learn cybersecurity basics and best practices",
    relevanceScore := none, averageRelevance := none }]

/-- The table `skillSynonyms`, in source order.  Property names inherited from
`Object.prototype` are not modelled. -/
def skillSynonyms : List (String × List String) := [
  ("javascript", ["js", "ecmascript", "frontend scripting", "client-side scripting"]),
  ("python", ["py", "python programming", "data science scripting"]),
  ("react", ["reactjs", "react.js", "facebook react", "frontend framework"]),
  ("sql", ["database queries", "relational databases", "structured query language"]),
  ("machine learning", ["ml", "artificial intelligence", "ai", "predictive modeling"]),
  ("data analysis", ["data analytics", "data science", "business intelligence"]),
  ("cloud computing", ["aws", "azure", "gcp", "cloud services"]),
  ("docker", ["containerization", "containers", "docker containers"]),
  ("git", ["version control", "source control", "github", "gitlab"]),
  ("system design", ["architecture", "scalability", "distributed systems"]),
  ("cybersecurity", ["security", "information security", "cyber defense"])]

/-- The inner `synonyms.forEach` body of `calculateSkillRelevance`. -/
def synonymStep (gapSkill : String) (maxRelevance : ℚ) (synonym : String) : ℚ :=
  if includes gapSkill synonym || includes synonym gapSkill then max maxRelevance (9 / 10)
  else maxRelevance

/-- The `resourceSkills.forEach` body of `calculateSkillRelevance`: the running `maxRelevance`
after one resource skill. -/
def relevanceStep (gapSkill : String) (maxRelevance : ℚ) (resourceSkill : String) : ℚ :=
  let resourceSkillLower := toLowerCase resourceSkill
  let m1 : ℚ :=
    if includes gapSkill resourceSkillLower || includes resourceSkillLower gapSkill then
      max maxRelevance 1
    else maxRelevance
  let synonyms := (skillSynonyms.lookup resourceSkillLower).getD []
  let m2 : ℚ := synonyms.foldl (synonymStep gapSkill) m1
  let gapWords := split gapSkill
  let resourceWords := split resourceSkillLower
  let commonWords := gapWords.filter fun word => resourceWords.contains word
  if commonWords.length > 0 then
    max m2 ((commonWords.length : ℚ) / ((max gapWords.length resourceWords.length : ℕ) : ℚ))
  else m2

/-- `calculateSkillRelevance(resourceSkills, userSkillGap)`. -/
def calculateSkillRelevance (resourceSkills : List String) (userSkillGap : SkillGap) : ℚ :=
  let gapSkill := toLowerCase userSkillGap.skill
  resourceSkills.foldl (relevanceStep gapSkill) 0

/-- `Math.max(x, ...xs)` on a non-empty argument list. -/
def mathMax (x : ℚ) (xs : List ℚ) : ℚ := xs.foldl max x

/-- The callback of `mockResources.map` in the effect, for the non-empty gap list
`gap :: gaps`: the resource with its two scores. -/
def withScores (gap : SkillGap) (gaps : List SkillGap) (resource : Resource) : Resource :=
  let score0 := calculateSkillRelevance resource.skills gap
  let scores := gaps.map fun g => calculateSkillRelevance resource.skills g
  let maxRelevance := mathMax score0 scores
  let averageRelevance := (score0 :: scores).foldl (fun sum score => sum + score) 0
    / (((score0 :: scores).length : ℕ) : ℚ)
  { resource with relevanceScore := some maxRelevance, averageRelevance := some averageRelevance }

/-- The constant `resourcesWithScores` of the effect. -/
def resourcesWithScores (gap : SkillGap) (gaps : List SkillGap) : List Resource :=
  mockResources.map (withScores gap gaps)

/-- The test `resource.relevanceScore > 0.3` (false on a missing score). -/
def isRelevant (resource : Resource) : Bool :=
  match resource.relevanceScore with
  | some s => s > 3 / 10
  | none => false

/-- The comparator `(a, b) => b.relevanceScore - a.relevanceScore` does not put `b` first. -/
def byRelevance (a b : Resource) : Prop :=
  match a.relevanceScore, b.relevanceScore with
  | some x, some y => y - x ≤ 0
  | _, _ => True

instance byRelevance.decidable : DecidableRel byRelevance := fun a b => by
  unfold byRelevance
  split <;> infer_instance

/-- The comparator `(a, b) => b.averageRelevance - a.averageRelevance` does not put `b` first. -/
def byAverage (a b : Resource) : Prop :=
  match a.averageRelevance, b.averageRelevance with
  | some x, some y => y - x ≤ 0
  | _, _ => True

instance byAverage.decidable : DecidableRel byAverage := fun a b => by
  unfold byAverage
  split <;> infer_instance

/-- The constant `relevantResources`: filtered above 0.3, sorted, the first four. -/
def relevantResources (gap : SkillGap) (gaps : List SkillGap) : List Resource :=
  (((resourcesWithScores gap gaps).filter isRelevant).insertionSort byRelevance).take 4

/-- The constant `fallbackResources`: all resources sorted by average relevance, the first
four. -/
def fallbackResources (gap : SkillGap) (gaps : List SkillGap) : List Resource :=
  ((resourcesWithScores gap gaps).insertionSort byAverage).take 4

/-- The effect on `skillGaps`: the list it passes to `setResources`. -/
def displayedResources (skillGaps : Option (List SkillGap)) : List Resource :=
  match skillGaps with
  | some (gap :: gaps) =>
    if (relevantResources gap gaps).length = 0 then fallbackResources gap gaps
    else relevantResources gap gaps
  | _ => mockResources.take 4

/-- The overall relevance of a catalog resource against the gaps `gap :: gaps`: the maximum of
`calculateSkillRelevance` over the gaps. -/
def overallScore (gap : SkillGap) (gaps : List SkillGap) (resource : Resource) : ℚ :=
  mathMax (calculateSkillRelevance resource.skills gap)
    (gaps.map fun g => calculateSkillRelevance resource.skills g)

/-- The synonym test of `calculateSkillRelevance`, for a table key `key` against the other
string: some synonym listed under `key` contains `other` or is contained in it. -/
def synonymMatch (key other : String) : Bool :=
  ((skillSynonyms.lookup key).getD []).any fun synonym =>
    includes other synonym || includes synonym other

end FreeResourcesCard

/-! ## Suggestion Cache: `AISuggestionsCard.js` -/

namespace AISuggestionsCard

/-- The `session` prop; the component reads its `id`, and `0` is the falsy id. -/
structure Session where
  id : ℕ
  deriving DecidableEq, Repr

/-- The object stored under `ai_suggestions_<id>`: `{ suggestions, timestamp }`, the timestamp
in milliseconds. -/
structure CacheData where
  suggestions : String
  timestamp : ℤ
  deriving DecidableEq, Repr

/-- The part of `localStorage` the component touches: the cache items, keyed by the session id
of their key `ai_suggestions_<id>` and held as the object `JSON.parse` returns on them, and the
item `openai_api_key`. -/
structure Storage where
  cache : List (ℕ × CacheData)
  openaiApiKey : Option String
  deriving DecidableEq, Repr

/-- `localStorage.getItem(cacheKey)` followed by `JSON.parse`. -/
def Storage.getItem (storage : Storage) (id : ℕ) : Option CacheData := storage.cache.lookup id

/-- `localStorage.setItem(cacheKey, JSON.stringify(data))`. -/
def Storage.setItem (storage : Storage) (id : ℕ) (data : CacheData) : Storage :=
  { storage with
    cache :=
      if (storage.cache.lookup id).isSome then
        storage.cache.map fun e => if e.1 = id then (id, data) else e
      else storage.cache ++ [(id, data)] }

/-- One record of the historical feedback list. -/
structure Feedback where
  feedbackType : String
  content : String
  deriving DecidableEq, Repr

/-- What the historical lookup `fetch('/api/user-data/session/<id>/feedback')` does: it throws
(also when `json()` throws), answers with a status that is not ok, or answers with a body
(`none` for a `null` body). -/
inductive Historical where
  | throws
  | notOk
  | ok (feedbackData : Option (List Feedback))
  deriving DecidableEq, Repr

/-- The outside world of one run of `loadSuggestions`: the clock at the cache check and at the
cache write, the answers of the three remote sources (`none` for a rejected promise) and the
build-time credential `process.env.REACT_APP_OPENAI_API_KEY`. -/
structure Env where
  now : ℤ
  nowAtWrite : ℤ
  historical : Historical
  fetchFeedback : Option String
  envApiKey : Option String
  generateSuggestions : Option String
  deriving DecidableEq, Repr

/-- The component state written by `loadSuggestions`. -/
structure State where
  suggestions : String
  loading : Bool
  error : Option String
  deriving DecidableEq, Repr

/-- One remote call. -/
inductive Call where
  | historicalFeedback (sessionId : ℕ)
  | fetchFeedback (sessionId : ℕ)
  | generateSuggestions (apiKey : String)
  deriving DecidableEq, Repr

/-- What one run leaves behind: the state, the storage and the remote calls in order. -/
structure Outcome where
  state : State
  storage : Storage
  calls : List Call
  deriving DecidableEq, Repr

/-- The message of `setError` in the outer `catch`. -/
def errorMessage : String :=
  "Unable to load AI suggestions at this time. Please try again later."

/-- The record `feedbackData.find(f => f.feedbackType === 'AI_SUGGESTIONS')` of the historical
step, when the fetch succeeds with an ok status and a non-empty list. -/
def aiFeedback (historical : Historical) : Option Feedback :=
  match historical with
  | Historical.ok (some (f :: fs)) =>
    (f :: fs).find? fun f => f.feedbackType = "AI_SUGGESTIONS"
  | _ => none

/-- The credential `localStorage.getItem('openai_api_key') || process.env...`, `none` when both
are missing or empty. -/
def apiKey (env : Env) (storage : Storage) : Option String :=
  match storage.openaiApiKey with
  | some k => if k ≠ "" then some k else env.envApiKey.filter fun e => e ≠ ""
  | none => env.envApiKey.filter fun e => e ≠ ""

/-- The part of `loadSuggestions` after the cache check: the historical record, then the
backend, then the client-side generation; `st` already has `loading` set and `error` cleared. -/
def fallbackChain (env : Env) (id : ℕ) (st : State) (storage : Storage) : Outcome :=
  match aiFeedback env.historical with
  | some f =>
    { state := { st with suggestions := f.content, loading := false }
      storage := storage.setItem id ⟨f.content, env.nowAtWrite⟩
      calls := [Call.historicalFeedback id] }
  | none =>
    match env.fetchFeedback with
    | some data =>
      { state := { st with suggestions := data, loading := false }
        storage := storage.setItem id ⟨data, env.nowAtWrite⟩
        calls := [Call.historicalFeedback id, Call.fetchFeedback id] }
    | none =>
      match apiKey env storage with
      | some key =>
        match env.generateSuggestions with
        | some text =>
          { state := { st with suggestions := text, loading := false }
            storage := storage.setItem id ⟨text, env.nowAtWrite⟩
            calls := [Call.historicalFeedback id, Call.fetchFeedback id,
              Call.generateSuggestions key] }
        | none =>
          { state := { st with error := some errorMessage, loading := false }
            storage := storage
            calls := [Call.historicalFeedback id, Call.fetchFeedback id,
              Call.generateSuggestions key] }
      | none =>
        { state := { st with error := some errorMessage, loading := false }
          storage := storage
          calls := [Call.historicalFeedback id, Call.fetchFeedback id] }

/-- `loadSuggestions`: nothing without a session id; otherwise the cache entry younger than
24 hours, or else the fallback chain. -/
def loadSuggestions (env : Env) (session : Option Session) (st : State) (storage : Storage) :
    Outcome :=
  match session with
  | none => ⟨st, storage, []⟩
  | some s =>
    if s.id = 0 then ⟨st, storage, []⟩
    else
      let st1 : State := { st with loading := true, error := none }
      match storage.getItem s.id with
      | some cacheData =>
        if env.now - cacheData.timestamp < 24 * 60 * 60 * 1000 then
          { state := { st1 with suggestions := cacheData.suggestions, loading := false }
            storage := storage
            calls := [] }
        else fallbackChain env s.id st1 storage
      | none => fallbackChain env s.id st1 storage

/-- The refresh button: `onClick={loadSuggestions}`, `disabled={loading}`. -/
def refreshClick (env : Env) (session : Option Session) (st : State) (storage : Storage) :
    Outcome :=
  if st.loading then ⟨st, storage, []⟩ else loadSuggestions env session st storage

/-- A world in which every source answers: a historical record, the backend and the client-side
generation; the clock stands one hour after the timestamp of `hourOldStorage`. -/
def allSourcesEnv : Env :=
  { now := 3600000, nowAtWrite := 3600500
    historical := Historical.ok (some [⟨"AI_SUGGESTIONS", "historical advice"⟩])
    fetchFeedback := some "backend advice"
    envApiKey := some "sk-test"
    generateSuggestions := some "generated advice" }

/-- A world in which every source fails. -/
def noSourceEnv (now : ℤ) : Env :=
  { now := now, nowAtWrite := now
    historical := Historical.throws
    fetchFeedback := none
    envApiKey := none
    generateSuggestions := none }

/-- A storage holding one cache entry for session 7, captured at time 0. -/
def hourOldStorage : Storage :=
  { cache := [(7, ⟨"cached advice", 0⟩)], openaiApiKey := none }

/-- The state of the `useState` initialisers. -/
def initialState : State := ⟨"", false, none⟩

end AISuggestionsCard

/-! ## Session Orchestrator: `useAssessment.js`, `useBatchAssessment.js`,
`EnhancedAssessmentFlow.js`, `QuestionCard.js`, `QuestionCardUpdated.js` -/

/-- The code points of the ECMAScript white space and line terminators: what `trim` strips and
what the regular expression `\s` matches. -/
def isWhiteSpace (c : Char) : Bool :=
  [9, 10, 11, 12, 13, 32, 160, 5760, 8232, 8233, 8239, 8287, 12288, 65279].contains c.toNat ||
    (8192 ≤ c.toNat && c.toNat ≤ 8202)

/-- `String.prototype.trim`. -/
def trim (s : String) : String :=
  ⟨((s.data.dropWhile isWhiteSpace).reverse.dropWhile isWhiteSpace).reverse⟩

/-- Helper of `splitWhiteSpace`: the first piece and the remaining pieces. -/
def splitRuns : List Char → List Char × List (List Char)
  | [] => ([], [])
  | c :: cs =>
    let r := splitRuns cs
    if isWhiteSpace c then
      match cs with
      | d :: _ => if isWhiteSpace d then r else ([], r.1 :: r.2)
      | [] => ([], r.1 :: r.2)
    else (c :: r.1, r.2)

/-- `s.split(/\s+/)`: the pieces between maximal runs of white space. -/
def splitWhiteSpace (s : String) : List String :=
  let r := splitRuns s.data
  (r.1 :: r.2).map String.mk

/-- The word count `text.trim() === '' ? 0 : text.trim().split(/\s+/).length`. -/
def countWords (text : String) : ℕ :=
  if trim text = "" then 0 else (splitWhiteSpace (trim text)).length

/-- The value `a || b` for a string property `a` that may be missing. -/
def orString (a : Option String) (b : String) : String :=
  match a with
  | some x => if x = "" then b else x
  | none => b

/-- What `JSON.parse` makes of a string: it throws, or yields an array (of option strings), or
`null`, or a string, or any other value (a number, a boolean, a plain object). -/
inductive JsonValue where
  | syntaxError
  | array (items : List String)
  | null
  | string (s : String)
  | other
  deriving DecidableEq, Repr

/-- The encoding of the property `options` (or `choices`) of a question: an array of option
strings, a string (given with what `JSON.parse` returns on it), or anything else, a missing
property included. -/
inductive Encoded where
  | array (items : List String)
  | text (s : String) (parsed : JsonValue)
  | other
  deriving DecidableEq, Repr

/-- The `data` of a next-question response, also the `question` prop of the cards: a stop
signal `{ shouldStop: true, reason }` or a question record (`shouldStop` is the truthiness of
that property, false on a question). -/
structure Question where
  id : ℕ := 0
  questionText : String := ""
  questionType : Option String := none
  type : Option String := none
  correctAnswer : Option String := none
  shouldStop : Bool := false
  reason : Option String := none
  options : Encoded := Encoded.other
  choices : Encoded := Encoded.other
  deriving DecidableEq, Repr

/-- The progress snapshot of the backend. -/
structure Progress where
  questionsAnswered : ℕ
  totalQuestions : ℕ
  overallProgress : ℚ
  skillConfidenceLevels : List (String × ℚ)
  deriving DecidableEq, Repr

/-- The object a component submits; a property it does not set (or sets to `undefined` or
`null`) is `none`. -/
structure ResponseData where
  sessionToken : Option String := none
  sessionId : Option ℕ := none
  questionId : Option ℕ := none
  responseText : Option String := none
  responseChoice : Option String := none
  responseScale : Option ℚ := none
  confidenceLevel : Option ℚ := none
  thinkTimeSeconds : Option ℤ := none
  thinkTime : Option ℤ := none
  totalTimeSeconds : Option ℤ := none
  isCorrect : Option Bool := none
  charCount : Option ℕ := none
  wordCount : Option ℕ := none
  typingSpeedWpm : Option ℚ := none
  editCount : Option ℕ := none
  pasteDetected : Option Bool := none
  deriving DecidableEq, Repr

/-- One request to `assessmentService`. -/
inductive Request where
  | fetchNextQuestion
  | fetchAssessmentProgress
  | fetchRecommendedQuestions (count : ℕ)
  | submitResponse (responseData : ResponseData)
  deriving DecidableEq, Repr

/-- How an `async` function ends. -/
inductive Settled where
  | resolved
  | rejected
  deriving DecidableEq, Repr

namespace useAssessment

/-- The state of the hook. -/
structure State where
  currentQuestion : Option Question
  progress : Option Progress
  shouldStop : Bool
  stopReason : Option String
  loading : Bool
  deriving DecidableEq, Repr

/-- The answers of the service during one operation, `none` or `false` for a rejected call. -/
structure Env where
  fetchNextQuestion : Option Question
  fetchAssessmentProgress : Option Progress
  submitResponse : Bool
  deriving DecidableEq, Repr

/-- What an operation of the hook leaves behind. -/
structure Run where
  state : State
  requests : List Request
  settled : Settled
  deriving DecidableEq, Repr

/-- The state of the `useState` initialisers. -/
def initialState : State := ⟨none, none, false, none, false⟩

/-- `loadNextQuestion`. -/
def loadNextQuestion (env : Env) (s : State) : Run :=
  let s1 : State := { s with loading := true }
  let s2 : State :=
    match env.fetchNextQuestion with
    | some data =>
      if data.shouldStop then
        { s1 with shouldStop := true, stopReason := data.reason, currentQuestion := none }
      else { s1 with currentQuestion := some data, shouldStop := false, stopReason := none }
    | none => s1
  { state := { s2 with loading := false }
    requests := [Request.fetchNextQuestion]
    settled := Settled.resolved }

/-- `loadProgress`. -/
def loadProgress (env : Env) (s : State) : Run :=
  { state :=
      match env.fetchAssessmentProgress with
      | some data => { s with progress := some data }
      | none => s
    requests := [Request.fetchAssessmentProgress]
    settled := Settled.resolved }

/-- `submitResponse`.  The two loaders of `Promise.all` are started in this order and write
disjoint parts of the state, so the state after both does not depend on which answer arrives
first. -/
def submitResponse (env : Env) (responseData : ResponseData) (s : State) : Run :=
  let s1 : State := { s with loading := true }
  if env.submitResponse then
    let next := loadNextQuestion env s1
    let prog := loadProgress env next.state
    { state := { prog.state with loading := false }
      requests := [Request.submitResponse responseData] ++ next.requests ++ prog.requests
      settled := Settled.resolved }
  else
    { state := { s1 with loading := false }
      requests := [Request.submitResponse responseData]
      settled := Settled.resolved }

end useAssessment

namespace EnhancedAssessmentFlow

/-- The local state of the component. -/
structure State where
  answer : String
  selectedOption : String
  confidence : ℚ
  timeSpent : ℤ
  startTime : ℤ
  showExplanation : Bool
  isCorrect : Option Bool
  deriving DecidableEq, Repr

/-- What `handleSubmit` leaves behind: the state of the hook, the local state and the requests
it caused. -/
structure Run where
  hook : useAssessment.State
  component : State
  requests : List Request
  deriving DecidableEq, Repr

/-- The object `responseData` built by `handleSubmit`.  The typing speed is computed in double
arithmetic: `0.001` and `timeSpent / 60` are doubles, and so are the quotient, its hundredfold
and the final quotient by 100; `Math.round` is exact. -/
def responseData (sessionToken : String) (currentQuestion : Question) (c : State) :
    ResponseData :=
  let isText : Bool :=
    currentQuestion.questionType = some "text" || currentQuestion.questionType = some "typing"
  let isChoice : Bool :=
    currentQuestion.questionType = some "mcq" || currentQuestion.questionType = some "choice"
  let base : ResponseData :=
    { sessionToken := some sessionToken
      questionId := some currentQuestion.id
      responseText := if isText then some c.answer else none
      responseChoice := if isChoice then some c.selectedOption else none
      confidenceLevel := some c.confidence
      thinkTimeSeconds := some c.timeSpent
      totalTimeSeconds := some c.timeSpent
      isCorrect :=
        if isChoice then some (decide (some c.selectedOption = currentQuestion.correctAnswer))
        else none }
  if isText then
    let words := countWords c.answer
    let minutes : ℚ := max (toDouble (1 / 1000)) (toDouble ((c.timeSpent : ℚ) / 60))
    { base with
      wordCount := some words
      charCount := some c.answer.length
      typingSpeedWpm :=
        some (toDouble ((mathRound (toDouble (toDouble ((words : ℚ) / minutes) * 100)) : ℚ)
          / 100)) }
  else base

/-- `handleSubmit`, with the hook state of the render it closes over; `now` is the clock after
the submission.  Without a current question the function throws before any request.  The timer
that hides the explanation three seconds later is outside the model. -/
def handleSubmit (env : useAssessment.Env) (now : ℤ) (sessionToken : String)
    (hook : useAssessment.State) (c : State) : Run :=
  if hook.loading then ⟨hook, c, []⟩
  else
    match hook.currentQuestion with
    | none => ⟨hook, c, []⟩
    | some currentQuestion =>
      let run := useAssessment.submitResponse env
        (responseData sessionToken currentQuestion c) hook
      match run.settled with
      | Settled.resolved =>
        let c1 : State :=
          { c with answer := "", selectedOption := "", confidence := 1 / 2, timeSpent := 0,
                   startTime := now }
        let c2 : State :=
          if currentQuestion.questionType = some "mcq" then
            { c1 with
              isCorrect := some (decide (some c.selectedOption = currentQuestion.correctAnswer))
              showExplanation := true }
          else c1
        ⟨run.state, c2, run.requests⟩
      | Settled.rejected => ⟨run.state, c, run.requests⟩

end EnhancedAssessmentFlow

namespace QuestionCard

/-- The local state of `QuestionCard.js`. -/
structure State where
  response : String
  selectedChoice : Option String
  sliderValue : ℚ
  startTime : Option ℤ
  charCount : ℕ
  wordCount : ℕ
  keyStrokes : ℕ
  deriving DecidableEq, Repr

/-- What `handleSubmit` leaves behind: the state and the argument of `onSubmit`, `none` when
`onSubmit` is not called. -/
structure Run where
  state : State
  submitted : Option ResponseData
  deriving DecidableEq, Repr

/-- The normalised `type` of `handleSubmit`. -/
def normalizedType (question : Question) : String :=
  toLowerCase (trim (orString question.questionType (orString question.type "text")))

/-- `handleSubmit` at the clock `endTime`; it calls no state setter.  The reference
`autoSubmitTimeoutRef` is never assigned in the file, so clearing it does nothing.  The typing
speed is computed in double arithmetic: `0.001` and `timeSpent / 60` are doubles, and so are
the quotient, its hundredfold and the final quotient by 100; `Math.round` is exact.  The clock
values are integers, and for a difference below `2 ^ 53` rounding
`(endTime - startTime) / 1000` to a double does not change its floor
(`floor_toDouble_div_thousand`). -/
def handleSubmit (question : Question) (endTime : ℤ) (s : State) : Run :=
  let type := normalizedType question
  if (type = "text" ∨ type = "typing") ∧ trim s.response = "" then ⟨s, none⟩
  else if (type = "choice" ∨ type = "mcq") ∧ s.selectedChoice = none then ⟨s, none⟩
  else
    let timeSpent : ℤ := ⌊((endTime - s.startTime.getD 0 : ℤ) : ℚ) / 1000⌋
    let minutes : ℚ := max (toDouble (1 / 1000)) (toDouble ((timeSpent : ℚ) / 60))
    let typingSpeedWpm : Option ℚ :=
      if type = "text" ∨ type = "typing" then
        some (toDouble ((mathRound (toDouble (toDouble ((s.wordCount : ℚ) / minutes) * 100)) : ℚ)
          / 100))
      else none
    ⟨s, some
      { questionId := some question.id
        responseText := if type = "text" ∨ type = "typing" then some s.response else none
        responseChoice := if type = "choice" ∨ type = "mcq" then s.selectedChoice else none
        responseScale := if type = "scale" then some s.sliderValue else none
        totalTimeSeconds := some timeSpent
        charCount := some s.charCount
        wordCount := some s.wordCount
        typingSpeedWpm := typingSpeedWpm }⟩

/-- The `disabled` attribute of the submit button. -/
def submitDisabled (question : Question) (loading : Bool) (s : State) : Bool :=
  let t := toLowerCase (orString question.questionType (orString question.type "text"))
  if loading then true
  else if t = "text" ∨ t = "typing" then trim s.response = ""
  else if t = "choice" ∨ t = "mcq" then s.selectedChoice = none
  else false

end QuestionCard

namespace QuestionCardUpdated

/-- The local state of `QuestionCardUpdated.js`. -/
structure State where
  response : String
  selectedChoice : Option String
  sliderValue : ℚ
  startTime : Option ℤ
  charCount : ℕ
  wordCount : ℕ
  confidenceLevel : ℚ
  editCount : ℕ
  pasteDetected : Bool
  deriving DecidableEq, Repr

/-- What `handleSubmit` leaves behind: the state and the argument of `onSubmit`, `none` when
`onSubmit` is not called. -/
structure Run where
  state : State
  submitted : Option ResponseData
  deriving DecidableEq, Repr

/-- The normalised `type` of the component body. -/
def normalizedType (question : Question) : String :=
  orString (question.questionType.map fun t => toLowerCase (trim t))
    (orString (question.type.map fun t => toLowerCase (trim t)) "text")

/-- `handleSubmit` at the clock `endTime`; it calls no state setter. -/
def handleSubmit (question : Question) (endTime : ℤ) (s : State) : Run :=
  let type := normalizedType question
  if type = "text" ∧ trim s.response = "" then ⟨s, none⟩
  else if (type = "mcq" ∨ type = "choice") ∧ s.selectedChoice = none then ⟨s, none⟩
  else
    let timeSpent : ℤ := ⌊((endTime - s.startTime.getD 0 : ℤ) : ℚ) / 1000⌋
    ⟨s, some
      { questionId := some question.id
        responseText := if type = "text" then some s.response else none
        responseChoice := if type = "mcq" ∨ type = "choice" then s.selectedChoice else none
        responseScale := if type = "scale" then some s.sliderValue else none
        totalTimeSeconds := some timeSpent
        charCount := some s.charCount
        wordCount := some s.wordCount
        thinkTime := some timeSpent
        editCount := some s.editCount
        pasteDetected := some s.pasteDetected
        confidenceLevel := some s.confidenceLevel }⟩

/-- The `disabled` attribute of the submit button. -/
def submitDisabled (question : Question) (loading : Bool) (s : State) : Bool :=
  let type := normalizedType question
  loading || (type = "text" && trim s.response = "") ||
    (type = "mcq" && s.selectedChoice = none) || (type = "choice" && s.selectedChoice = none)

end QuestionCardUpdated

namespace useBatchAssessment

/-- The state of the hook. -/
structure State where
  questions : List Question
  progress : Option Progress
  shouldStop : Bool
  stopReason : Option String
  loading : Bool
  deriving DecidableEq, Repr

/-- The answers of the service during one operation: the page of questions and the progress
(`none` for a rejected call) and, for the call on the response at position `i` of the batch,
whether it succeeds. -/
structure Env where
  fetchRecommendedQuestions : Option (List Question)
  fetchAssessmentProgress : Option Progress
  submitResponse : ℕ → Bool

/-- What an operation of the hook leaves behind. -/
structure Run where
  state : State
  requests : List Request
  deriving DecidableEq, Repr

/-- `loadBatchQuestions`. -/
def loadBatchQuestions (env : Env) (s : State) : Run :=
  let s1 : State := { s with loading := true }
  let s2 : State :=
    match env.fetchRecommendedQuestions with
    | some data =>
      if data.length = 0 then
        { s1 with shouldStop := true, stopReason := some "NO_MORE_QUESTIONS", questions := [] }
      else { s1 with questions := data, shouldStop := false, stopReason := none }
    | none => s1
  { state := { s2 with loading := false }
    requests := [Request.fetchRecommendedQuestions 5] }

/-- `loadProgress`. -/
def loadProgress (env : Env) (s : State) : Run :=
  { state :=
      match env.fetchAssessmentProgress with
      | some data => { s with progress := some data }
      | none => s
    requests := [Request.fetchAssessmentProgress] }

/-- The `for` loop of `submitBatchResponses` from position `i` on: the requests it issues and
whether it runs to its end (`false` when a call rejects, which leaves the loop). -/
def submitLoop (env : Env) (sessionId : ℕ) : ℕ → List ResponseData → List Request × Bool
  | _, [] => ([], true)
  | i, responseData :: rest =>
    let request := Request.submitResponse { responseData with sessionId := some sessionId }
    if env.submitResponse i then
      let r := submitLoop env sessionId (i + 1) rest
      (request :: r.1, r.2)
    else ([request], false)

/-- `submitBatchResponses`. -/
def submitBatchResponses (env : Env) (sessionId : ℕ) (batchResponses : List ResponseData)
    (s : State) : Run :=
  let s1 : State := { s with loading := true }
  let loop := submitLoop env sessionId 0 batchResponses
  if loop.2 then
    let prog := loadProgress env s1
    let page := loadBatchQuestions env prog.state
    { state := { page.state with loading := false }
      requests := loop.1 ++ prog.requests ++ page.requests }
  else
    { state := { s1 with loading := false }
      requests := loop.1 }

/-- The position of the first response of a batch of `n` whose submit call fails, if any. -/
def firstFailure (env : Env) (n : ℕ) : Option ℕ :=
  (List.range n).find? fun i => !env.submitResponse i

/-- A batch of three answers. -/
def sampleBatch : List ResponseData :=
  [{ questionId := some 1, responseChoice := some "a" },
   { questionId := some 2, responseChoice := some "b" },
   { questionId := some 3, responseChoice := some "c" }]

/-- A world in which the submit call of the first response fails and every other call
succeeds. -/
def firstFailsEnv : Env :=
  { fetchRecommendedQuestions := some []
    fetchAssessmentProgress := some ⟨3, 10, 3 / 10, []⟩
    submitResponse := fun i => decide (i ≠ 0) }

/-- The state of the `useState` initialisers. -/
def initialState : State := ⟨[], none, false, none, false⟩

end useBatchAssessment

/-- A free-text question. -/
def textQuestion : Question :=
  { id := 1, questionText := "Describe your experience with React.", questionType := some "text" }

/-- A question of type `typing`. -/
def typingQuestion : Question :=
  { id := 2, questionText := "Type a short summary.", questionType := some "typing" }

/-- A second question, the one the backend would serve next. -/
def nextQuestion : Question :=
  { id := 5, questionText := "What is 2 + 2?", questionType := some "mcq",
    correctAnswer := some "4" }

/-- The hook state while `textQuestion` awaits its answer. -/
def awaitingState : useAssessment.State :=
  { currentQuestion := some textQuestion, progress := some ⟨0, 10, 0, []⟩
    shouldStop := false, stopReason := none, loading := false }

/-- An answer typed into `EnhancedAssessmentFlow`, with the confidence moved to 0.8. -/
def typedAnswer : EnhancedAssessmentFlow.State :=
  { answer := "my answer", selectedOption := "", confidence := 4 / 5, timeSpent := 30
    startTime := 0, showExplanation := false, isCorrect := none }

/-! ## Response Instrumentation: word count and typing speed -/

/-- The effect of `QuestionCard.js` on `[response]`: it stores the character and the word count
of the response. -/
def QuestionCard.countEffect (s : QuestionCard.State) : QuestionCard.State :=
  { s with charCount := s.response.length, wordCount := countWords s.response }

/-- The number of white-space-delimited tokens of a text: the positions that hold a character
which is not white space and follow white space or start the text.  `afterSpace` tells whether
the text follows white space (or the start). -/
def countTokens (afterSpace : Bool) : List Char → ℕ
  | [] => 0
  | c :: cs =>
    if isWhiteSpace c then countTokens true cs
    else (if afterSpace then 1 else 0) + countTokens false cs

/-- The typing speed as the specification words it:
`round((w / max(s/60, 0.001)) * 100) / 100`, rounding half up, in exact arithmetic. -/
def specTypingSpeed (w : ℕ) (s : ℤ) : ℚ :=
  ((⌊((w : ℚ) / max ((s : ℚ) / 60) (1 / 1000)) * 100 + 1 / 2⌋ : ℤ) : ℚ) / 100

/-- The argument of the rounding in the formula of the specification,
`(w / max(s/60, 0.001)) * 100`, with each operation carried out in double arithmetic. -/
def doubleHundredfold (w : ℕ) (s : ℤ) : ℚ :=
  toDouble (toDouble ((w : ℚ) / max (toDouble ((s : ℚ) / 60)) (toDouble (1 / 1000))) * 100)

/-- The formula of the specification, `round((w / max(s/60, 0.001)) * 100) / 100`, with each
operation carried out in double arithmetic. -/
def doubleTypingSpeed (w : ℕ) (s : ℤ) : ℚ :=
  toDouble ((mathRound (doubleHundredfold w s) : ℚ) / 100)

/-- Whether the last character of a text is white space. -/
def endsWithWhiteSpace (l : List Char) : Bool :=
  match l.getLast? with
  | some c => isWhiteSpace c
  | none => false

/-! ## Option normalisation: `QuestionCard.js`, `MCQBatchModule.js` -/

/-- Helper of `splitComma`: the first piece and the remaining pieces of a comma-separated
text. -/
def splitCommaPieces : List Char → List Char × List (List Char)
  | [] => ([], [])
  | c :: cs =>
    let r := splitCommaPieces cs
    if c = ',' then ([], r.1 :: r.2) else (c :: r.1, r.2)

/-- `s.split(',')`. -/
def splitComma (s : String) : List String :=
  let r := splitCommaPieces s.data
  (r.1 :: r.2).map String.mk

/-- The value of the variable `options` after the normalisation: a list of option entries, or
what `JSON.parse` returned when that is not an array. -/
inductive OptionsValue where
  | list (items : List String)
  | null
  | string (s : String)
  | other
  deriving DecidableEq, Repr

/-- The assignment `options = JSON.parse(text)` with its `catch`: the parsed value, or the
trimmed comma-separated pieces when `JSON.parse` throws. -/
def parseOrSplit (s : String) (parsed : JsonValue) : OptionsValue :=
  match parsed with
  | JsonValue.syntaxError => OptionsValue.list ((splitComma s).map trim)
  | JsonValue.array items => OptionsValue.list items
  | JsonValue.null => OptionsValue.null
  | JsonValue.string t => OptionsValue.string t
  | JsonValue.other => OptionsValue.other

/-- What rendering the options gives: the option entries shown, the note "No options
available", or an exception. -/
inductive Rendered where
  | entries (labels : List String)
  | noOptions
  | throws
  deriving DecidableEq, Repr

/-- The expression `options.length > 0 ? options.map(...) : <p>No options available</p>`. -/
def renderWithLengthTest (options : OptionsValue) : Rendered :=
  match options with
  | OptionsValue.list items => if items.length > 0 then Rendered.entries items
    else Rendered.noOptions
  | OptionsValue.null => Rendered.throws
  | OptionsValue.string s => if s.length > 0 then Rendered.throws else Rendered.noOptions
  | OptionsValue.other => Rendered.noOptions

/-- The expression `options.map(...)`. -/
def renderWithMap (options : OptionsValue) : Rendered :=
  match options with
  | OptionsValue.list items => Rendered.entries items
  | _ => Rendered.throws

namespace QuestionCard

/-- The block "normalize options safely" of the render function. -/
def normalizeOptions (question : Question) : OptionsValue :=
  match question.options, question.choices with
  | Encoded.array (o :: os), _ => OptionsValue.list (o :: os)
  | _, Encoded.array (c :: cs) => OptionsValue.list (c :: cs)
  | Encoded.text s parsed, choices =>
    if trim s ≠ "" then parseOrSplit s parsed
    else
      match choices with
      | Encoded.text s2 parsed2 =>
        if trim s2 ≠ "" then parseOrSplit s2 parsed2 else OptionsValue.list []
      | _ => OptionsValue.list []
  | _, Encoded.text s2 parsed2 =>
    if trim s2 ≠ "" then parseOrSplit s2 parsed2 else OptionsValue.list []
  | _, _ => OptionsValue.list []

/-- The input the render function shows for the lowercased type `t` of a choice question:
`mcq` tests `options.length` first, `choice` maps at once. -/
def renderOptions (t : String) (options : OptionsValue) : Rendered :=
  if t = "mcq" then renderWithLengthTest options
  else if t = "choice" then renderWithMap options
  else Rendered.noOptions

end QuestionCard

namespace MCQBatchModule

/-- The block "Normalize options safely" for the current question. -/
def normalizeOptions (currentQuestion : Question) : OptionsValue :=
  match currentQuestion.options, currentQuestion.choices with
  | Encoded.array (o :: os), _ => OptionsValue.list (o :: os)
  | _, Encoded.array (c :: cs) => OptionsValue.list (c :: cs)
  | Encoded.text s parsed, choices =>
    if trim s ≠ "" then parseOrSplit s parsed
    else
      match choices with
      | Encoded.text s2 parsed2 =>
        if trim s2 ≠ "" then parseOrSplit s2 parsed2 else OptionsValue.list []
      | _ => OptionsValue.list []
  | _, Encoded.text s2 parsed2 =>
    if trim s2 ≠ "" then parseOrSplit s2 parsed2 else OptionsValue.list []
  | _, _ => OptionsValue.list []

/-- The options block of the module: `options.length > 0 ? options.map(...) : ...`. -/
def renderOptions (options : OptionsValue) : Rendered := renderWithLengthTest options

end MCQBatchModule

/-! ## Skill-Gap Analyzer: the rules as the specification words them -/

namespace SkillGapAnalysis

/-- The priority as the specification words it: `(4 - min(4, rawLevel)) * m + b`, with
`m = 1.5` when the lowercased name contains "programming" or "coding" and `b = 0.5` when a role
is supplied (present and not empty) and the lowercased name contains the lowercased role. -/
def specPriority (name : String) (rawLevel : ℚ) (role : Option String) : ℚ :=
  let m : ℚ :=
    if includes (toLowerCase name) "programming" = true ∨
        includes (toLowerCase name) "coding" = true then 3 / 2 else 1
  let b : ℚ :=
    match role with
    | some r => if r ≠ "" ∧ includes (toLowerCase name) (toLowerCase r) = true then 1 / 2 else 0
    | none => 0
  (4 - min 4 rawLevel) * m + b

/-- The target level as the specification words it: 4 without a role; otherwise 5 when the
lowercased name contains the lowercased role, otherwise 3 when it contains "foundations" or
"basics", otherwise 4. -/
def specTargetLevel (name : String) (role : Option String) : ℚ :=
  match role with
  | none => 4
  | some r =>
    if r = "" then 4
    else if includes (toLowerCase name) (toLowerCase r) = true then 5
    else if includes (toLowerCase name) "foundations" = true ∨
        includes (toLowerCase name) "basics" = true then 3
    else 4

/-- The lowercased skill name of a resume entry, empty when the entry has none. -/
def entryKey (entry : ResumeItem) : String := toLowerCase (entry.skillName.getD "")

/-- Whether a resume entry records two years of experience or more. -/
def hasTwoYears (entry : ResumeItem) : Bool :=
  match entry.yearsExperience with
  | some y => decide (y ≥ 2)
  | none => false

/-- The boost map as the specification words it: a lowercased skill name maps to 1.0 when some
entry with that name has two years or more, to 0.5 when entries with that name have less, and
has no entry when the resume does not list it. -/
def specBoost (entries : List ResumeItem) (name : String) : Option ℚ :=
  if entries.any (fun e => decide (entryKey e = name) && hasTwoYears e) then some 1
  else if entries.any (fun e => decide (entryKey e = name)) then some (1 / 2)
  else none

/-- How the loop of `extractResumeSkills` combines the value a name has so far with what the
remaining entries say about it. -/
def mergeBoost (soFar : Option ℚ) (rest : Option ℚ) : Option ℚ :=
  match rest with
  | none => soFar
  | some b => some (max (soFar.getD 0) b)

/-- The evidence as the specification words it: an ordered list of rules, each with its
condition and its fixed string; the strings of the rules whose condition holds are returned in
order.  The two resume rules exclude each other. -/
def specEvidence (targetRole : Option String) (skill : Skill) (resume : Option Resume)
    (responseEvidence : ResponseEvidence) : List String :=
  let boost := resumeBoost (extractResumeSkills resume) skill
  let rules : List (Bool × String) :=
    [(decide (responseEvidence.lowConfidence.getD 0 > 2),
        "Multiple responses showed uncertainty - indicates knowledge gaps"),
     (decide (responseEvidence.shortResponses.getD 0 > 3),
        "Brief responses suggest areas needing deeper understanding"),
     (decide (responseEvidence.quickResponses.getD 0 > 2),
        "Quick responses may indicate surface-level knowledge"),
     (decide (∃ c, skill.confidence = some c ∧ c < 2 / 5),
        "Assessment confidence indicates room for improvement"),
     (decide (skill.level < 5 / 2),
        "Current proficiency level suggests foundational gaps"),
     (decide (boost > 0),
        "Resume shows related experience - build on existing foundation"),
     (decide (¬ boost > 0),
        "Limited direct experience in this area"),
     (truthy targetRole &&
        includes (toLowerCase skill.name) (toLowerCase (targetRole.getD "")),
        "Highly relevant to target career path")]
  (rules.filter fun r => r.1).map fun r => r.2

/-- Whether a past response counts as quick for the code: it has a think time that is not 0
and is below 30 seconds. -/
def countedAsQuick (response : Response) : Bool :=
  match response.thinkTimeSeconds with
  | some t => decide (t ≠ 0 ∧ t < 30)
  | none => false

/-- Whether a past response has a think time below 30 seconds, 0 included. -/
def thinkTimeBelow30 (response : Response) : Bool :=
  match response.thinkTimeSeconds with
  | some t => decide (t < 30)
  | none => false

/-- Three past responses answered at once: think time 0. -/
def instantResponses : List Response :=
  [⟨some "mcq", none, some (9 / 10), some 0⟩, ⟨some "mcq", none, some (9 / 10), some 0⟩,
   ⟨some "mcq", none, some (9 / 10), some 0⟩]

end SkillGapAnalysis

/-! ## Resource Relevance Matcher: the scoring rules as the specification words them -/

namespace FreeResourcesCard

/-- The direct rule: one of the two lowercased strings contains the other. -/
def directMatch (gapSkill tag : String) : Bool :=
  includes gapSkill tag || includes tag gapSkill

/-- The token-overlap ratio `|common words| / max(|gap words|, |tag words|)`. -/
def overlapRatio (gapSkill tag : String) : ℚ :=
  (((split gapSkill).filter fun word => (split tag).contains word).length : ℚ)
    / ((max (split gapSkill).length (split tag).length : ℕ) : ℚ)

/-- The score of one (gap, tag) pair as the specification words it, a three-way cascade: 1.0
on a direct match, otherwise 0.9 when a synonym of the tag matches the gap, otherwise the
token-overlap ratio. -/
def specCascade (gapSkill tag : String) : ℚ :=
  if directMatch (toLowerCase gapSkill) (toLowerCase tag) = true then 1
  else if synonymMatch (toLowerCase tag) (toLowerCase gapSkill) = true then 9 / 10
  else overlapRatio (toLowerCase gapSkill) (toLowerCase tag)

/-- A gap name of eleven words: ten times "learning", then "ai". -/
def elevenWordGap : String :=
  "learning learning learning learning learning learning learning learning learning learning ai"

end FreeResourcesCard

/-! ## Resume skill boost: the object `map` with the properties every object inherits

`BoostMap` keeps the own properties of the object `map` of `extractResumeSkills` and their
numeric values.  A JavaScript object also answers for the property names it inherits from
`Object.prototype`; the definitions of this section model the object with them, and
`WithPrototype.extractResumeSkills_agrees` shows that the two models read the same value under
every name that is not inherited. -/

namespace SkillGapAnalysis

/-- What reading a property of the object `map` can give: `undefined`, a number, `NaN`, or the
function or object found on `Object.prototype` (which is truthy, and `NaN` as a number). -/
inductive MapValue where
  | undefined
  | number (x : ℚ)
  | nan
  | inherited
  deriving DecidableEq, Repr

/-- The property names of `Object.prototype`, which every object literal inherits. -/
def inheritedNames : List String :=
  ["constructor", "__proto__", "hasOwnProperty", "isPrototypeOf", "propertyIsEnumerable",
    "toLocaleString", "toString", "valueOf", "__defineGetter__", "__defineSetter__",
    "__lookupGetter__", "__lookupSetter__"]

/-- The object `map` of `extractResumeSkills`: its own properties, in insertion order. -/
abbrev ObjectMap := List (String × MapValue)

/-- The read `map[key]`: the own property when there is one, else the inherited one, else
`undefined`. -/
def ObjectMap.get (m : ObjectMap) (key : String) : MapValue :=
  match m.lookup key with
  | some v => v
  | none => if key ∈ inheritedNames then MapValue.inherited else MapValue.undefined

/-- The assignment `map[key] = v` of a number or `NaN`.  Under `__proto__` it calls the setter
of `Object.prototype`, which ignores a value that is not an object; under every other name it
creates or overwrites the own property. -/
def ObjectMap.set (m : ObjectMap) (key : String) (v : MapValue) : ObjectMap :=
  if key = "__proto__" then m
  else if (m.lookup key).isSome then m.map fun e => if e.1 = key then (key, v) else e
  else m ++ [(key, v)]

/-- The JavaScript `v || 0`: `undefined`, `0` and `NaN` are falsy, an object is truthy. -/
def MapValue.orZero (v : MapValue) : MapValue :=
  match v with
  | MapValue.undefined => MapValue.number 0
  | MapValue.number x => MapValue.number x
  | MapValue.nan => MapValue.number 0
  | MapValue.inherited => MapValue.inherited

/-- `Math.max(v, boost)` for a number `boost`: `NaN` unless `v` is a number. -/
def MapValue.mathMax (v : MapValue) (boost : ℚ) : MapValue :=
  match v with
  | MapValue.number x => MapValue.number (max x boost)
  | _ => MapValue.nan

/-- A value of `BoostMap.get` as a value read from the object. -/
def MapValue.ofOwn (o : Option ℚ) : MapValue :=
  match o with
  | some x => MapValue.number x
  | none => MapValue.undefined

/-- Whether a string consists of ASCII characters only; on such a string `toLowerCase` is the
`toLowerCase` of JavaScript. -/
def asciiOnly (s : String) : Bool := s.data.all fun c => decide (c.val < 128)

namespace WithPrototype

/-- The body of the `forEach` of `extractResumeSkills`; `none` when the body throws (a `null`
element has no `skillName`). -/
def extractStep (map : ObjectMap) (item : Option ResumeItem) : Option ObjectMap :=
  match item with
  | none => none
  | some it =>
    let key := toLowerCase (it.skillName.getD "")
    if key = "" then some map
    else
      let boost : ℚ := match it.yearsExperience with
        | some y => if y ≥ 2 then 1 else 1 / 2
        | none => 1 / 2
      some (map.set key ((map.get key).orZero.mathMax boost))

/-- The `forEach` loop of `extractResumeSkills`, from the map built so far. -/
def extractLoop : ObjectMap → List (Option ResumeItem) → Option ObjectMap
  | map, [] => some map
  | map, item :: rest =>
    match extractStep map item with
    | none => none
    | some map1 => extractLoop map1 rest

/-- `extractResumeSkills`: the object it returns; every exception ends in `{}`. -/
def extractResumeSkills (resume : Option Resume) : ObjectMap :=
  match resume with
  | none => []
  | some r =>
    match r.extractedSkills with
    | ExtractedSkills.text JsonParse.syntaxError => []
    | ExtractedSkills.text JsonParse.notArray => []
    | ExtractedSkills.text (JsonParse.array items) => (extractLoop [] items).getD []
    | ExtractedSkills.array items => (extractLoop [] items).getD []
    | ExtractedSkills.other => []

/-- The value `resumeSkills[skill.name.toLowerCase()] || 0` of `analyzeSkillGaps`. -/
def resumeBoost (resumeSkills : ObjectMap) (skill : Skill) : MapValue :=
  (resumeSkills.get (toLowerCase skill.name)).orZero

end WithPrototype

end SkillGapAnalysis

/-! ## Theorems -/

/-- The level expression of the dashboards agrees with `specLevel` on every number. -/
theorem level_eq_specLevel (c : ℚ) :
    max 1 (min 5 (jsOrInt (mathRound (jsOr c 0 * 5)) 1)) = specLevel c := by
  have hc : jsOr c 0 = c := by
    unfold jsOr
    split_ifs with h
    · exact h.symm
    · rfl
  simp only [hc, specLevel, jsOrInt, mathRound]
  split_ifs <;> omega

/-- On a confidence in `[0,1]` the rounded value `Math.round(c * 5)` lies in `[0,5]`. -/
theorem mathRound_bounds (c : ℚ) (h0 : 0 ≤ c) (h1 : c ≤ 1) :
    0 ≤ mathRound (c * 5) ∧ mathRound (c * 5) ≤ 5 := by
  unfold mathRound
  constructor
  · exact Int.floor_nonneg.mpr (by linarith)
  · have : ⌊c * 5 + 1 / 2⌋ < 6 := by
      rw [Int.floor_lt]
      push_cast
      linarith
    omega

/-- C1: for every confidence `c` in `[0,1]` the level derived by `Dashboard`,
`EnhancedDashboard` and `ModernDashboard` equals `clamp(1, 5, round(c*5) or 1)` (round half up,
a zero replaced by 1), it is an integer in `[1,5]`, and `c = 0`, `c = 0.79`, `c = 1` give the
levels 1, 4 and 5. -/
theorem progress_level_derivation (c : ℚ) (h0 : 0 ≤ c) (h1 : c ≤ 1) :
    (Dashboard.level c = specLevel c ∧ EnhancedDashboard.level c = specLevel c ∧
      ModernDashboard.level c = specLevel c) ∧
    (1 ≤ specLevel c ∧ specLevel c ≤ 5) ∧
    (specLevel c = if mathRound (c * 5) = 0 then 1 else mathRound (c * 5)) ∧
    (Dashboard.level 0 = 1 ∧ Dashboard.level (79 / 100) = 4 ∧ Dashboard.level 1 = 5) := by
  obtain ⟨hlo, hhi⟩ := mathRound_bounds c h0 h1
  refine ⟨⟨level_eq_specLevel c, level_eq_specLevel c, level_eq_specLevel c⟩, ?_, ?_, ?_⟩
  · rw [← level_eq_specLevel c]
    exact ⟨le_max_left _ _, max_le (by decide) (min_le_left _ _)⟩
  · unfold mathRound at hlo hhi ⊢
    simp only [specLevel]
    split_ifs <;> omega
  · refine ⟨?_, ?_, ?_⟩ <;> decide!

/-- Witness of `progress_level_derivation` at the confidence `0.79`. -/
theorem progress_level_derivation_witness :
    ((0 : ℚ) ≤ 79 / 100 ∧ (79 / 100 : ℚ) ≤ 1) ∧ EnhancedDashboard.level (79 / 100) = 4 ∧
      specLevel (79 / 100) = 4 :=
  ⟨by norm_num,
    by decide!,
    ((progress_level_derivation (79 / 100) (by norm_num) (by norm_num)).1.1).symm.trans
      (by decide!)⟩

/-- C2: on the mapping `{ machine_learning_ops: 0.5 }` the three dashboards name the entry
"machine learning_ops": `replace` with a string pattern rewrites the first underscore only, so
the name is not the code with every underscore replaced.  The list itself has one entry per
mapping key, in the order of the mapping. -/
theorem derived_name_first_underscore_only :
    (∀ levels : List (String × ℚ),
      (Dashboard.derived levels).map (·.name) = levels.map (fun e => replace e.1 '_' ' ') ∧
      (EnhancedDashboard.derived levels).map (·.name)
        = levels.map (fun e => replace e.1 '_' ' ') ∧
      (ModernDashboard.derived levels).map (·.name)
        = levels.map (fun e => replace e.1 '_' ' ')) ∧
    (Dashboard.derived [("machine_learning_ops", 1 / 2)]).map (·.name)
      = ["machine learning_ops"] ∧
    (EnhancedDashboard.derived [("machine_learning_ops", 1 / 2)]).map (·.name)
      = ["machine learning_ops"] ∧
    (ModernDashboard.derived [("machine_learning_ops", 1 / 2)]).map (·.name)
      = ["machine learning_ops"] ∧
    replaceEvery "machine_learning_ops" '_' ' ' = "machine learning ops" ∧
    replace "machine_learning_ops" '_' ' ' ≠ replaceEvery "machine_learning_ops" '_' ' ' := by
  refine ⟨fun levels => ⟨?_, ?_, ?_⟩, ?_, ?_, ?_, ?_, ?_⟩
  · simp [Dashboard.derived, List.map_map, Function.comp_def]
  · simp [EnhancedDashboard.derived, List.map_map, Function.comp_def]
  · simp [ModernDashboard.derived, List.map_map, Function.comp_def]
  all_goals decide

namespace SkillGapAnalysis

/-- The comparator order is total. -/
instance byPriority.isTotal : IsTotal Opportunity byPriority :=
  ⟨fun a b => by
    unfold byPriority
    rcases le_total a.priority b.priority with h | h
    · right; linarith
    · left; linarith⟩

/-- The comparator order is transitive. -/
instance byPriority.isTrans : IsTrans Opportunity byPriority :=
  ⟨fun a b c hab hbc => by
    unfold byPriority at *
    linarith⟩

/-- The source clamps with `Math.min(5, Math.max(1, x))`, which is `clamp(1, 5, x)`. -/
theorem min_max_eq_clamp (x : ℚ) : min 5 (max 1 x) = clamp 1 5 x := by
  unfold clamp
  simp only [min_def, max_def]
  split_ifs <;> linarith

/-- Every opportunity of the result is built by `toOpportunity` from a skill of `skillData` with
raw level below 4, and has a positive growth. -/
theorem exists_skill_of_mem {props : Props} {o : Opportunity}
    (ho : o ∈ (analyzeSkillGaps props).opportunities) :
    ∃ s ∈ props.skillData.getD [], s.level < 4 ∧ 0 < o.growth ∧
      o = toOpportunity props (extractResumeSkills props.resumeData)
        (analyzeUserResponses props.userResponses) s := by
  have h1 : o ∈ opportunities props := List.mem_of_mem_take ho
  unfold opportunities at h1
  rw [List.mem_insertionSort, List.mem_filter] at h1
  obtain ⟨hm, hg⟩ := h1
  unfold mapped at hm
  rw [List.mem_map] at hm
  obtain ⟨s, hs, rfl⟩ := hm
  rw [List.mem_filter] at hs
  exact ⟨s, hs.1, by simpa using hs.2, by simpa using hg, rfl⟩

/-- C3: every opportunity of the result comes from a skill with raw level below 4, its
`currentLevel` is `clamp(1, 5, rawLevel + resumeBoost)`, its growth is
`max(0, targetLevel - currentLevel)`, and that growth is strictly positive. -/
theorem opportunity_growth (props : Props) (o : Opportunity)
    (ho : o ∈ (analyzeSkillGaps props).opportunities) :
    ∃ s ∈ props.skillData.getD [], s.level < 4 ∧ o.skill = s.name ∧
      o.currentLevel
        = clamp 1 5 (s.level + resumeBoost (extractResumeSkills props.resumeData) s) ∧
      o.targetLevel = inferTargetLevel s props.targetRole ∧
      o.growth = max 0 (o.targetLevel - o.currentLevel) ∧ 0 < o.growth := by
  obtain ⟨s, hs, hlt, hg, rfl⟩ := exists_skill_of_mem ho
  refine ⟨s, hs, hlt, rfl, ?_, rfl, rfl, hg⟩
  simp only [toOpportunity, resumeBoost]
  exact min_max_eq_clamp _

/-- Witness of `opportunity_growth` on the specification's scenario: the single opportunity
has level 3, target 4 and growth 1. -/
theorem opportunity_growth_witness :
    ∃ o ∈ (analyzeSkillGaps scenarioProps).opportunities,
      (o.skill = "javascript" ∧ o.currentLevel = 3 ∧ o.growth = 1) ∧
      ∃ s ∈ scenarioProps.skillData.getD [], s.level < 4 ∧ o.skill = s.name ∧
        o.currentLevel
          = clamp 1 5 (s.level + resumeBoost (extractResumeSkills scenarioProps.resumeData) s) ∧
        o.targetLevel = inferTargetLevel s scenarioProps.targetRole ∧
        o.growth = max 0 (o.targetLevel - o.currentLevel) ∧ 0 < o.growth :=
  ⟨toOpportunity scenarioProps (extractResumeSkills scenarioProps.resumeData)
      (analyzeUserResponses scenarioProps.userResponses) ⟨"javascript", 2, some (3 / 10)⟩,
    by decide!, by decide!,
    opportunity_growth scenarioProps _ (by decide!)⟩

/-- The sorted list is ordered by the comparator. -/
theorem sorted_opportunities (props : Props) :
    List.Sorted byPriority (opportunities props) :=
  List.sorted_insertionSort byPriority _

/-- C4 (as stated, refuted): two skills of equal level get equal priorities, so the returned
list has an adjacent pair whose earlier priority is not strictly greater than the later one. -/
theorem opportunities_not_strictly_descending :
    ¬ List.Chain' (fun a b : Opportunity => a.priority > b.priority)
      (analyzeSkillGaps tieProps).opportunities := by
  intro h
  have hp : (analyzeSkillGaps tieProps).opportunities.map (·.priority) = [2, 2] := by decide!
  have h2 := (List.chain'_map (R := fun x y : ℚ => x > y) Opportunity.priority).mpr h
  rw [hp] at h2
  simp at h2

/-- C4 (amended): for every input the returned opportunities are sorted descending by priority,
ties allowed: in every adjacent pair the earlier priority is at least the later one. -/
theorem opportunities_descending (props : Props) :
    List.Chain' (fun a b : Opportunity => a.priority ≥ b.priority)
      (analyzeSkillGaps props).opportunities := by
  have h : List.Sorted byPriority ((opportunities props).take 5) :=
    List.Pairwise.sublist (List.take_sublist _ _) (sorted_opportunities props)
  have h2 : List.Chain' byPriority ((opportunities props).take 5) := List.Pairwise.chain' h
  refine List.Chain'.imp (fun a b hab => ?_) h2
  unfold byPriority at hab
  show b.priority ≤ a.priority
  linarith

/-- C5: with `n` the number of qualifying opportunities (growth above 0), the result lists
exactly the first `min(5, n)` elements of the priority-sorted list, a sorted rearrangement of
the qualifying ones, so never more than 5, and `totalOpportunities` is `n`. -/
theorem opportunities_truncation (props : Props) :
    (opportunities props).Perm ((mapped props).filter fun opp => opp.growth > 0) ∧
    List.Sorted byPriority (opportunities props) ∧
    (analyzeSkillGaps props).opportunities
      = (opportunities props).take
          (min 5 ((mapped props).filter fun opp => opp.growth > 0).length) ∧
    (analyzeSkillGaps props).opportunities.length
      = min 5 ((mapped props).filter fun opp => opp.growth > 0).length ∧
    (analyzeSkillGaps props).opportunities.length ≤ 5 ∧
    (analyzeSkillGaps props).totalOpportunities
      = ((mapped props).filter fun opp => opp.growth > 0).length := by
  have hlen : (opportunities props).length
      = ((mapped props).filter fun opp => opp.growth > 0).length :=
    List.length_insertionSort byPriority _
  refine ⟨List.perm_insertionSort byPriority _, sorted_opportunities props, ?_, ?_, ?_, hlen⟩
  · show (opportunities props).take 5 = _
    rw [← hlen, List.take_eq_take]
    simp
  · show ((opportunities props).take 5).length = _
    rw [List.length_take, hlen]
  · show ((opportunities props).take 5).length ≤ 5
    rw [List.length_take]
    exact min_le_left _ _

/-- C6 (as stated, refuted): an opportunity with the larger growth can have the smaller
priority, because the target level, the resume boost or the programming multiplier differ. -/
theorem priority_not_monotone_in_growth :
    (∃ a ∈ (analyzeSkillGaps roleProps).opportunities,
      ∃ b ∈ (analyzeSkillGaps roleProps).opportunities,
        a.growth > b.growth ∧ a.priority < b.priority) ∧
    (∃ a ∈ (analyzeSkillGaps boostProps).opportunities,
      ∃ b ∈ (analyzeSkillGaps boostProps).opportunities,
        a.growth > b.growth ∧ a.priority < b.priority) ∧
    (∃ a ∈ (analyzeSkillGaps codingProps).opportunities,
      ∃ b ∈ (analyzeSkillGaps codingProps).opportunities,
        a.growth > b.growth ∧ a.priority < b.priority) := by
  decide!

/-- Skills with the same target level get the same role boost. -/
theorem roleBoost_eq_of_target_eq (role : Option String) (s t : Skill)
    (hT : inferTargetLevel s role = inferTargetLevel t role) :
    (if truthy role && includes (toLowerCase s.name) (toLowerCase (role.getD "")) then
        (1 / 2 : ℚ) else 0)
      = (if truthy role && includes (toLowerCase t.name) (toLowerCase (role.getD "")) then
        (1 / 2 : ℚ) else 0) := by
  unfold inferTargetLevel at hT
  cases hr : truthy role
  · simp
  · simp only [hr, Bool.not_true, Bool.false_eq_true, if_false, Bool.true_and] at hT ⊢
    split_ifs at hT ⊢ <;> first | rfl | (exfalso; revert hT; norm_num)

/-- With a common target and boost, a strictly larger growth needs a strictly smaller raw
level. -/
theorem level_lt_of_growth_lt (T β ls lt : ℚ)
    (hg : max 0 (T - min 5 (max 1 (lt + β))) < max 0 (T - min 5 (max 1 (ls + β)))) :
    ls < lt := by
  by_contra hle
  push_neg at hle
  have h1 : min 5 (max 1 (lt + β)) ≤ min 5 (max 1 (ls + β)) :=
    min_le_min le_rfl (max_le_max le_rfl (by linarith))
  have h2 : max 0 (T - min 5 (max 1 (ls + β))) ≤ max 0 (T - min 5 (max 1 (lt + β))) :=
    max_le_max le_rfl (by linarith)
  linarith

/-- C6 (amended): for two skills with the same target level, the same resume boost and the
same programming/coding multiplier, the opportunity with the larger growth has a priority that
is not smaller. -/
theorem priority_monotone_same_profile (props : Props) (s t : Skill)
    (hT : inferTargetLevel s props.targetRole = inferTargetLevel t props.targetRole)
    (hB : resumeBoost (extractResumeSkills props.resumeData) s
      = resumeBoost (extractResumeSkills props.resumeData) t)
    (hP : mentionsProgramming s = mentionsProgramming t)
    (hg : (opportunityOf props s).growth > (opportunityOf props t).growth) :
    (opportunityOf props s).priority ≥ (opportunityOf props t).priority := by
  have hR := roleBoost_eq_of_target_eq props.targetRole s t hT
  simp only [opportunityOf, toOpportunity, resumeBoost] at hg hB
  rw [hT, hB] at hg
  have hlt := level_lt_of_growth_lt _ _ _ _ hg
  simp only [opportunityOf, toOpportunity, calculatePriority]
  unfold mentionsProgramming at hP
  rw [hR, hP]
  have hmin : min 4 s.level ≤ min 4 t.level := min_le_min le_rfl hlt.le
  have hm : (0 : ℚ) ≤ if (includes (toLowerCase t.name) "programming" ||
      includes (toLowerCase t.name) "coding") = true then 3 / 2 else 1 := by
    split_ifs <;> norm_num
  have := mul_le_mul_of_nonneg_right (sub_le_sub_left hmin 4) hm
  linarith

/-- Witness of `priority_monotone_same_profile`: `sql` at level 2 against `docker` at level 3,
no role and no resume: growth 2 against 1, priority 2 against 1. -/
theorem priority_monotone_same_profile_witness :
    (opportunityOf tieProps ⟨"sql", 2, none⟩).growth
        > (opportunityOf tieProps ⟨"docker", 3, none⟩).growth ∧
      (opportunityOf tieProps ⟨"sql", 2, none⟩).priority
        ≥ (opportunityOf tieProps ⟨"docker", 3, none⟩).priority :=
  ⟨by decide!,
    priority_monotone_same_profile tieProps ⟨"sql", 2, none⟩ ⟨"docker", 3, none⟩
      (by decide!) (by decide!) (by decide!) (by decide!)⟩

/-- C7 (as stated, refuted): in the specification's scenario the opportunity has the adjusted
level 3, yet its roadmap starts with "Foundation Building": the template of the adjusted level
is not the roadmap. -/
theorem roadmap_not_keyed_off_adjusted_level :
    ∃ o ∈ (analyzeSkillGaps scenarioProps).opportunities,
      o.currentLevel = 3 ∧ "Foundation Building" ∈ o.roadmap.map (·.phase) ∧
      o.roadmap.map (·.phase) ≠ specRoadmapPhases o.currentLevel := by
  decide!

/-- C7 (amended): the roadmap of every opportunity is the template keyed off the RAW level of
its skill (before the resume boost): "Foundation Building" exactly when the raw level is below
2.5, then "Skill Development", then "Advanced Practice" (the raw level of an opportunity is
always below 4), then "Mastery & Specialization". -/
theorem roadmap_keyed_off_raw_level (props : Props) (o : Opportunity)
    (ho : o ∈ (analyzeSkillGaps props).opportunities) :
    ∃ s ∈ props.skillData.getD [], o.skill = s.name ∧ s.level < 4 ∧
      o.roadmap.map (·.phase) = specRoadmapPhases s.level ∧
      o.roadmap.map (·.phase)
        = (if s.level < 5 / 2 then ["Foundation Building"] else []) ++
          ["Skill Development", "Advanced Practice", "Mastery & Specialization"] := by
  obtain ⟨s, hs, hlt, -, rfl⟩ := exists_skill_of_mem ho
  refine ⟨s, hs, rfl, hlt, ?_, ?_⟩
  · simp only [toOpportunity, generateRoadmap, specRoadmapPhases]
    split_ifs <;> rfl
  · simp only [toOpportunity, generateRoadmap, hlt, if_true]
    split_ifs <;> rfl

/-- Witness of `roadmap_keyed_off_raw_level` on the specification's scenario (raw level 2). -/
theorem roadmap_keyed_off_raw_level_witness :
    ∃ o ∈ (analyzeSkillGaps scenarioProps).opportunities,
      ∃ s ∈ scenarioProps.skillData.getD [], o.skill = s.name ∧ s.level < 4 ∧
        o.roadmap.map (·.phase) = specRoadmapPhases s.level ∧
        o.roadmap.map (·.phase)
          = (if s.level < 5 / 2 then ["Foundation Building"] else []) ++
            ["Skill Development", "Advanced Practice", "Mastery & Specialization"] :=
  ⟨opportunityOf scenarioProps ⟨"javascript", 2, some (3 / 10)⟩, by decide!,
    roadmap_keyed_off_raw_level scenarioProps _ (by decide!)⟩

/-- C8 (as stated, refuted): with an empty skill list no analysis is stored, with one mastered
skill an analysis with `totalOpportunities = 0` is stored, and both states render the very same
card. -/
theorem no_gaps_view_not_distinct :
    (settledState emptyProps).gapAnalysis = none ∧
    (∃ g, (settledState masteredProps).gapAnalysis = some g ∧ g.totalOpportunities = 0) ∧
    render emptyProps (settledState emptyProps)
      = render masteredProps (settledState masteredProps) := by
  refine ⟨by decide!, ⟨analyzeSkillGaps masteredProps, by decide!, by decide!⟩, by decide!⟩

/-- C8 (amended): the two outcomes differ in the analysis state only (`null` against a result
whose `totalOpportunities` is 0); once loading is over both render the same "no gaps" card. -/
theorem no_gaps_state_distinct_view_same (props : Props) (s1 s2 : State) (g : GapAnalysis)
    (h1 : s1.loading = false) (h2 : s2.loading = false)
    (hn : s1.gapAnalysis = none) (hg : s2.gapAnalysis = some g)
    (h0 : g.totalOpportunities = 0) :
    s1.gapAnalysis ≠ s2.gapAnalysis ∧
    render props s1 = View.noGapsCard ∧ render props s2 = View.noGapsCard := by
  refine ⟨by rw [hn, hg]; exact fun h => Option.noConfusion h, ?_, ?_⟩
  · simp [render, h1, hn]
  · simp [render, h2, hg, h0]

/-- Witness of `no_gaps_state_distinct_view_same`: the empty skill list against one mastered
skill. -/
theorem no_gaps_state_distinct_view_same_witness :
    (settledState emptyProps).gapAnalysis ≠ (settledState masteredProps).gapAnalysis ∧
    render masteredProps (settledState emptyProps) = View.noGapsCard ∧
    render masteredProps (settledState masteredProps) = View.noGapsCard :=
  no_gaps_state_distinct_view_same masteredProps (settledState emptyProps)
    (settledState masteredProps) (analyzeSkillGaps masteredProps)
    (by decide!) (by decide!) (by decide!) (by decide!) (by decide!)

end SkillGapAnalysis

namespace FreeResourcesCard

/-- The synonym loop keeps the running maximum in `[0,1]`. -/
theorem synonyms_foldl_range (gapSkill : String) (synonyms : List String) (m : ℚ)
    (h : 0 ≤ m ∧ m ≤ 1) :
    0 ≤ synonyms.foldl (synonymStep gapSkill) m ∧ synonyms.foldl (synonymStep gapSkill) m ≤ 1 := by
  induction synonyms generalizing m with
  | nil => exact h
  | cons y ys ih =>
    apply ih
    unfold synonymStep
    split_ifs
    · exact ⟨le_max_of_le_left h.1, max_le h.2 (by norm_num)⟩
    · exact h

/-- One step of the tag loop keeps the running maximum in `[0,1]`. -/
theorem relevanceStep_range (gapSkill resourceSkill : String) (m : ℚ) (h : 0 ≤ m ∧ m ≤ 1) :
    0 ≤ relevanceStep gapSkill m resourceSkill ∧ relevanceStep gapSkill m resourceSkill ≤ 1 := by
  have h1 : 0 ≤ (if includes gapSkill (toLowerCase resourceSkill) ||
        includes (toLowerCase resourceSkill) gapSkill then max m 1 else m) ∧
      (if includes gapSkill (toLowerCase resourceSkill) ||
        includes (toLowerCase resourceSkill) gapSkill then max m 1 else m) ≤ 1 := by
    split_ifs
    · exact ⟨le_max_of_le_left h.1, max_le h.2 le_rfl⟩
    · exact h
  have h2 := synonyms_foldl_range gapSkill
    ((skillSynonyms.lookup (toLowerCase resourceSkill)).getD []) _ h1
  simp only [relevanceStep]
  generalize List.foldl (synonymStep gapSkill) _ _ = m2 at h2 ⊢
  split_ifs
  · refine ⟨le_max_of_le_left h2.1, max_le h2.2 ?_⟩
    apply div_le_one_of_le₀
    · have hle : ((split gapSkill).filter fun word =>
          (split (toLowerCase resourceSkill)).contains word).length
          ≤ max (split gapSkill).length (split (toLowerCase resourceSkill)).length :=
        le_trans (List.length_filter_le _ _) (le_max_left _ _)
      exact_mod_cast hle
    · exact Nat.cast_nonneg _
  · exact h2

/-- The tag loop keeps the running maximum in `[0,1]`. -/
theorem relevance_foldl_range (gapSkill : String) (tags : List String) (m : ℚ)
    (h : 0 ≤ m ∧ m ≤ 1) :
    0 ≤ tags.foldl (relevanceStep gapSkill) m ∧ tags.foldl (relevanceStep gapSkill) m ≤ 1 := by
  induction tags generalizing m with
  | nil => exact h
  | cons t ts ih => exact ih _ (relevanceStep_range gapSkill t m h)

/-- C10: for every list of resource tags and every skill gap, `calculateSkillRelevance` returns
a value in the closed interval `[0,1]`. -/
theorem calculateSkillRelevance_range (resourceSkills : List String) (userSkillGap : SkillGap) :
    0 ≤ calculateSkillRelevance resourceSkills userSkillGap ∧
      calculateSkillRelevance resourceSkills userSkillGap ≤ 1 :=
  relevance_foldl_range _ resourceSkills 0 ⟨le_rfl, by norm_num⟩

/-- A scored catalog resource passes the filter exactly when its overall score exceeds 0.3. -/
theorem isRelevant_withScores (gap : SkillGap) (gaps : List SkillGap) (c : Resource) :
    isRelevant (withScores gap gaps c) = true ↔ overallScore gap gaps c > 3 / 10 := by
  simp [isRelevant, withScores, overallScore]

/-- C9: the displayed list never has more than 4 entries; and for a non-empty gap list either
the relevant branch is shown, every entry of which is a catalog resource whose overall score
(the maximum over the gaps of its relevance) exceeds 0.3, or the fallback branch is shown, and
then no catalog resource has an overall score above 0.3. -/
theorem displayed_bound_and_threshold (skillGaps : Option (List SkillGap)) (gap : SkillGap)
    (gaps : List SkillGap) :
    (displayedResources skillGaps).length ≤ 4 ∧
    ((displayedResources (some (gap :: gaps)) = relevantResources gap gaps ∧
        ∀ r ∈ displayedResources (some (gap :: gaps)), ∃ c ∈ mockResources,
          r = withScores gap gaps c ∧ r.relevanceScore = some (overallScore gap gaps c) ∧
          overallScore gap gaps c > 3 / 10) ∨
      (displayedResources (some (gap :: gaps)) = fallbackResources gap gaps ∧
        ∀ c ∈ mockResources, ¬ overallScore gap gaps c > 3 / 10)) := by
  constructor
  · unfold displayedResources
    split
    · split_ifs
      · exact (List.length_take_le _ _)
      · exact (List.length_take_le _ _)
    · exact (List.length_take_le _ _)
  · by_cases h : (relevantResources gap gaps).length = 0
    · right
      refine ⟨by simp [displayedResources, h], fun c hc hgt => ?_⟩
      have hnil : relevantResources gap gaps = [] := List.eq_nil_of_length_eq_zero h
      unfold relevantResources at hnil
      rcases List.take_eq_nil_iff.mp hnil with h4 | hs
      · exact absurd h4 (by decide)
      · have hmem : withScores gap gaps c ∈
            ((resourcesWithScores gap gaps).filter isRelevant).insertionSort byRelevance := by
          rw [List.mem_insertionSort, List.mem_filter]
          exact ⟨List.mem_map_of_mem _ hc, (isRelevant_withScores gap gaps c).mpr hgt⟩
        rw [hs] at hmem
        exact absurd hmem (List.not_mem_nil _)
    · left
      have hd : displayedResources (some (gap :: gaps)) = relevantResources gap gaps := by
        simp [displayedResources, h]
      refine ⟨hd, fun r hr => ?_⟩
      rw [hd] at hr
      have hr2 := List.mem_of_mem_take hr
      rw [List.mem_insertionSort, List.mem_filter] at hr2
      obtain ⟨hm, hrel⟩ := hr2
      obtain ⟨c, hc, rfl⟩ := List.mem_map.mp hm
      exact ⟨c, hc, rfl, rfl, (isRelevant_withScores gap gaps c).mp hrel⟩

/-- The synonym loop never lowers the running maximum. -/
theorem le_synonyms_foldl (gapSkill : String) (synonyms : List String) (m : ℚ) :
    m ≤ synonyms.foldl (synonymStep gapSkill) m := by
  induction synonyms generalizing m with
  | nil => exact le_rfl
  | cons y ys ih =>
    refine le_trans ?_ (ih _)
    unfold synonymStep
    split_ifs
    · exact le_max_left _ _
    · exact le_rfl

/-- A matching synonym lifts the running maximum of the synonym loop to 0.9 at least. -/
theorem synonyms_foldl_ge (gapSkill : String) (synonyms : List String) (m : ℚ)
    (h : (synonyms.any fun synonym =>
      includes gapSkill synonym || includes synonym gapSkill) = true) :
    9 / 10 ≤ synonyms.foldl (synonymStep gapSkill) m := by
  induction synonyms generalizing m with
  | nil => simp at h
  | cons y ys ih =>
    rw [List.any_cons, Bool.or_eq_true] at h
    rw [List.foldl_cons]
    rcases h with h | h
    · refine le_trans ?_ (le_synonyms_foldl gapSkill ys _)
      unfold synonymStep
      rw [if_pos h]
      exact le_max_right _ _
    · exact ih _ h

/-- One step of the tag loop never lowers the running maximum. -/
theorem le_relevanceStep (gapSkill resourceSkill : String) (m : ℚ) :
    m ≤ relevanceStep gapSkill m resourceSkill := by
  have h1 : m ≤ (if includes gapSkill (toLowerCase resourceSkill) ||
        includes (toLowerCase resourceSkill) gapSkill then max m 1 else m) := by
    split_ifs
    · exact le_max_left _ _
    · exact le_rfl
  have h2 := le_trans h1 (le_synonyms_foldl gapSkill
    ((skillSynonyms.lookup (toLowerCase resourceSkill)).getD []) _)
  simp only [relevanceStep]
  generalize List.foldl (synonymStep gapSkill) _ _ = m2 at h2 ⊢
  split_ifs
  · exact le_trans h2 (le_max_left _ _)
  · exact h2

/-- The tag loop never lowers the running maximum. -/
theorem le_relevance_foldl (gapSkill : String) (tags : List String) (m : ℚ) :
    m ≤ tags.foldl (relevanceStep gapSkill) m := by
  induction tags generalizing m with
  | nil => exact le_rfl
  | cons t ts ih => exact le_trans (le_relevanceStep gapSkill t m) (ih _)

/-- A tag whose synonyms match the gap lifts the running maximum to 0.9 at least. -/
theorem relevanceStep_ge_of_synonymMatch (gapSkill resourceSkill : String) (m : ℚ)
    (h : synonymMatch (toLowerCase resourceSkill) gapSkill = true) :
    9 / 10 ≤ relevanceStep gapSkill m resourceSkill := by
  have h2 := synonyms_foldl_ge gapSkill
    ((skillSynonyms.lookup (toLowerCase resourceSkill)).getD [])
    (if includes gapSkill (toLowerCase resourceSkill) ||
        includes (toLowerCase resourceSkill) gapSkill then max m 1 else m) h
  simp only [relevanceStep]
  generalize List.foldl (synonymStep gapSkill) _ _ = m2 at h2 ⊢
  split_ifs
  · exact le_trans h2 (le_max_left _ _)
  · exact h2

/-- C11 (as stated, refuted): "js" is listed as a synonym under "javascript" and "ai" under
"machine learning", yet the gap "javascript" against the tag "js" and the gap "machine learning"
against the tag "ai" score 0: the table is looked up under the tag only. -/
theorem synonym_match_not_symmetric :
    (synonymMatch "javascript" "js" = true ∧
      calculateSkillRelevance ["js"] ⟨"javascript"⟩ = 0) ∧
    (synonymMatch "machine learning" "ai" = true ∧
      calculateSkillRelevance ["ai"] ⟨"machine learning"⟩ = 0) := by
  decide!

/-- C11 (amended): when the lowercased tag is a key of the synonym table and one of the synonyms
listed under it contains the lowercased gap name or is contained in it,
`calculateSkillRelevance` returns at least 0.9, for every tag list holding that tag. -/
theorem synonym_of_tag_scores (resourceSkills : List String) (userSkillGap : SkillGap)
    (tag : String) (ht : tag ∈ resourceSkills)
    (hm : synonymMatch (toLowerCase tag) (toLowerCase userSkillGap.skill) = true) :
    9 / 10 ≤ calculateSkillRelevance resourceSkills userSkillGap := by
  unfold calculateSkillRelevance
  generalize (0 : ℚ) = m
  induction resourceSkills generalizing m with
  | nil => simp at ht
  | cons t ts ih =>
    rw [List.foldl_cons]
    rcases List.mem_cons.mp ht with h | h
    · subst h
      exact le_trans (relevanceStep_ge_of_synonymMatch _ _ m hm) (le_relevance_foldl _ ts _)
    · exact ih h _

/-- Witness of `synonym_of_tag_scores`: the gap "JS" against the tags of the first catalog
entry, whose tag "javascript" lists "js". -/
theorem synonym_of_tag_scores_witness :
    synonymMatch (toLowerCase "javascript") (toLowerCase "JS") = true ∧
      9 / 10 ≤ calculateSkillRelevance ["javascript", "programming", "algorithms"] ⟨"JS"⟩ :=
  ⟨by decide, synonym_of_tag_scores _ ⟨"JS"⟩ "javascript" (by decide) (by decide)⟩

end FreeResourcesCard

namespace AISuggestionsCard

/-- The state and the calls of the fallback chain do not depend on the cache items. -/
theorem fallbackChain_independent_of_cache (env : Env) (id : ℕ) (st : State)
    (storage storage1 : Storage) (hk : storage1.openaiApiKey = storage.openaiApiKey) :
    (fallbackChain env id st storage1).state = (fallbackChain env id st storage).state ∧
      (fallbackChain env id st storage1).calls = (fallbackChain env id st storage).calls := by
  have hkey : apiKey env storage1 = apiKey env storage := by simp [apiKey, hk]
  unfold fallbackChain
  rw [hkey]
  cases aiFeedback env.historical <;> cases env.fetchFeedback <;>
    cases apiKey env storage <;> cases env.generateSuggestions <;> simp

/-- The fallback chain always starts with the historical lookup. -/
theorem fallbackChain_head (env : Env) (id : ℕ) (st : State) (storage : Storage) :
    (fallbackChain env id st storage).calls.head? = some (Call.historicalFeedback id) := by
  unfold fallbackChain
  cases aiFeedback env.historical <;> cases env.fetchFeedback <;>
    cases apiKey env storage <;> cases env.generateSuggestions <;> rfl

/-- A run that finds an entry younger than 24 hours stops at the cache. -/
theorem loadSuggestions_of_fresh (env : Env) (session : Session) (st : State)
    (storage : Storage) (cached : CacheData) (hid : session.id ≠ 0)
    (hc : storage.getItem session.id = some cached)
    (hlt : env.now - cached.timestamp < 24 * 60 * 60 * 1000) :
    loadSuggestions env (some session) st storage
      = ⟨{ st with suggestions := cached.suggestions, loading := false, error := none },
          storage, []⟩ := by
  unfold loadSuggestions
  simp only [hid, if_false, hc]
  rw [if_pos hlt]

/-- A run that finds no entry, or an entry of 24 hours or more, is the fallback chain. -/
theorem loadSuggestions_of_stale (env : Env) (session : Session) (st : State)
    (storage : Storage) (hid : session.id ≠ 0)
    (hcache : ∀ c, storage.getItem session.id = some c →
      24 * 60 * 60 * 1000 ≤ env.now - c.timestamp) :
    loadSuggestions env (some session) st storage
      = fallbackChain env session.id { st with loading := true, error := none } storage := by
  unfold loadSuggestions
  simp only [hid, if_false]
  cases hg : storage.getItem session.id with
  | none => rfl
  | some c =>
    simp only
    rw [if_neg (not_lt.mpr (hcache c hg))]

/-- C12: with a cache entry `(s, t)` for the session, `loadSuggestions` at a time `now` with
`now - t < 24h` shows `s` unmodified, makes no remote call and leaves the storage as it is;
with `now - t ≥ 24h` it runs the fallback chain, starting with the historical lookup, and its
state and calls are those of a run on a storage without the entry. -/
theorem cache_ttl (env : Env) (session : Session) (st : State) (storage : Storage)
    (cached : CacheData) (hid : session.id ≠ 0)
    (hc : storage.getItem session.id = some cached) :
    (env.now - cached.timestamp < 24 * 60 * 60 * 1000 →
      loadSuggestions env (some session) st storage
        = ⟨{ st with suggestions := cached.suggestions, loading := false, error := none },
            storage, []⟩) ∧
    (24 * 60 * 60 * 1000 ≤ env.now - cached.timestamp →
      (loadSuggestions env (some session) st storage).calls.head?
          = some (Call.historicalFeedback session.id) ∧
      ∀ absent : Storage, absent.getItem session.id = none →
        absent.openaiApiKey = storage.openaiApiKey →
        (loadSuggestions env (some session) st storage).state
            = (loadSuggestions env (some session) st absent).state ∧
          (loadSuggestions env (some session) st storage).calls
            = (loadSuggestions env (some session) st absent).calls) := by
  constructor
  · exact loadSuggestions_of_fresh env session st storage cached hid hc
  · intro hge
    have hrun := loadSuggestions_of_stale env session st storage hid
      (fun c h => by rw [hc] at h; cases h; exact hge)
    refine ⟨by rw [hrun]; exact fallbackChain_head _ _ _ _, fun absent ha hk => ?_⟩
    have hrun1 := loadSuggestions_of_stale env session st absent hid
      (fun c h => by rw [ha] at h; cases h)
    rw [hrun, hrun1]
    obtain ⟨h1, h2⟩ := fallbackChain_independent_of_cache env session.id
      { st with loading := true, error := none } storage absent hk
    exact ⟨h1.symm, h2.symm⟩

/-- Witness of `cache_ttl`: an entry captured at time 0, read at 23h59m (the cached text, no
call) and at 24h01m (the chain runs and, every source failing, the error is set). -/
theorem cache_ttl_witness :
    loadSuggestions (noSourceEnv 86340000) (some ⟨7⟩) initialState hourOldStorage
        = ⟨⟨"cached advice", false, none⟩, hourOldStorage, []⟩ ∧
      (loadSuggestions (noSourceEnv 86460000) (some ⟨7⟩) initialState hourOldStorage).calls.head?
        = some (Call.historicalFeedback 7) ∧
      (loadSuggestions (noSourceEnv 86460000) (some ⟨7⟩) initialState hourOldStorage).state
        = ⟨"", false, some errorMessage⟩ :=
  ⟨(cache_ttl (noSourceEnv 86340000) ⟨7⟩ initialState hourOldStorage ⟨"cached advice", 0⟩
      (by decide) (by decide)).1 (by decide),
    ((cache_ttl (noSourceEnv 86460000) ⟨7⟩ initialState hourOldStorage ⟨"cached advice", 0⟩
      (by decide) (by decide)).2 (by decide)).1,
    by decide⟩

/-- C13: a click on the refresh button runs the same `loadSuggestions`, cache check included:
with an entry younger than 24 hours the cached text is shown again, no source of the fallback
chain is called and nothing is written.  At the concrete input (session 7, an entry one hour
old, every source ready to answer) the outcome is the cached text with no call. -/
theorem refresh_returns_cached_entry :
    (∀ (env : Env) (session : Session) (st : State) (storage : Storage) (cached : CacheData),
      session.id ≠ 0 → st.loading = false → storage.getItem session.id = some cached →
      env.now - cached.timestamp < 24 * 60 * 60 * 1000 →
      refreshClick env (some session) st storage
        = ⟨{ st with suggestions := cached.suggestions, loading := false, error := none },
            storage, []⟩) ∧
    refreshClick allSourcesEnv (some ⟨7⟩) initialState hourOldStorage
      = ⟨⟨"cached advice", false, none⟩, hourOldStorage, []⟩ := by
  refine ⟨fun env session st storage cached hid hl hc hlt => ?_, by decide⟩
  unfold refreshClick
  rw [hl]
  exact loadSuggestions_of_fresh env session st storage cached hid hc hlt

/-- C14: without a valid cache entry, without a historical `AI_SUGGESTIONS` record, with the
backend call failing and with no credential or a failing generation, `loadSuggestions` ends with
the one error message set, `loading` cleared, the shown text and the storage untouched; and in
every run the generation is called only after a failed backend call and with a credential. -/
theorem chain_exhaustion (env : Env) (session : Session) (st : State) (storage : Storage)
    (hid : session.id ≠ 0)
    (hcache : ∀ c, storage.getItem session.id = some c →
      24 * 60 * 60 * 1000 ≤ env.now - c.timestamp)
    (hhist : aiFeedback env.historical = none)
    (hback : env.fetchFeedback = none)
    (hgen : apiKey env storage = none ∨ env.generateSuggestions = none) :
    ((loadSuggestions env (some session) st storage).state.error = some errorMessage ∧
      (loadSuggestions env (some session) st storage).state.loading = false ∧
      (loadSuggestions env (some session) st storage).state.suggestions = st.suggestions ∧
      (loadSuggestions env (some session) st storage).storage = storage) ∧
    (∀ (env1 : Env) (session1 : Option Session) (st1 : State) (storage1 : Storage)
      (key : String),
      Call.generateSuggestions key ∈ (loadSuggestions env1 session1 st1 storage1).calls →
      env1.fetchFeedback = none ∧ apiKey env1 storage1 = some key) := by
  constructor
  · rw [loadSuggestions_of_stale env session st storage hid hcache]
    unfold fallbackChain
    rw [hhist, hback]
    rcases hgen with h | h
    · simp [h]
    · rw [h]
      cases apiKey env storage <;> simp
  · intro env1 session1 st1 storage1 key hmem
    have hchain : ∀ id st2, Call.generateSuggestions key ∈
        (fallbackChain env1 id st2 storage1).calls →
        env1.fetchFeedback = none ∧ apiKey env1 storage1 = some key := by
      intro id st2 h
      unfold fallbackChain at h
      cases h1 : aiFeedback env1.historical <;> cases h2 : env1.fetchFeedback <;>
        cases h3 : apiKey env1 storage1 <;> cases h4 : env1.generateSuggestions <;>
        simp [h1, h2, h3, h4] at h <;> simp [h]
    unfold loadSuggestions at hmem
    cases session1 with
    | none => simp at hmem
    | some s =>
      simp only at hmem
      split_ifs at hmem with h0
      · simp at hmem
      · cases hg : storage1.getItem s.id with
        | none =>
          rw [hg] at hmem
          exact hchain _ _ hmem
        | some c =>
          rw [hg] at hmem
          simp only at hmem
          split_ifs at hmem
          · simp at hmem
          · exact hchain _ _ hmem

/-- Witness of `chain_exhaustion`: the expired entry of session 7 and no source answering. -/
theorem chain_exhaustion_witness :
    (loadSuggestions (noSourceEnv 86460000) (some ⟨7⟩) initialState hourOldStorage).state.error
        = some errorMessage ∧
      (loadSuggestions (noSourceEnv 86460000) (some ⟨7⟩) initialState hourOldStorage).storage
        = hourOldStorage :=
  have h := (chain_exhaustion (noSourceEnv 86460000) ⟨7⟩ initialState hourOldStorage
    (by decide) (by intro c hc; cases hc; decide) (by decide) (by decide)
    (Or.inl (by decide))).1
  ⟨h.1, h.2.2.2⟩

end AISuggestionsCard

namespace useAssessment

/-- C15: when the next-question call answers `data`, after `loadNextQuestion` the hook has, for
a stop signal, `shouldStop = true`, no current question, the reason of the answer verbatim and
`loading = false`; and for a question payload, that payload as current question,
`shouldStop = false`, no stop reason and `loading = false`. -/
theorem stop_signal_handling (env : Env) (s : State) (data : Question)
    (h : env.fetchNextQuestion = some data) :
    (data.shouldStop = true →
      (loadNextQuestion env s).state.shouldStop = true ∧
      (loadNextQuestion env s).state.currentQuestion = none ∧
      (loadNextQuestion env s).state.stopReason = data.reason ∧
      (loadNextQuestion env s).state.loading = false) ∧
    (data.shouldStop = false →
      (loadNextQuestion env s).state.currentQuestion = some data ∧
      (loadNextQuestion env s).state.shouldStop = false ∧
      (loadNextQuestion env s).state.stopReason = none ∧
      (loadNextQuestion env s).state.loading = false) := by
  constructor <;> intro hs <;> simp [loadNextQuestion, h, hs]

/-- Witness of `stop_signal_handling`: the stop signal with the reason "NO_MORE_QUESTIONS"
arriving while `textQuestion` is current. -/
theorem stop_signal_handling_witness :
    (loadNextQuestion ⟨some { shouldStop := true, reason := some "NO_MORE_QUESTIONS" }, none,
        true⟩ awaitingState).state
      = { awaitingState with
          shouldStop := true, currentQuestion := none
          stopReason := some "NO_MORE_QUESTIONS" } ∧
    (loadNextQuestion ⟨some { shouldStop := true, reason := some "NO_MORE_QUESTIONS" }, none,
        true⟩ awaitingState).state.stopReason = some "NO_MORE_QUESTIONS" :=
  ⟨by decide,
    ((stop_signal_handling
      ⟨some { shouldStop := true, reason := some "NO_MORE_QUESTIONS" }, none, true⟩
      awaitingState { shouldStop := true, reason := some "NO_MORE_QUESTIONS" } rfl).1 rfl).2.2.1⟩

end useAssessment

/-- C16: `QuestionCard.handleSubmit` makes no submission and leaves the state alone for a text
type (`text`, `typing`) with an empty trimmed response and for a choice type (`mcq`, `choice`)
without selection, and submits otherwise.  `QuestionCardUpdated.handleSubmit` does the same for
`text`, `mcq` and `choice`, but it does not test `typing`: on `typingQuestion` with an empty
response it calls `onSubmit`. -/
theorem submission_validation :
    (∀ (question : Question) (endTime : ℤ) (s : QuestionCard.State),
      (((QuestionCard.normalizedType question = "text" ∨
            QuestionCard.normalizedType question = "typing") ∧ trim s.response = "") ∨
          ((QuestionCard.normalizedType question = "mcq" ∨
            QuestionCard.normalizedType question = "choice") ∧ s.selectedChoice = none) →
        QuestionCard.handleSubmit question endTime s = ⟨s, none⟩) ∧
      (((QuestionCard.normalizedType question = "text" ∨
            QuestionCard.normalizedType question = "typing") ∧ trim s.response ≠ "") ∨
          ((QuestionCard.normalizedType question = "mcq" ∨
            QuestionCard.normalizedType question = "choice") ∧ s.selectedChoice ≠ none) →
        (QuestionCard.handleSubmit question endTime s).submitted.isSome = true ∧
        (QuestionCard.handleSubmit question endTime s).state = s)) ∧
    (∀ (question : Question) (endTime : ℤ) (s : QuestionCardUpdated.State),
      ((QuestionCardUpdated.normalizedType question = "text" ∧ trim s.response = "") ∨
          ((QuestionCardUpdated.normalizedType question = "mcq" ∨
            QuestionCardUpdated.normalizedType question = "choice") ∧
            s.selectedChoice = none) →
        QuestionCardUpdated.handleSubmit question endTime s = ⟨s, none⟩)) ∧
    QuestionCardUpdated.normalizedType typingQuestion = "typing" ∧
    (QuestionCardUpdated.handleSubmit typingQuestion 5000
        ⟨"", none, 3, some 0, 0, 0, 1 / 2, 0, false⟩).submitted
      = some { questionId := some 2, totalTimeSeconds := some 5, charCount := some 0,
               wordCount := some 0, thinkTime := some 5, editCount := some 0,
               pasteDetected := some false, confidenceLevel := some (1 / 2) } ∧
    QuestionCard.handleSubmit typingQuestion 5000 ⟨"", none, 3, some 0, 0, 0, 0⟩
      = ⟨⟨"", none, 3, some 0, 0, 0, 0⟩, none⟩ := by
  refine ⟨fun question endTime s => ⟨?_, ?_⟩, fun question endTime s => ?_, by decide,
    by decide!, by decide!⟩
  · rintro (⟨ht, he⟩ | ⟨ht, hn⟩)
    · simp [QuestionCard.handleSubmit, ht, he]
    · rcases ht with ht | ht <;> simp [QuestionCard.handleSubmit, ht, hn]
  · rintro (⟨ht, he⟩ | ⟨ht, hn⟩)
    · rcases ht with ht | ht <;> simp [QuestionCard.handleSubmit, ht, he]
    · rcases ht with ht | ht <;> simp [QuestionCard.handleSubmit, ht, hn]
  · rintro (⟨ht, he⟩ | ⟨ht, hn⟩)
    · simp [QuestionCardUpdated.handleSubmit, ht, he]
    · rcases ht with ht | ht <;> simp [QuestionCardUpdated.handleSubmit, ht, hn]

namespace EnhancedAssessmentFlow

/-- C17: when the submit call fails, `handleSubmit` composed with `useAssessment.submitResponse`
keeps the current question but resets the answer fields: the hook absorbs the failure, so the
`await` resolves and the reset runs.  On `typedAnswer` the text "my answer" and the confidence
0.8 are gone after the failed submit. -/
theorem failed_submit_resets_answer :
    (∀ (env : useAssessment.Env) (now : ℤ) (sessionToken : String)
        (hook : useAssessment.State) (c : State) (q : Question),
      hook.loading = false → hook.currentQuestion = some q → env.submitResponse = false →
      (handleSubmit env now sessionToken hook c).hook = hook ∧
      (handleSubmit env now sessionToken hook c).requests
        = [Request.submitResponse (responseData sessionToken q c)] ∧
      (handleSubmit env now sessionToken hook c).component.answer = "" ∧
      (handleSubmit env now sessionToken hook c).component.selectedOption = "" ∧
      (handleSubmit env now sessionToken hook c).component.confidence = 1 / 2) ∧
    (handleSubmit ⟨some nextQuestion, none, false⟩ 31000 "token123" awaitingState
        typedAnswer).hook = awaitingState ∧
    (handleSubmit ⟨some nextQuestion, none, false⟩ 31000 "token123" awaitingState
        typedAnswer).component
      = { typedAnswer with answer := "", confidence := 1 / 2, timeSpent := 0,
                           startTime := 31000 } ∧
    typedAnswer.answer = "my answer" := by
  refine ⟨fun env now sessionToken hook c q hl hq hs => ?_, by decide!, by decide!, by decide⟩
  have hrun : useAssessment.submitResponse env (responseData sessionToken q c) hook
      = ⟨hook, [Request.submitResponse (responseData sessionToken q c)],
          Settled.resolved⟩ := by
    unfold useAssessment.submitResponse
    simp only [hs, Bool.false_eq_true, if_false]
    cases hook
    simp_all
  unfold handleSubmit
  simp only [hl, Bool.false_eq_true, if_false, hq, hrun]
  split_ifs <;> simp

end EnhancedAssessmentFlow

namespace useBatchAssessment

/-- From position `i` on, the loop submits every response when no call fails, and otherwise the
responses up to and including the first one whose call fails. -/
theorem submitLoop_spec (env : Env) (sessionId : ℕ) (batch : List ResponseData) (i : ℕ) :
    submitLoop env sessionId i batch
      = match (List.range' i batch.length).find? fun j => !env.submitResponse j with
        | none =>
          (batch.map fun r => Request.submitResponse { r with sessionId := some sessionId },
            true)
        | some k =>
          ((batch.take (k - i + 1)).map fun r =>
              Request.submitResponse { r with sessionId := some sessionId }, false) := by
  induction batch generalizing i with
  | nil => simp [submitLoop]
  | cons r rest ih =>
    rw [submitLoop, List.length_cons, List.range'_succ, List.find?_cons]
    cases hok : env.submitResponse i
    · simp
    · simp only [if_true, Bool.not_true]
      rw [ih (i + 1)]
      cases hf : (List.range' (i + 1) rest.length).find? fun j => !env.submitResponse j with
      | none => simp
      | some k =>
        have hmem := List.mem_of_find?_eq_some hf
        rw [List.mem_range'_1] at hmem
        have hk : k - i + 1 = (k - (i + 1) + 1) + 1 := by omega
        simp only [hk, List.take_succ_cons, List.map_cons]

/-- C18 (as stated, refuted): when the submit call of the first of three responses fails, the
only request is that one call: the other two responses are not attempted and the progress is
not refreshed. -/
theorem batch_stops_at_first_failure :
    (submitBatchResponses firstFailsEnv 9 sampleBatch initialState).requests
      = [Request.submitResponse
          { questionId := some 1, responseChoice := some "a", sessionId := some 9 }] ∧
    Request.fetchAssessmentProgress ∉
      (submitBatchResponses firstFailsEnv 9 sampleBatch initialState).requests := by
  decide

/-- C18 (amended): `submitBatchResponses` submits the responses in order and stops at the first
failing call: the responses after it are not attempted and nothing is refreshed; when every
call succeeds, all responses are submitted and then the progress and the next page are
fetched, once each.  In every case `loading` is false afterwards. -/
theorem batch_submits_until_first_failure (env : Env) (sessionId : ℕ)
    (batchResponses : List ResponseData) (s : State) :
    (submitBatchResponses env sessionId batchResponses s).state.loading = false ∧
    (submitBatchResponses env sessionId batchResponses s).requests
      = match firstFailure env batchResponses.length with
        | none =>
          (batchResponses.map fun r =>
              Request.submitResponse { r with sessionId := some sessionId }) ++
            [Request.fetchAssessmentProgress, Request.fetchRecommendedQuestions 5]
        | some k =>
          (batchResponses.take (k + 1)).map fun r =>
            Request.submitResponse { r with sessionId := some sessionId } := by
  unfold submitBatchResponses firstFailure
  rw [submitLoop_spec, List.range_eq_range']
  cases (List.range' 0 batchResponses.length).find? fun j => !env.submitResponse j with
  | none => simp [loadProgress, loadBatchQuestions]
  | some k => simp

end useBatchAssessment

namespace useAssessment

/-- C19 (as stated, refuted): after a successful submit, a failing next-question call does not
hold back the progress, and a failing progress call does not hold back the next question: the
part whose call succeeded advances. -/
theorem refresh_advances_partially :
    ((submitResponse ⟨none, some ⟨1, 10, 1 / 10, []⟩, true⟩ {} awaitingState).state.progress
        = some ⟨1, 10, 1 / 10, []⟩ ∧
      awaitingState.progress = some ⟨0, 10, 0, []⟩) ∧
    ((submitResponse ⟨some nextQuestion, none, true⟩ {} awaitingState).state.currentQuestion
        = some nextQuestion ∧
      awaitingState.currentQuestion = some textQuestion) := by
  decide!

/-- C19 (amended): after a successful submit each of the two refresh calls is applied on its
own.  A failed next-question call leaves `currentQuestion`, `shouldStop` and `stopReason` as
they were, a failed progress call leaves `progress` as it was, the call that succeeds updates
its own part, no failure is passed on and `loading` ends false. -/
theorem refresh_parts_independent (env : Env) (responseData : ResponseData) (s : State)
    (hsub : env.submitResponse = true) :
    (env.fetchNextQuestion = none →
      (submitResponse env responseData s).state.currentQuestion = s.currentQuestion ∧
      (submitResponse env responseData s).state.shouldStop = s.shouldStop ∧
      (submitResponse env responseData s).state.stopReason = s.stopReason) ∧
    (env.fetchAssessmentProgress = none →
      (submitResponse env responseData s).state.progress = s.progress) ∧
    ((submitResponse env responseData s).state.currentQuestion
        = (loadNextQuestion env s).state.currentQuestion ∧
      (submitResponse env responseData s).state.shouldStop
        = (loadNextQuestion env s).state.shouldStop ∧
      (submitResponse env responseData s).state.stopReason
        = (loadNextQuestion env s).state.stopReason ∧
      (submitResponse env responseData s).state.progress
        = (loadProgress env s).state.progress) ∧
    (submitResponse env responseData s).state.loading = false ∧
    (submitResponse env responseData s).settled = Settled.resolved := by
  have hrun : submitResponse env responseData s
      = { state :=
            { (loadProgress env (loadNextQuestion env { s with loading := true }).state).state
              with loading := false }
          requests := [Request.submitResponse responseData] ++
            (loadNextQuestion env { s with loading := true }).requests ++
            (loadProgress env (loadNextQuestion env { s with loading := true }).state).requests
          settled := Settled.resolved } := by
    unfold submitResponse
    rw [if_pos hsub]
  rw [hrun]
  refine ⟨fun h => ?_, fun h => ?_, ?_, rfl, rfl⟩
  · simp only [loadNextQuestion, loadProgress, h]
    cases env.fetchAssessmentProgress <;> simp
  · simp only [loadNextQuestion, loadProgress, h]
    cases env.fetchNextQuestion with
    | none => simp
    | some q => by_cases hq : q.shouldStop = true <;> simp [hq]
  · simp only [loadNextQuestion, loadProgress]
    cases env.fetchAssessmentProgress <;> cases env.fetchNextQuestion with
    | none => simp
    | some q => by_cases hq : q.shouldStop = true <;> simp [hq]

/-- Witness of `refresh_parts_independent`: the next-question call fails, the progress call
succeeds. -/
theorem refresh_parts_independent_witness :
    (submitResponse ⟨none, some ⟨1, 10, 1 / 10, []⟩, true⟩ {} awaitingState).state.currentQuestion
        = some textQuestion ∧
      (submitResponse ⟨none, some ⟨1, 10, 1 / 10, []⟩, true⟩ {} awaitingState).state.loading
        = false :=
  have h := refresh_parts_independent ⟨none, some ⟨1, 10, 1 / 10, []⟩, true⟩ {} awaitingState rfl
  ⟨(h.1 rfl).1, h.2.2.2.1⟩

/-- C20 (as stated, refuted): `submitResponse` of the hook has no guard on `loading`: called in
a state with `loading = true` it issues the submit request all the same. -/
theorem submit_while_loading_not_rejected :
    ({ awaitingState with loading := true } : State).loading = true ∧
    (submitResponse ⟨some nextQuestion, none, true⟩ { questionId := some 1 }
        { awaitingState with loading := true }).requests.head?
      = some (Request.submitResponse { questionId := some 1 }) ∧
    (submitResponse ⟨some nextQuestion, none, true⟩ { questionId := some 1 }
        { awaitingState with loading := true }).state.currentQuestion = some nextQuestion := by
  decide!

end useAssessment

/-- C20 (amended): the rejection lives in the components, not in the hook: with
`loading = true`, `EnhancedAssessmentFlow.handleSubmit` issues no request and changes neither
the hook state nor its own state, and the submit buttons of `QuestionCard` and
`QuestionCardUpdated` are disabled. -/
theorem submit_while_loading_rejected_by_components (env : useAssessment.Env) (now : ℤ)
    (sessionToken : String) (hook : useAssessment.State) (c : EnhancedAssessmentFlow.State)
    (hl : hook.loading = true) :
    EnhancedAssessmentFlow.handleSubmit env now sessionToken hook c = ⟨hook, c, []⟩ ∧
    (∀ (question : Question) (s : QuestionCard.State),
      QuestionCard.submitDisabled question hook.loading s = true) ∧
    (∀ (question : Question) (s : QuestionCardUpdated.State),
      QuestionCardUpdated.submitDisabled question hook.loading s = true) := by
  refine ⟨?_, fun question s => ?_, fun question s => ?_⟩
  · simp [EnhancedAssessmentFlow.handleSubmit, hl]
  · simp [QuestionCard.submitDisabled, hl]
  · simp [QuestionCardUpdated.submitDisabled, hl]

/-- Witness of `submit_while_loading_rejected_by_components`: a second submit of `typedAnswer`
while the first one is in flight. -/
theorem submit_while_loading_rejected_by_components_witness :
    EnhancedAssessmentFlow.handleSubmit ⟨some nextQuestion, none, true⟩ 31000 "token123"
        { awaitingState with loading := true } typedAnswer
      = ⟨{ awaitingState with loading := true }, typedAnswer, []⟩ :=
  (submit_while_loading_rejected_by_components ⟨some nextQuestion, none, true⟩ 31000 "token123"
    { awaitingState with loading := true } typedAnswer rfl).1

/-- The pieces of `split(/\s+/)` after the first one are counted by the tokens that follow
white space, plus one for a trailing run of white space. -/
theorem splitRuns_length (l : List Char) :
    (splitRuns l).2.length
      = countTokens false l + (if endsWithWhiteSpace l then 1 else 0) := by
  induction l with
  | nil => simp [splitRuns, countTokens, endsWithWhiteSpace]
  | cons c cs ih =>
    cases cs with
    | nil =>
      by_cases hc : isWhiteSpace c = true
      · simp [splitRuns, countTokens, endsWithWhiteSpace, hc]
      · simp [splitRuns, countTokens, endsWithWhiteSpace, hc]
    | cons d ds =>
      have he : endsWithWhiteSpace (c :: d :: ds) = endsWithWhiteSpace (d :: ds) := by
        simp [endsWithWhiteSpace]
      rw [he]
      cases hc : isWhiteSpace c
      · rw [splitRuns]
        simp only [hc, Bool.false_eq_true, if_false]
        rw [ih]
        simp [countTokens, hc]
      · cases hd : isWhiteSpace d
        · rw [splitRuns]
          simp only [hc, hd, if_true, Bool.false_eq_true, if_false, List.length_cons]
          rw [ih]
          simp [countTokens, hc, hd]
          omega
        · rw [splitRuns]
          simp only [hc, hd, if_true]
          rw [ih]
          simp [countTokens, hc, hd]

/-- Leading white space holds no token. -/
theorem countTokens_dropWhile (l : List Char) :
    countTokens true (l.dropWhile isWhiteSpace) = countTokens true l := by
  induction l with
  | nil => rfl
  | cons c cs ih =>
    by_cases hc : isWhiteSpace c = true
    · simp [List.dropWhile, countTokens, hc, ih]
    · simp [List.dropWhile, countTokens, hc]

/-- Trailing white space holds no token. -/
theorem countTokens_append_whiteSpace (a w : List Char) (hw : ∀ c ∈ w, isWhiteSpace c = true)
    (p : Bool) : countTokens p (a ++ w) = countTokens p a := by
  induction a generalizing p with
  | nil =>
    induction w generalizing p with
    | nil => rfl
    | cons c cs ih =>
      have hc := hw c (List.mem_cons_self _ _)
      simp only [List.nil_append, countTokens, hc, if_true]
      have := ih (fun x hx => hw x (List.mem_cons_of_mem _ hx)) true
      simpa [countTokens] using this
  | cons c cs ih =>
    by_cases hc : isWhiteSpace c = true
    · simp [countTokens, hc, ih]
    · simp [countTokens, hc, ih]

/-- Dropping a prefix by `dropWhile` keeps the last element. -/
theorem getLast?_dropWhile (p : Char → Bool) (l : List Char) (h : l.dropWhile p ≠ []) :
    (l.dropWhile p).getLast? = l.getLast? := by
  induction l with
  | nil => rfl
  | cons c cs ih =>
    by_cases hc : p c = true
    · have hd : (c :: cs).dropWhile p = cs.dropWhile p := by simp [List.dropWhile, hc]
      rw [hd] at h ⊢
      rw [ih h]
      cases cs with
      | nil => simp at h
      | cons d ds => simp
    · simp [List.dropWhile, hc]

/-- The characters of a trimmed text. -/
theorem trim_data (text : String) :
    (trim text).data
      = ((text.data.dropWhile isWhiteSpace).reverse.dropWhile isWhiteSpace).reverse := rfl

/-- The word count of the code is the number of white-space-delimited tokens of the text. -/
theorem countWords_eq_countTokens (text : String) :
    countWords text = countTokens true text.data := by
  have htok : countTokens true (trim text).data = countTokens true text.data := by
    rw [trim_data, ← countTokens_dropWhile text.data]
    generalize text.data.dropWhile isWhiteSpace = v
    have hsplit := List.takeWhile_append_dropWhile isWhiteSpace v.reverse
    have hv : v = (v.reverse.dropWhile isWhiteSpace).reverse ++
        (v.reverse.takeWhile isWhiteSpace).reverse := by
      rw [← List.reverse_append, hsplit, List.reverse_reverse]
    conv_rhs => rw [hv]
    rw [countTokens_append_whiteSpace]
    intro c hc
    exact List.mem_takeWhile_imp (List.mem_reverse.mp hc)
  unfold countWords
  by_cases hempty : trim text = ""
  · rw [if_pos hempty, ← htok, hempty]
    rfl
  · rw [if_neg hempty, ← htok]
    have hne : (trim text).data ≠ [] := fun h => hempty (String.ext h)
    have hlen : (splitWhiteSpace (trim text)).length
        = (splitRuns (trim text).data).2.length + 1 := by
      simp [splitWhiteSpace]
    rw [hlen, splitRuns_length]
    -- the trimmed text ends with a character that is not white space
    have hend : endsWithWhiteSpace (trim text).data = false := by
      unfold endsWithWhiteSpace
      rw [trim_data, List.getLast?_reverse]
      have := List.head?_dropWhile_not isWhiteSpace
        (text.data.dropWhile isWhiteSpace).reverse
      revert this
      cases ((text.data.dropWhile isWhiteSpace).reverse.dropWhile isWhiteSpace).head? with
      | none => simp
      | some c => simp
    -- and starts with one
    have hstart : ∃ c cs, (trim text).data = c :: cs ∧ isWhiteSpace c = false := by
      have hne2 : (text.data.dropWhile isWhiteSpace).reverse.dropWhile isWhiteSpace ≠ [] := by
        intro h
        apply hne
        rw [trim_data, h]
        rfl
      have hhead : (trim text).data.head? = (text.data.dropWhile isWhiteSpace).head? := by
        rw [trim_data, List.head?_reverse, getLast?_dropWhile _ _ hne2, List.getLast?_reverse]
      have hnot := List.head?_dropWhile_not isWhiteSpace text.data
      cases hd : (trim text).data with
      | nil => exact absurd hd hne
      | cons c cs =>
        refine ⟨c, cs, rfl, ?_⟩
        rw [hd] at hhead
        simp only [List.head?_cons] at hhead
        rw [← hhead] at hnot
        simpa using hnot
    obtain ⟨c, cs, hcs, hc⟩ := hstart
    rw [hend, hcs]
    simp [countTokens, hc]
    omega

/-- The word count is 0 exactly on the texts made of white space only. -/
theorem countTokens_eq_zero_iff (l : List Char) :
    countTokens true l = 0 ↔ l.all isWhiteSpace = true := by
  induction l with
  | nil => simp [countTokens]
  | cons c cs ih =>
    by_cases hc : isWhiteSpace c = true
    · simp [countTokens, hc, ih]
    · simp [countTokens, hc]

/-! ### Double-precision arithmetic: the error of a rounding -/

/-- With enough fuel the recursion finds the leading binary digit. -/
theorem floorLog2Aux_spec (fuel : ℕ) : ∀ n : ℕ, 0 < n → n < 2 ^ (fuel + 1) →
    2 ^ floorLog2Aux fuel n ≤ n ∧ n < 2 ^ (floorLog2Aux fuel n + 1) := by
  induction fuel with
  | zero =>
    intro n h0 h1
    simp only [floorLog2Aux]
    omega
  | succ k ih =>
    intro n h0 h1
    rw [floorLog2Aux]
    by_cases h2 : n < 2
    · rw [if_pos h2]
      omega
    · rw [if_neg h2]
      have hlt : n / 2 < 2 ^ (k + 1) := by
        rw [pow_succ] at h1
        omega
      obtain ⟨ha, hb⟩ := ih (n / 2) (by omega) hlt
      constructor
      · rw [pow_succ]
        omega
      · rw [pow_succ] at hb ⊢
        omega

/-- The leading binary digit: `2 ^ floorLog2 n ≤ n < 2 ^ (floorLog2 n + 1)`. -/
theorem floorLog2_spec (n : ℕ) (h : 0 < n) :
    2 ^ floorLog2 n ≤ n ∧ n < 2 ^ (floorLog2 n + 1) :=
  floorLog2Aux_spec n n h (lt_trans (Nat.lt_two_pow n) (Nat.pow_lt_pow_right (by norm_num) (by omega)))

/-- The function `pow2` is the integer power of two. -/
theorem pow2_eq (e : ℤ) : pow2 e = (2 : ℚ) ^ e := by
  unfold pow2
  split_ifs with h
  · obtain ⟨n, rfl⟩ := Int.eq_ofNat_of_zero_le h
    simp
  · obtain ⟨n, hn⟩ := Int.eq_ofNat_of_zero_le (show 0 ≤ -e by omega)
    have he : e = -(n : ℤ) := by omega
    subst he
    simp

/-- A power of two is positive. -/
theorem pow2_pos (e : ℤ) : 0 < pow2 e := by
  rw [pow2_eq]
  positivity

/-- Powers of two multiply by adding the exponents. -/
theorem pow2_add (a b : ℤ) : pow2 (a + b) = pow2 a * pow2 b := by
  simp only [pow2_eq]
  exact zpow_add₀ (by norm_num) a b

/-- The function `pow2` at a natural exponent. -/
theorem pow2_natCast (n : ℕ) : pow2 (n : ℤ) = (2 : ℚ) ^ n := by
  rw [pow2_eq]
  simp

/-- The absolute value of a rational, from its numerator and denominator. -/
theorem abs_eq_natAbs_div_den (x : ℚ) : |x| = (x.num.natAbs : ℚ) / (x.den : ℚ) := by
  rw [Nat.cast_natAbs]
  conv_lhs => rw [← Rat.num_div_den x]
  rw [abs_div, Nat.abs_cast, Int.cast_abs]

/-- The binary exponent brackets the absolute value: `2 ^ e ≤ |x| < 2 ^ (e + 1)`. -/
theorem binaryExponent_spec (x : ℚ) (hx : x ≠ 0) :
    pow2 (binaryExponent x) ≤ |x| ∧ |x| < pow2 (binaryExponent x + 1) := by
  have hp : 0 < x.num.natAbs := Int.natAbs_pos.mpr (Rat.num_ne_zero.mpr hx)
  have hq : 0 < x.den := x.den_pos
  obtain ⟨ha1, ha2⟩ := floorLog2_spec x.num.natAbs hp
  obtain ⟨hb1, hb2⟩ := floorLog2_spec x.den hq
  have ha1q : (2 : ℚ) ^ floorLog2 x.num.natAbs ≤ (x.num.natAbs : ℚ) := by exact_mod_cast ha1
  have ha2q : (x.num.natAbs : ℚ) < (2 : ℚ) ^ (floorLog2 x.num.natAbs + 1) := by
    exact_mod_cast ha2
  have hb1q : (2 : ℚ) ^ floorLog2 x.den ≤ (x.den : ℚ) := by exact_mod_cast hb1
  have hb2q : (x.den : ℚ) < (2 : ℚ) ^ (floorLog2 x.den + 1) := by exact_mod_cast hb2
  have hqq : (0 : ℚ) < (x.den : ℚ) := by exact_mod_cast hq
  have hpq : (0 : ℚ) < (x.num.natAbs : ℚ) := by exact_mod_cast hp
  have hlow : pow2 ((floorLog2 x.num.natAbs : ℤ) - (floorLog2 x.den : ℤ) - 1) ≤ |x| := by
    have he : (floorLog2 x.num.natAbs : ℤ) - (floorLog2 x.den : ℤ) - 1
        = (floorLog2 x.num.natAbs : ℤ) - ((floorLog2 x.den + 1 : ℕ) : ℤ) := by push_cast; ring
    rw [he, pow2_eq, zpow_sub₀ (by norm_num), zpow_natCast, zpow_natCast,
      abs_eq_natAbs_div_den]
    exact div_le_div₀ hpq.le ha1q hqq hb2q.le
  have hhigh : |x| < pow2 ((floorLog2 x.num.natAbs : ℤ) - (floorLog2 x.den : ℤ) + 1) := by
    have he : (floorLog2 x.num.natAbs : ℤ) - (floorLog2 x.den : ℤ) + 1
        = ((floorLog2 x.num.natAbs + 1 : ℕ) : ℤ) - (floorLog2 x.den : ℤ) := by push_cast; ring
    rw [he, pow2_eq, zpow_sub₀ (by norm_num), zpow_natCast, zpow_natCast,
      abs_eq_natAbs_div_den]
    exact div_lt_div₀ ha2q hb1q (by positivity) (by positivity)
  simp only [binaryExponent]
  split_ifs with h
  · exact ⟨h, hhigh⟩
  · refine ⟨hlow, ?_⟩
    rw [sub_add_cancel]
    exact not_le.mp h

/-- Rounding to the nearest integer moves a number by at most one half. -/
theorem roundHalfEven_error (y : ℚ) : |(roundHalfEven y : ℚ) - y| ≤ 1 / 2 := by
  have h1 := Int.floor_le y
  have h2 := Int.lt_floor_add_one y
  unfold roundHalfEven
  rw [abs_le]
  split_ifs with ha hb hc
  · constructor <;> linarith
  · push_cast
    constructor <;> linarith
  · constructor <;> linarith
  · push_cast
    constructor <;> linarith

/-- Rounding a non-negative number gives a non-negative integer. -/
theorem roundHalfEven_nonneg (y : ℚ) (hy : 0 ≤ y) : 0 ≤ roundHalfEven y := by
  have h0 : 0 ≤ ⌊y⌋ := Int.floor_nonneg.mpr hy
  unfold roundHalfEven
  split_ifs <;> omega

/-- The relative error of a rounding to double precision is at most `2 ^ (-53)`. -/
theorem toDouble_error (x : ℚ) : |toDouble x - x| ≤ |x| / 2 ^ 53 := by
  unfold toDouble
  split_ifs with hx
  · simp [hx]
  · obtain ⟨h1, -⟩ := binaryExponent_spec x hx
    have herr := roundHalfEven_error (x * pow2 (52 - binaryExponent x))
    have hpos := pow2_pos (binaryExponent x - 52)
    have hinv : pow2 (52 - binaryExponent x) * pow2 (binaryExponent x - 52) = 1 := by
      rw [← pow2_add]
      have : 52 - binaryExponent x + (binaryExponent x - 52) = 0 := by ring
      rw [this]
      rfl
    have hsplit : pow2 (binaryExponent x) = pow2 (binaryExponent x - 52) * 2 ^ 52 := by
      have : binaryExponent x = (binaryExponent x - 52) + ((52 : ℕ) : ℤ) := by push_cast; ring
      conv_lhs => rw [this, pow2_add, pow2_natCast]
    have hfac : (roundHalfEven (x * pow2 (52 - binaryExponent x)) : ℚ)
          * pow2 (binaryExponent x - 52) - x
        = ((roundHalfEven (x * pow2 (52 - binaryExponent x)) : ℚ)
            - x * pow2 (52 - binaryExponent x)) * pow2 (binaryExponent x - 52) := by
      rw [sub_mul, mul_assoc, hinv, mul_one]
    rw [hfac, abs_mul, abs_of_pos hpos]
    calc |(roundHalfEven (x * pow2 (52 - binaryExponent x)) : ℚ)
            - x * pow2 (52 - binaryExponent x)| * pow2 (binaryExponent x - 52)
        ≤ 1 / 2 * pow2 (binaryExponent x - 52) := mul_le_mul_of_nonneg_right herr hpos.le
      _ = pow2 (binaryExponent x) / 2 ^ 53 := by rw [hsplit]; ring
      _ ≤ |x| / 2 ^ 53 := div_le_div_of_nonneg_right h1 (by positivity)

/-- The double nearest to a non-negative number is not negative. -/
theorem toDouble_nonneg (x : ℚ) (hx : 0 ≤ x) : 0 ≤ toDouble x := by
  unfold toDouble
  split_ifs with h
  · exact le_refl 0
  · have h1 : (0 : ℚ) ≤ (roundHalfEven (x * pow2 (52 - binaryExponent x)) : ℚ) := by
      exact_mod_cast roundHalfEven_nonneg _ (mul_nonneg hx (pow2_pos _).le)
    exact mul_nonneg h1 (pow2_pos _).le

/-- The double nearest to `x ≥ 0` lies between `(1 - 2^(-53)) x` and `(1 + 2^(-53)) x`. -/
theorem toDouble_bounds (x : ℚ) (hx : 0 ≤ x) :
    (1 - 1 / 2 ^ 53) * x ≤ toDouble x ∧ toDouble x ≤ (1 + 1 / 2 ^ 53) * x := by
  have h := toDouble_error x
  rw [abs_of_nonneg hx, abs_le] at h
  constructor <;> linarith [h.1, h.2]

/-- The double nearest to a non-positive number is not positive. -/
theorem toDouble_nonpos (x : ℚ) (hx : x ≤ 0) : toDouble x ≤ 0 := by
  have h := toDouble_error x
  rw [abs_of_nonpos hx, abs_le] at h
  have h2 : toDouble x ≤ x * (1 - 1 / 2 ^ 53) := by linarith [h.2]
  have h3 : x * (1 - 1 / 2 ^ 53) ≤ 0 := mul_nonpos_of_nonpos_of_nonneg hx (by norm_num)
  linarith

/-- The minutes of the code are within a relative error of `2 ^ (-53)` of the exact ones. -/
theorem minutes_bounds (s : ℤ) :
    0 < max ((s : ℚ) / 60) (1 / 1000) ∧
    (1 - 1 / 2 ^ 53) * max ((s : ℚ) / 60) (1 / 1000)
      ≤ max (toDouble ((s : ℚ) / 60)) (toDouble (1 / 1000)) ∧
    max (toDouble ((s : ℚ) / 60)) (toDouble (1 / 1000))
      ≤ (1 + 1 / 2 ^ 53) * max ((s : ℚ) / 60) (1 / 1000) := by
  have hm : (0 : ℚ) < max ((s : ℚ) / 60) (1 / 1000) :=
    lt_of_lt_of_le (by norm_num) (le_max_right _ _)
  obtain ⟨hc1, hc2⟩ := toDouble_bounds (1 / 1000) (by norm_num)
  refine ⟨hm, ?_, ?_⟩
  · rcases le_total ((s : ℚ) / 60) (1 / 1000) with h | h
    · rw [max_eq_right h]
      exact le_trans hc1 (le_max_right _ _)
    · rw [max_eq_left h]
      have h0 : (0 : ℚ) ≤ (s : ℚ) / 60 := le_trans (by norm_num) h
      exact le_trans (toDouble_bounds _ h0).1 (le_max_left _ _)
  · apply max_le
    · rcases le_total 0 ((s : ℚ) / 60) with h | h
      · exact le_trans (toDouble_bounds _ h).2
          (mul_le_mul_of_nonneg_left (le_max_left _ _) (by norm_num))
      · exact le_trans (toDouble_nonpos _ h) (mul_nonneg (by norm_num) hm.le)
    · exact le_trans hc2 (mul_le_mul_of_nonneg_left (le_max_right _ _) (by norm_num))

/-- The hundredfold words per minute computed in double arithmetic are within a relative error
of `5 * 2 ^ (-53)` of the exact value. -/
theorem doubleHundredfold_close (w : ℕ) (s : ℤ) :
    |doubleHundredfold w s - (w : ℚ) / max ((s : ℚ) / 60) (1 / 1000) * 100|
      ≤ 5 / 2 ^ 53 * ((w : ℚ) / max ((s : ℚ) / 60) (1 / 1000) * 100) := by
  obtain ⟨hm, hlo, hhi⟩ := minutes_bounds s
  have hw : (0 : ℚ) ≤ (w : ℚ) := Nat.cast_nonneg w
  have hm1 : (0 : ℚ) < max (toDouble ((s : ℚ) / 60)) (toDouble (1 / 1000)) :=
    lt_of_lt_of_le (mul_pos (by norm_num) hm) hlo
  have hT : (0 : ℚ) ≤ (w : ℚ) / max ((s : ℚ) / 60) (1 / 1000) := div_nonneg hw hm.le
  have hT1 : (0 : ℚ) ≤ (w : ℚ) / max (toDouble ((s : ℚ) / 60)) (toDouble (1 / 1000)) :=
    div_nonneg hw hm1.le
  have hcancel : (w : ℚ) / max ((s : ℚ) / 60) (1 / 1000) * max ((s : ℚ) / 60) (1 / 1000)
      = (w : ℚ) := div_mul_cancel₀ _ hm.ne.symm
  -- the quotient by the rounded minutes
  have ht_hi : (w : ℚ) / max (toDouble ((s : ℚ) / 60)) (toDouble (1 / 1000))
      ≤ (1 + 2 / 2 ^ 53) * ((w : ℚ) / max ((s : ℚ) / 60) (1 / 1000)) := by
    rw [div_le_iff₀ hm1]
    calc (w : ℚ) = (w : ℚ) / max ((s : ℚ) / 60) (1 / 1000) * max ((s : ℚ) / 60) (1 / 1000) :=
          hcancel.symm
      _ ≤ (1 + 2 / 2 ^ 53) * (1 - 1 / 2 ^ 53)
            * ((w : ℚ) / max ((s : ℚ) / 60) (1 / 1000) * max ((s : ℚ) / 60) (1 / 1000)) := by
          rw [hcancel]
          exact le_mul_of_one_le_left hw (by norm_num)
      _ = (1 + 2 / 2 ^ 53) * ((w : ℚ) / max ((s : ℚ) / 60) (1 / 1000))
            * ((1 - 1 / 2 ^ 53) * max ((s : ℚ) / 60) (1 / 1000)) := by ring
      _ ≤ (1 + 2 / 2 ^ 53) * ((w : ℚ) / max ((s : ℚ) / 60) (1 / 1000))
            * max (toDouble ((s : ℚ) / 60)) (toDouble (1 / 1000)) :=
          mul_le_mul_of_nonneg_left hlo (mul_nonneg (by norm_num) hT)
  have ht_lo : (1 - 1 / 2 ^ 53) * ((w : ℚ) / max ((s : ℚ) / 60) (1 / 1000))
      ≤ (w : ℚ) / max (toDouble ((s : ℚ) / 60)) (toDouble (1 / 1000)) := by
    rw [le_div_iff₀ hm1]
    calc (1 - 1 / 2 ^ 53) * ((w : ℚ) / max ((s : ℚ) / 60) (1 / 1000))
            * max (toDouble ((s : ℚ) / 60)) (toDouble (1 / 1000))
        ≤ (1 - 1 / 2 ^ 53) * ((w : ℚ) / max ((s : ℚ) / 60) (1 / 1000))
            * ((1 + 1 / 2 ^ 53) * max ((s : ℚ) / 60) (1 / 1000)) :=
          mul_le_mul_of_nonneg_left hhi (mul_nonneg (by norm_num) hT)
      _ = (1 - 1 / 2 ^ 53) * (1 + 1 / 2 ^ 53)
            * ((w : ℚ) / max ((s : ℚ) / 60) (1 / 1000) * max ((s : ℚ) / 60) (1 / 1000)) := by
          ring
      _ ≤ (w : ℚ) := by
          rw [hcancel]
          exact mul_le_of_le_one_left hw (by norm_num)
  -- the two rounded operations
  obtain ⟨hq_lo, hq_hi⟩ := toDouble_bounds _ hT1
  have hq0 : (0 : ℚ)
      ≤ toDouble ((w : ℚ) / max (toDouble ((s : ℚ) / 60)) (toDouble (1 / 1000))) :=
    toDouble_nonneg _ hT1
  obtain ⟨hv_lo, hv_hi⟩ := toDouble_bounds
    (toDouble ((w : ℚ) / max (toDouble ((s : ℚ) / 60)) (toDouble (1 / 1000))) * 100)
    (mul_nonneg hq0 (by norm_num))
  unfold doubleHundredfold
  rw [abs_le]
  generalize (w : ℚ) / max ((s : ℚ) / 60) (1 / 1000) = T at *
  generalize (w : ℚ) / max (toDouble ((s : ℚ) / 60)) (toDouble (1 / 1000)) = T1 at *
  generalize toDouble T1 = Q at *
  generalize toDouble (Q * 100) = V at *
  have hup : V ≤ (1 + 1 / 2 ^ 53) * (1 + 1 / 2 ^ 53) * (1 + 2 / 2 ^ 53) * (T * 100) := by
    calc V ≤ (1 + 1 / 2 ^ 53) * (Q * 100) := hv_hi
      _ ≤ (1 + 1 / 2 ^ 53) * ((1 + 1 / 2 ^ 53) * T1 * 100) :=
          mul_le_mul_of_nonneg_left (mul_le_mul_of_nonneg_right hq_hi (by norm_num))
            (by norm_num)
      _ ≤ (1 + 1 / 2 ^ 53) * ((1 + 1 / 2 ^ 53) * ((1 + 2 / 2 ^ 53) * T) * 100) :=
          mul_le_mul_of_nonneg_left (mul_le_mul_of_nonneg_right
            (mul_le_mul_of_nonneg_left ht_hi (by norm_num)) (by norm_num)) (by norm_num)
      _ = (1 + 1 / 2 ^ 53) * (1 + 1 / 2 ^ 53) * (1 + 2 / 2 ^ 53) * (T * 100) := by ring
  have hdown : (1 - 1 / 2 ^ 53) * (1 - 1 / 2 ^ 53) * (1 - 1 / 2 ^ 53) * (T * 100) ≤ V := by
    calc (1 - 1 / 2 ^ 53) * (1 - 1 / 2 ^ 53) * (1 - 1 / 2 ^ 53) * (T * 100)
        = (1 - 1 / 2 ^ 53) * ((1 - 1 / 2 ^ 53) * ((1 - 1 / 2 ^ 53) * T) * 100) := by ring
      _ ≤ (1 - 1 / 2 ^ 53) * ((1 - 1 / 2 ^ 53) * T1 * 100) :=
          mul_le_mul_of_nonneg_left (mul_le_mul_of_nonneg_right
            (mul_le_mul_of_nonneg_left ht_lo (by norm_num)) (by norm_num)) (by norm_num)
      _ ≤ (1 - 1 / 2 ^ 53) * (Q * 100) :=
          mul_le_mul_of_nonneg_left (mul_le_mul_of_nonneg_right hq_lo (by norm_num))
            (by norm_num)
      _ ≤ V := hv_lo
  have hT100 : (0 : ℚ) ≤ T * 100 := mul_nonneg hT (by norm_num)
  have hk1 : (1 + 1 / 2 ^ 53) * (1 + 1 / 2 ^ 53) * (1 + 2 / 2 ^ 53) * (T * 100)
      ≤ (1 + 5 / 2 ^ 53) * (T * 100) :=
    mul_le_mul_of_nonneg_right (by norm_num) hT100
  have hk2 : (1 - 5 / 2 ^ 53) * (T * 100)
      ≤ (1 - 1 / 2 ^ 53) * (1 - 1 / 2 ^ 53) * (1 - 1 / 2 ^ 53) * (T * 100) :=
    mul_le_mul_of_nonneg_right (by norm_num) hT100
  constructor <;> linarith

/-- An integer below `2 ^ 53` in absolute value is a double. -/
theorem toDouble_intCast (y : ℤ) (hy : |(y : ℚ)| < 2 ^ 53) : toDouble (y : ℚ) = (y : ℚ) := by
  unfold toDouble
  split_ifs with h0
  · exact h0.symm
  · obtain ⟨h1, -⟩ := binaryExponent_spec (y : ℚ) h0
    have he : binaryExponent (y : ℚ) < 53 := by
      by_contra hge
      push_neg at hge
      have h53 : (2 : ℚ) ^ (53 : ℤ) ≤ (2 : ℚ) ^ binaryExponent (y : ℚ) :=
        zpow_le_zpow_right₀ (by norm_num) hge
      rw [pow2_eq] at h1
      have : (2 : ℚ) ^ (53 : ℤ) = 2 ^ 53 := by norm_num
      linarith
    obtain ⟨n, hn⟩ := Int.eq_ofNat_of_zero_le (show 0 ≤ 52 - binaryExponent (y : ℚ) by omega)
    have hint : (y : ℚ) * pow2 (52 - binaryExponent (y : ℚ)) = ((y * 2 ^ n : ℤ) : ℚ) := by
      rw [hn, pow2_natCast]
      push_cast
      ring
    have hround : roundHalfEven (((y * 2 ^ n : ℤ) : ℚ)) = y * 2 ^ n := by
      unfold roundHalfEven
      rw [Int.floor_intCast]
      simp
    have hinv : pow2 (52 - binaryExponent (y : ℚ)) * pow2 (binaryExponent (y : ℚ) - 52) = 1 := by
      rw [← pow2_add]
      have : 52 - binaryExponent (y : ℚ) + (binaryExponent (y : ℚ) - 52) = 0 := by ring
      rw [this]
      rfl
    rw [hint, hround, ← hint, mul_assoc, hinv, mul_one]

/-- For an integer number of milliseconds below `2 ^ 53` in absolute value, rounding the
quotient by 1000 to a double does not change its floor. -/
theorem floor_toDouble_div_thousand (x : ℤ) (hx : |x| < 2 ^ 53) :
    ⌊toDouble ((x : ℚ) / 1000)⌋ = ⌊(x : ℚ) / 1000⌋ := by
  have hxq : |(x : ℚ)| < 2 ^ 53 := by exact_mod_cast hx
  have hdiv : (x : ℚ) = 1000 * ((x / 1000 : ℤ) : ℚ) + ((x % 1000 : ℤ) : ℚ) := by
    have := Int.ediv_add_emod x 1000
    exact_mod_cast this.symm
  have hr0 : 0 ≤ x % 1000 := Int.emod_nonneg x (by norm_num)
  have hr1 : x % 1000 < 1000 := Int.emod_lt_of_pos x (by norm_num)
  have hfloor : ⌊(x : ℚ) / 1000⌋ = x / 1000 := by
    rw [Int.floor_eq_iff]
    have h0 : (0 : ℚ) ≤ ((x % 1000 : ℤ) : ℚ) := by exact_mod_cast hr0
    have h1 : ((x % 1000 : ℤ) : ℚ) < 1000 := by exact_mod_cast hr1
    constructor
    · rw [le_div_iff₀ (by norm_num)]
      linarith
    · rw [div_lt_iff₀ (by norm_num)]
      linarith
  by_cases hr : x % 1000 = 0
  · have hy : (x : ℚ) / 1000 = ((x / 1000 : ℤ) : ℚ) := by
      rw [hr] at hdiv
      rw [hdiv]
      push_cast
      ring
    have hyabs : |((x / 1000 : ℤ) : ℚ)| < 2 ^ 53 := by
      rw [← hy, abs_div]
      have : |(1000 : ℚ)| = 1000 := abs_of_pos (by norm_num)
      rw [this, div_lt_iff₀ (by norm_num)]
      have : (0 : ℚ) ≤ |(x : ℚ)| := abs_nonneg _
      linarith
    rw [hy, toDouble_intCast _ hyabs]
  · rw [hfloor, Int.floor_eq_iff]
    have herr := toDouble_error ((x : ℚ) / 1000)
    have hsmall : |(x : ℚ) / 1000| / 2 ^ 53 < 1 / 1000 := by
      rw [abs_div]
      have : |(1000 : ℚ)| = 1000 := abs_of_pos (by norm_num)
      rw [this, div_div, div_lt_div_iff₀ (by norm_num) (by norm_num)]
      linarith
    rw [abs_le] at herr
    have hrp : 1 ≤ x % 1000 := by omega
    have hrq : x % 1000 ≤ 999 := by omega
    have h0 : (1 : ℚ) ≤ ((x % 1000 : ℤ) : ℚ) := by exact_mod_cast hrp
    have h1 : ((x % 1000 : ℤ) : ℚ) ≤ 999 := by exact_mod_cast hrq
    have hy : (x : ℚ) / 1000 = ((x / 1000 : ℤ) : ℚ) + ((x % 1000 : ℤ) : ℚ) / 1000 := by
      conv_lhs => rw [hdiv]
      ring
    constructor <;> linarith [herr.1, herr.2]

/-! ### The typing speed -/

/-- The expression of the code, with `Math.max(0.001, s / 60)`, is the formula of the
specification in double arithmetic. -/
theorem typingSpeed_eq_double (w : ℕ) (s : ℤ) :
    toDouble ((mathRound (toDouble (toDouble
        ((w : ℚ) / max (toDouble (1 / 1000)) (toDouble ((s : ℚ) / 60))) * 100)) : ℚ) / 100)
      = doubleTypingSpeed w s := by
  unfold doubleTypingSpeed doubleHundredfold
  rw [max_comm]

/-- The typing speed is never negative. -/
theorem specTypingSpeed_nonneg (w : ℕ) (s : ℤ) : 0 ≤ specTypingSpeed w s := by
  unfold specTypingSpeed
  have hm : (0 : ℚ) < max ((s : ℚ) / 60) (1 / 1000) :=
    lt_of_lt_of_le (by norm_num) (le_max_right _ _)
  have hq : (0 : ℚ) ≤ (w : ℚ) / max ((s : ℚ) / 60) (1 / 1000) * 100 + 1 / 2 := by
    have : (0 : ℚ) ≤ (w : ℚ) / max ((s : ℚ) / 60) (1 / 1000) :=
      div_nonneg (Nat.cast_nonneg _) hm.le
    linarith
  have hf : (0 : ℤ) ≤ ⌊(w : ℚ) / max ((s : ℚ) / 60) (1 / 1000) * 100 + 1 / 2⌋ :=
    Int.floor_nonneg.mpr hq
  exact div_nonneg (by exact_mod_cast hf) (by norm_num)

/-- The exact hundredfold words per minute are at most `100000 * w`. -/
theorem hundredfold_le (w : ℕ) (s : ℤ) :
    0 ≤ (w : ℚ) / max ((s : ℚ) / 60) (1 / 1000) * 100 ∧
    (w : ℚ) / max ((s : ℚ) / 60) (1 / 1000) * 100 ≤ 100000 * (w : ℚ) := by
  have hm : (0 : ℚ) < max ((s : ℚ) / 60) (1 / 1000) :=
    lt_of_lt_of_le (by norm_num) (le_max_right _ _)
  have hw : (0 : ℚ) ≤ (w : ℚ) := Nat.cast_nonneg w
  refine ⟨mul_nonneg (div_nonneg hw hm.le) (by norm_num), ?_⟩
  have h1 : (w : ℚ) / max ((s : ℚ) / 60) (1 / 1000) ≤ (w : ℚ) / (1 / 1000) :=
    div_le_div_of_nonneg_left hw (by norm_num) (le_max_right _ _)
  have h2 : (w : ℚ) / (1 / 1000) = 1000 * (w : ℚ) := by ring
  linarith

/-- The hundredfold words per minute in double arithmetic are not negative. -/
theorem doubleHundredfold_nonneg (w : ℕ) (s : ℤ) : 0 ≤ doubleHundredfold w s := by
  have hm1 : (0 : ℚ) < max (toDouble ((s : ℚ) / 60)) (toDouble (1 / 1000)) :=
    lt_of_lt_of_le (mul_pos (by norm_num) (minutes_bounds s).1) (minutes_bounds s).2.1
  unfold doubleHundredfold
  exact toDouble_nonneg _ (mul_nonneg
    (toDouble_nonneg _ (div_nonneg (Nat.cast_nonneg w) hm1.le)) (by norm_num))

/-- The typing speed in double arithmetic is never negative. -/
theorem doubleTypingSpeed_nonneg (w : ℕ) (s : ℤ) : 0 ≤ doubleTypingSpeed w s := by
  have h0 := doubleHundredfold_nonneg w s
  have hf : (0 : ℤ) ≤ mathRound (doubleHundredfold w s) :=
    Int.floor_nonneg.mpr (by linarith)
  unfold doubleTypingSpeed
  exact toDouble_nonneg _ (div_nonneg (by exact_mod_cast hf) (by norm_num))

/-- Up to a billion words, the integer the code rounds to differs by at most one from the
integer the exact formula rounds to. -/
theorem mathRound_doubleHundredfold_near (w : ℕ) (s : ℤ) (hw : w ≤ 10 ^ 9) :
    |(mathRound (doubleHundredfold w s) : ℚ) - 100 * specTypingSpeed w s| ≤ 1 := by
  have hclose := doubleHundredfold_close w s
  obtain ⟨hv0, hv1⟩ := hundredfold_le w s
  have hwq : (w : ℚ) ≤ 10 ^ 9 := by exact_mod_cast hw
  have hspec : 100 * specTypingSpeed w s
      = ((⌊(w : ℚ) / max ((s : ℚ) / 60) (1 / 1000) * 100 + 1 / 2⌋ : ℤ) : ℚ) := by
    unfold specTypingSpeed
    ring
  rw [hspec]
  unfold mathRound
  generalize (w : ℚ) / max ((s : ℚ) / 60) (1 / 1000) * 100 = v at *
  generalize doubleHundredfold w s = V at *
  have hsmall : 5 / 2 ^ 53 * v < 1 := by
    have : 5 / 2 ^ 53 * v ≤ 5 / 2 ^ 53 * (100000 * 10 ^ 9) :=
      mul_le_mul_of_nonneg_left (by linarith) (by norm_num)
    have h2 : (5 : ℚ) / 2 ^ 53 * (100000 * 10 ^ 9) < 1 := by norm_num
    linarith
  rw [abs_le] at hclose
  have h1 := Int.floor_le (V + 1 / 2)
  have h2 := Int.lt_floor_add_one (V + 1 / 2)
  have h3 := Int.floor_le (v + 1 / 2)
  have h4 := Int.lt_floor_add_one (v + 1 / 2)
  have hA : (⌊V + 1 / 2⌋ : ℚ) < (⌊v + 1 / 2⌋ : ℚ) + 2 := by linarith [hclose.2]
  have hB : (⌊v + 1 / 2⌋ : ℚ) < (⌊V + 1 / 2⌋ : ℚ) + 2 := by linarith [hclose.1]
  have hA1 : ⌊V + 1 / 2⌋ < ⌊v + 1 / 2⌋ + 2 := by exact_mod_cast hA
  have hB1 : ⌊v + 1 / 2⌋ < ⌊V + 1 / 2⌋ + 2 := by exact_mod_cast hB
  have hA2 : ⌊V + 1 / 2⌋ - ⌊v + 1 / 2⌋ ≤ 1 := by omega
  have hB2 : -1 ≤ ⌊V + 1 / 2⌋ - ⌊v + 1 / 2⌋ := by omega
  rw [abs_le]
  constructor
  · exact_mod_cast hB2
  · exact_mod_cast hA2

/-- Up to a billion words, the typing speed in double arithmetic is within a hundredth, and
the last rounding, of the exact typing speed. -/
theorem doubleTypingSpeed_near (w : ℕ) (s : ℤ) (hw : w ≤ 10 ^ 9) :
    |doubleTypingSpeed w s - specTypingSpeed w s| ≤ 1 / 100 + 1 / 1000 := by
  have hnear := mathRound_doubleHundredfold_near w s hw
  have h0 := doubleHundredfold_nonneg w s
  have hf : (0 : ℤ) ≤ mathRound (doubleHundredfold w s) :=
    Int.floor_nonneg.mpr (by linarith)
  have hfq : (0 : ℚ) ≤ (mathRound (doubleHundredfold w s) : ℚ) := by exact_mod_cast hf
  obtain ⟨-, hv1⟩ := hundredfold_le w s
  have hwq : (w : ℚ) ≤ 10 ^ 9 := by exact_mod_cast hw
  have hspec : 100 * specTypingSpeed w s ≤ 100000 * (w : ℚ) + 1 / 2 := by
    unfold specTypingSpeed
    have := Int.floor_le ((w : ℚ) / max ((s : ℚ) / 60) (1 / 1000) * 100 + 1 / 2)
    linarith
  have herr := toDouble_error ((mathRound (doubleHundredfold w s) : ℚ) / 100)
  rw [abs_of_nonneg (div_nonneg hfq (by norm_num))] at herr
  unfold doubleTypingSpeed
  rw [abs_le] at hnear herr ⊢
  generalize (mathRound (doubleHundredfold w s) : ℚ) = k at *
  generalize toDouble (k / 100) = r at *
  have hk : k ≤ 100000 * 10 ^ 9 + 3 / 2 := by linarith [hnear.2]
  have hbound : k / 100 / 2 ^ 53 ≤ 1 / 1000 := by
    have : k / 100 / 2 ^ 53 ≤ (100000 * 10 ^ 9 + 3 / 2) / 100 / 2 ^ 53 := by
      apply div_le_div_of_nonneg_right _ (by positivity)
      exact div_le_div_of_nonneg_right hk (by norm_num)
    have h2 : ((100000 : ℚ) * 10 ^ 9 + 3 / 2) / 100 / 2 ^ 53 ≤ 1 / 1000 := by norm_num
    linarith
  constructor <;> linarith [hnear.1, hnear.2, herr.1, herr.2]

/-- When no half-integer lies within the relative distance `5 * 2 ^ (-53)` of the exact
hundredfold words per minute, the code rounds to the integer of the exact formula. -/
theorem doubleTypingSpeed_eq_of_clear (w : ℕ) (s : ℤ)
    (hclear : ⌊(w : ℚ) / max ((s : ℚ) / 60) (1 / 1000) * 100
          - 5 / 2 ^ 53 * ((w : ℚ) / max ((s : ℚ) / 60) (1 / 1000) * 100) + 1 / 2⌋
        = ⌊(w : ℚ) / max ((s : ℚ) / 60) (1 / 1000) * 100
          + 5 / 2 ^ 53 * ((w : ℚ) / max ((s : ℚ) / 60) (1 / 1000) * 100) + 1 / 2⌋) :
    doubleTypingSpeed w s = toDouble (specTypingSpeed w s) := by
  have hclose := doubleHundredfold_close w s
  obtain ⟨hv0, -⟩ := hundredfold_le w s
  unfold doubleTypingSpeed specTypingSpeed mathRound
  generalize (w : ℚ) / max ((s : ℚ) / 60) (1 / 1000) * 100 = v at *
  generalize doubleHundredfold w s = V at *
  rw [abs_le] at hclose
  have hd : (0 : ℚ) ≤ 5 / 2 ^ 53 * v := mul_nonneg (by norm_num) hv0
  have h1 : ⌊v - 5 / 2 ^ 53 * v + 1 / 2⌋ ≤ ⌊V + 1 / 2⌋ :=
    Int.floor_mono (by linarith [hclose.1])
  have h2 : ⌊V + 1 / 2⌋ ≤ ⌊v + 5 / 2 ^ 53 * v + 1 / 2⌋ :=
    Int.floor_mono (by linarith [hclose.2])
  have h3 : ⌊v - 5 / 2 ^ 53 * v + 1 / 2⌋ ≤ ⌊v + 1 / 2⌋ := Int.floor_mono (by linarith)
  have h4 : ⌊v + 1 / 2⌋ ≤ ⌊v + 5 / 2 ^ 53 * v + 1 / 2⌋ := Int.floor_mono (by linarith)
  have heq : ⌊V + 1 / 2⌋ = ⌊v + 1 / 2⌋ := by omega
  rw [heq]

/-- C21 (as stated, refuted): three words typed in 800 seconds.  The exact formula gives
`round(22.5) / 100 = 0.23`; in double arithmetic `3 / (800 / 60) * 100` falls below 22.5, the
rounding gives 22, and the submission of `QuestionCard` carries the double nearest to 0.22,
which differs from 0.23. -/
theorem typing_speed_not_exact :
    countWords "a b c" = 3 ∧
    ((QuestionCard.handleSubmit textQuestion 800000
        (QuestionCard.countEffect ⟨"a b c", none, 3, some 0, 0, 0, 0⟩)).submitted.bind
      fun d => d.typingSpeedWpm) = some (toDouble (22 / 100)) ∧
    specTypingSpeed 3 800 = 23 / 100 ∧
    toDouble (22 / 100) ≠ 23 / 100 ∧
    (3 : ℚ) / max ((800 : ℚ) / 60) (1 / 1000) * 100 = 45 / 2 ∧
    doubleHundredfold 3 800 < 45 / 2 ∧
    doubleTypingSpeed 3 800 = toDouble (22 / 100) := by
  decide!

/-- C21 (amended): a free-text (`text`, `typing`) submission of `QuestionCard` and of
`EnhancedAssessmentFlow` carries as `typingSpeedWpm` the formula
`round((w / max(s/60, 0.001)) * 100) / 100` evaluated in double arithmetic, for the word count
`w` of the answer and the elapsed whole seconds `s`.  That value is never negative; it is the
double nearest to the value of the exact formula whenever no half-integer lies within the
relative distance `5 * 2 ^ (-53)` of `(w / max(s/60, 0.001)) * 100`; and up to a billion words
it is the double nearest to `k / 100` for an integer `k` that differs by at most one from the
integer of the exact formula, so it is within a hundredth (and the last rounding) of the exact
value.  A `mcq`, `choice` or `scale` submission carries no `typingSpeedWpm`, and
`w` is the number of white-space-delimited tokens of the text, 0 exactly on white space
only. -/
theorem typing_speed_in_doubles :
    (∀ (question : Question) (endTime : ℤ) (s : QuestionCard.State),
      (QuestionCard.normalizedType question = "text" ∨
        QuestionCard.normalizedType question = "typing") →
      trim s.response ≠ "" →
      ((QuestionCard.handleSubmit question endTime (QuestionCard.countEffect s)).submitted.bind
          fun d => d.typingSpeedWpm)
        = some (doubleTypingSpeed (countWords s.response)
            ⌊((endTime - s.startTime.getD 0 : ℤ) : ℚ) / 1000⌋)) ∧
    (∀ (question : Question) (endTime : ℤ) (s : QuestionCard.State) (d : ResponseData),
      (QuestionCard.normalizedType question = "mcq" ∨
        QuestionCard.normalizedType question = "choice" ∨
        QuestionCard.normalizedType question = "scale") →
      (QuestionCard.handleSubmit question endTime s).submitted = some d →
      d.typingSpeedWpm = none) ∧
    (∀ (sessionToken : String) (q : Question) (c : EnhancedAssessmentFlow.State),
      (q.questionType = some "text" ∨ q.questionType = some "typing") →
      (EnhancedAssessmentFlow.responseData sessionToken q c).typingSpeedWpm
          = some (doubleTypingSpeed (countWords c.answer) c.timeSpent) ∧
        (EnhancedAssessmentFlow.responseData sessionToken q c).wordCount
          = some (countWords c.answer)) ∧
    (∀ (sessionToken : String) (q : Question) (c : EnhancedAssessmentFlow.State),
      (q.questionType = some "mcq" ∨ q.questionType = some "choice" ∨
        q.questionType = some "scale") →
      (EnhancedAssessmentFlow.responseData sessionToken q c).typingSpeedWpm = none) ∧
    (∀ (w : ℕ) (s : ℤ), 0 ≤ doubleTypingSpeed w s) ∧
    (∀ (w : ℕ) (s : ℤ),
      ⌊(w : ℚ) / max ((s : ℚ) / 60) (1 / 1000) * 100
          - 5 / 2 ^ 53 * ((w : ℚ) / max ((s : ℚ) / 60) (1 / 1000) * 100) + 1 / 2⌋
        = ⌊(w : ℚ) / max ((s : ℚ) / 60) (1 / 1000) * 100
          + 5 / 2 ^ 53 * ((w : ℚ) / max ((s : ℚ) / 60) (1 / 1000) * 100) + 1 / 2⌋ →
      doubleTypingSpeed w s = toDouble (specTypingSpeed w s)) ∧
    (∀ (w : ℕ) (s : ℤ), w ≤ 10 ^ 9 →
      (∃ k : ℤ, 0 ≤ k ∧ doubleTypingSpeed w s = toDouble ((k : ℚ) / 100) ∧
        |(k : ℚ) - 100 * specTypingSpeed w s| ≤ 1) ∧
      |doubleTypingSpeed w s - specTypingSpeed w s| ≤ 1 / 100 + 1 / 1000) ∧
    (∀ text : String, countWords text = countTokens true text.data ∧
      (countWords text = 0 ↔ text.data.all isWhiteSpace = true)) ∧
    ((QuestionCard.handleSubmit textQuestion 65000
        (QuestionCard.countEffect ⟨" hello  world ", none, 3, some 0, 0, 0, 0⟩)).submitted.bind
      fun d => d.typingSpeedWpm) = some (toDouble (37 / 20)) := by
  refine ⟨fun question endTime s ht hne => ?_, fun question endTime s d ht hsub => ?_,
    fun sessionToken q c ht => ?_, fun sessionToken q c ht => ?_, doubleTypingSpeed_nonneg,
    doubleTypingSpeed_eq_of_clear,
    fun w s hw => ⟨⟨mathRound (doubleHundredfold w s), ?_, rfl,
      mathRound_doubleHundredfold_near w s hw⟩, doubleTypingSpeed_near w s hw⟩,
    fun text => ⟨countWords_eq_countTokens text, ?_⟩, by decide!⟩
  · have hresp : (QuestionCard.countEffect s).response = s.response := rfl
    have hw : (QuestionCard.countEffect s).wordCount = countWords s.response := rfl
    have hst : (QuestionCard.countEffect s).startTime = s.startTime := rfl
    unfold QuestionCard.handleSubmit
    rw [hresp, hw, hst]
    have hc : ¬ (QuestionCard.normalizedType question = "choice" ∨
        QuestionCard.normalizedType question = "mcq") := by
      rcases ht with h | h <;> rw [h] <;> decide
    simp only [ht, hne, and_false, if_false, hc, false_and, if_true, Option.bind_some,
      typingSpeed_eq_double]
    simp
  · unfold QuestionCard.handleSubmit at hsub
    have hnt : ¬ (QuestionCard.normalizedType question = "text" ∨
        QuestionCard.normalizedType question = "typing") := by
      rcases ht with h | h | h <;> rw [h] <;> decide
    simp only [hnt, false_and, if_false] at hsub
    split_ifs at hsub <;> (cases hsub; rfl)
  · have hb : (q.questionType = some "text" || q.questionType = some "typing") = true := by
      rcases ht with h | h <;> simp [h]
    unfold EnhancedAssessmentFlow.responseData
    simp only [hb, if_true]
    exact ⟨congrArg some (typingSpeed_eq_double _ _), trivial⟩
  · have hb : (q.questionType = some "text" || q.questionType = some "typing") = false := by
      rcases ht with h | h | h <;> simp [h]
    unfold EnhancedAssessmentFlow.responseData
    simp [hb]
  · exact Int.floor_nonneg.mpr (by linarith [doubleHundredfold_nonneg w s])
  · rw [countWords_eq_countTokens, countTokens_eq_zero_iff]

/-- C22: every submission of `QuestionCard` carries the id of the question and exactly the
answer field of its type (text for `text` and `typing`, choice for `mcq` and `choice`, scale
for `scale`), and so does `QuestionCardUpdated` for `text`, `mcq`, `choice` and `scale`.  For a
`typing` question `QuestionCardUpdated` submits with none of the three answer fields set. -/
theorem one_answer_field :
    (∀ (question : Question) (endTime : ℤ) (s : QuestionCard.State) (d : ResponseData),
      (QuestionCard.handleSubmit question endTime s).submitted = some d →
      d.questionId = some question.id ∧
      ((QuestionCard.normalizedType question = "text" ∨
          QuestionCard.normalizedType question = "typing") →
        d.responseText = some s.response ∧ d.responseChoice = none ∧ d.responseScale = none) ∧
      ((QuestionCard.normalizedType question = "mcq" ∨
          QuestionCard.normalizedType question = "choice") →
        d.responseText = none ∧ d.responseChoice = s.selectedChoice ∧
          d.responseChoice.isSome = true ∧ d.responseScale = none) ∧
      (QuestionCard.normalizedType question = "scale" →
        d.responseText = none ∧ d.responseChoice = none ∧
          d.responseScale = some s.sliderValue)) ∧
    (∀ (question : Question) (endTime : ℤ) (s : QuestionCardUpdated.State) (d : ResponseData),
      (QuestionCardUpdated.handleSubmit question endTime s).submitted = some d →
      d.questionId = some question.id ∧
      (QuestionCardUpdated.normalizedType question = "text" →
        d.responseText = some s.response ∧ d.responseChoice = none ∧ d.responseScale = none) ∧
      ((QuestionCardUpdated.normalizedType question = "mcq" ∨
          QuestionCardUpdated.normalizedType question = "choice") →
        d.responseText = none ∧ d.responseChoice = s.selectedChoice ∧
          d.responseChoice.isSome = true ∧ d.responseScale = none) ∧
      (QuestionCardUpdated.normalizedType question = "scale" →
        d.responseText = none ∧ d.responseChoice = none ∧
          d.responseScale = some s.sliderValue)) ∧
    ((QuestionCardUpdated.handleSubmit typingQuestion 5000
          ⟨"", none, 3, some 0, 0, 0, 1 / 2, 0, false⟩).submitted.map
        fun d => (d.questionId, d.responseText, d.responseChoice, d.responseScale))
      = some (some 2, none, none, none) := by
  refine ⟨fun question endTime s d hsub => ?_, fun question endTime s d hsub => ?_,
    by decide!⟩
  · have hx : ∀ t : String, (t = "text" ∨ t = "typing") → (t = "choice" ∨ t = "mcq") →
        False := by
      intro t h1 h2
      rcases h1 with h | h <;> subst h <;> revert h2 <;> decide
    unfold QuestionCard.handleSubmit at hsub
    dsimp only at hsub
    split_ifs at hsub with h1 h2 h3 h4 h5 <;> cases hsub <;>
      first
      | exact absurd h4 (fun h => hx _ h3 h)
      | simp_all [Option.isSome_iff_ne_none]
  · unfold QuestionCardUpdated.handleSubmit at hsub
    dsimp only at hsub
    split_ifs at hsub <;> cases hsub <;> simp_all [Option.isSome_iff_ne_none]

/-- The two copies of the normalisation agree. -/
theorem MCQBatchModule.normalizeOptions_eq (question : Question) :
    MCQBatchModule.normalizeOptions question = QuestionCard.normalizeOptions question := rfl

/-- C23: the normalisation yields the array itself for a non-empty array, the parsed list for a
string that is the JSON text of an array, the trimmed comma-separated pieces for a string that
is not JSON, and the empty list when nothing is given, and rendering a list never throws.  But
a string that is valid JSON of another kind is taken as parsed: for `options: '42'` the value
is the number 42, not a list, and rendering the `choice` question throws; for
`options: 'null'` the `mcq` rendering of both components throws. -/
theorem option_normalisation :
    (∀ (q : Question) (o : String) (os : List String),
      q.options = Encoded.array (o :: os) →
      QuestionCard.normalizeOptions q = OptionsValue.list (o :: os)) ∧
    (∀ (q : Question) (s : String) (items : List String),
      q.options = Encoded.text s (JsonValue.array items) → q.choices = Encoded.other →
      trim s ≠ "" → QuestionCard.normalizeOptions q = OptionsValue.list items) ∧
    (∀ (q : Question) (s : String),
      q.options = Encoded.text s JsonValue.syntaxError → q.choices = Encoded.other →
      trim s ≠ "" →
      QuestionCard.normalizeOptions q = OptionsValue.list ((splitComma s).map trim)) ∧
    (∀ q : Question, q.options = Encoded.other → q.choices = Encoded.other →
      QuestionCard.normalizeOptions q = OptionsValue.list []) ∧
    (∀ (t : String) (items : List String),
      QuestionCard.renderOptions t (OptionsValue.list items) ≠ Rendered.throws ∧
      MCQBatchModule.renderOptions (OptionsValue.list items) ≠ Rendered.throws) ∧
    (∀ q : Question, MCQBatchModule.normalizeOptions q = QuestionCard.normalizeOptions q) ∧
    QuestionCard.normalizeOptions
        { id := 4, questionType := some "choice"
          options := Encoded.text "A, B ,C" JsonValue.syntaxError }
      = OptionsValue.list ["A", "B", "C"] ∧
    (QuestionCard.normalizeOptions
        { id := 4, questionType := some "choice", options := Encoded.text "42" JsonValue.other }
        = OptionsValue.other ∧
      QuestionCard.renderOptions "choice" OptionsValue.other = Rendered.throws) ∧
    (QuestionCard.normalizeOptions
        { id := 4, questionType := some "mcq", options := Encoded.text "null" JsonValue.null }
        = OptionsValue.null ∧
      QuestionCard.renderOptions "mcq" OptionsValue.null = Rendered.throws ∧
      MCQBatchModule.renderOptions (MCQBatchModule.normalizeOptions
        { id := 4, questionType := some "mcq", options := Encoded.text "null" JsonValue.null })
        = Rendered.throws) := by
  refine ⟨fun q o os h => ?_, fun q s items h hc ht => ?_, fun q s h hc ht => ?_,
    fun q h hc => ?_, fun t items => ⟨?_, ?_⟩, fun q => rfl, by decide, by decide, by decide⟩
  · simp [QuestionCard.normalizeOptions, h]
  · simp [QuestionCard.normalizeOptions, h, hc, ht, parseOrSplit]
  · simp [QuestionCard.normalizeOptions, h, hc, ht, parseOrSplit]
  · simp [QuestionCard.normalizeOptions, h, hc]
  · simp only [QuestionCard.renderOptions, renderWithLengthTest, renderWithMap]
    split_ifs <;> simp
  · simp only [MCQBatchModule.renderOptions, renderWithLengthTest]
    split_ifs <;> simp

namespace SkillGapAnalysis

/-- C24: `calculatePriority` returns `(4 - min(4, rawLevel)) * m + b` with `m = 1.5` for a name
mentioning "programming" or "coding" (1 otherwise) and `b = 0.5` for a supplied role contained
in the name (0 otherwise); in the specification's scenario the boost is 1, the adjusted level 3,
the target level 4, the growth 1 and the priority 2. -/
theorem priority_formula :
    (∀ (skill : Skill) (role : Option String),
      calculatePriority skill role = specPriority skill.name skill.level role) ∧
    resumeBoost (extractResumeSkills scenarioProps.resumeData) ⟨"javascript", 2, some (3 / 10)⟩
      = 1 ∧
    (analyzeSkillGaps scenarioProps).opportunities.map
        (fun o => (o.skill, o.currentLevel, o.targetLevel, o.growth, o.priority))
      = [("javascript", 3, 4, 1, 2)] := by
  refine ⟨fun skill role => ?_, by decide!, by decide!⟩
  unfold calculatePriority specPriority
  cases role with
  | none => simp [truthy]
  | some r =>
    by_cases hr : r = ""
    · simp [truthy, hr]
    · simp [truthy, hr]

/-- C25: `inferTargetLevel` returns 4 without a role, otherwise 5 when the lowercased name
contains the lowercased role, otherwise 3 when the name contains "foundations" or "basics",
otherwise 4; the result is one of 3, 4, 5. -/
theorem target_level_rule (skill : Skill) (role : Option String) :
    inferTargetLevel skill role = specTargetLevel skill.name role ∧
    (truthy role = false → inferTargetLevel skill role = 4) ∧
    (inferTargetLevel skill role = 3 ∨ inferTargetLevel skill role = 4 ∨
      inferTargetLevel skill role = 5) := by
  have h1 : inferTargetLevel skill role = specTargetLevel skill.name role := by
    unfold inferTargetLevel specTargetLevel
    cases role with
    | none => simp [truthy]
    | some r =>
      by_cases hr : r = ""
      · simp [truthy, hr]
      · simp [truthy, hr]
  refine ⟨h1, fun ht => ?_, ?_⟩
  · simp [inferTargetLevel, ht]
  · simp only [inferTargetLevel]
    split_ifs <;> simp

end SkillGapAnalysis

namespace SkillGapAnalysis

/-- Looking a name up at an entry of another name goes on in the rest. -/
theorem lookup_cons_of_ne {α : Type} (name k : String) (x : α) (es : List (String × α))
    (h : name ≠ k) :
    List.lookup name ((k, x) :: es) = List.lookup name es := by
  have hb : (name == k) = false := by simpa using h
  rw [List.lookup_cons, hb]

/-- Replacing the values held under `key` changes the lookup of `key` only. -/
theorem lookup_map_replace {α : Type} (es : List (String × α)) (key name : String) (v : α) :
    List.lookup name (es.map fun e => if e.1 = key then (key, v) else e)
      = if name = key then (if (List.lookup key es).isSome then some v else none)
        else List.lookup name es := by
  induction es with
  | nil => simp
  | cons e rest ih =>
    obtain ⟨k, x⟩ := e
    rw [List.map_cons]
    by_cases hk : k = key
    · subst hk
      rw [if_pos rfl]
      by_cases hn : name = k
      · subst hn
        simp
      · rw [lookup_cons_of_ne _ _ _ _ hn, lookup_cons_of_ne _ _ _ _ hn, ih, if_neg hn,
          if_neg hn]
    · rw [if_neg hk]
      by_cases hn : name = k
      · subst hn
        have hnk : ¬ name = key := hk
        simp [hnk]
      · rw [lookup_cons_of_ne _ _ _ _ hn, ih]
        by_cases hnk : name = key
        · subst hnk
          have hne : name ≠ k := hn
          rw [if_pos rfl, if_pos rfl, lookup_cons_of_ne _ _ _ _ hne]
        · rw [if_neg hnk, if_neg hnk, lookup_cons_of_ne _ _ _ _ hn]

/-- Appending an entry under a new key adds that key only. -/
theorem lookup_append_new {α : Type} (es : List (String × α)) (key name : String) (v : α)
    (hnew : List.lookup key es = none) :
    List.lookup name (es ++ [(key, v)]) = if name = key then some v else List.lookup name es := by
  induction es with
  | nil =>
    by_cases hn : name = key
    · subst hn
      simp
    · rw [List.nil_append, lookup_cons_of_ne _ _ _ _ hn, if_neg hn]
  | cons e rest ih =>
    obtain ⟨k, x⟩ := e
    have hk : key ≠ k := by
      intro h
      subst h
      simp at hnew
    rw [lookup_cons_of_ne _ _ _ _ hk] at hnew
    rw [List.cons_append]
    by_cases hn : name = k
    · subst hn
      have hnk : ¬ name = key := fun h => hk h.symm
      simp [hnk]
    · rw [lookup_cons_of_ne _ _ _ _ hn, lookup_cons_of_ne _ _ _ _ hn, ih hnew]

/-- Reading a map after an assignment. -/
theorem BoostMap.get_set (m : BoostMap) (key name : String) (v : ℚ) :
    (m.set key v).get name = if name = key then some v else m.get name := by
  unfold BoostMap.set BoostMap.get
  cases hl : List.lookup key m with
  | none =>
    simp only [Option.isSome_none, Bool.false_eq_true, if_false]
    exact lookup_append_new m key name v hl
  | some y =>
    simp only [Option.isSome_some, if_true]
    rw [lookup_map_replace, hl]
    simp

/-- The value `x || 0` is `x`. -/
theorem jsOr_zero (x : ℚ) : jsOr x 0 = x := by
  unfold jsOr
  split_ifs with h
  · exact h.symm
  · rfl

/-- What one more entry adds to the specification's boost of a name. -/
theorem specBoost_cons (e : ResumeItem) (rest : List ResumeItem) (name : String) :
    specBoost (e :: rest) name
      = if entryKey e = name then
          some (max (if hasTwoYears e = true then 1 else 1 / 2)
            ((specBoost rest name).getD 0))
        else specBoost rest name := by
  unfold specBoost
  simp only [List.any_cons]
  by_cases hk : entryKey e = name
  · simp only [hk, decide_True, Bool.true_and, Bool.true_or, if_true]
    cases hasTwoYears e <;>
      cases (rest.any fun e => decide (entryKey e = name) && hasTwoYears e) <;>
      cases (rest.any fun e => decide (entryKey e = name)) <;> norm_num
  · simp [hk]

/-- Merging the value so far with the boost of the current entry and then with the rest. -/
theorem mergeBoost_step (soFar rest : Option ℚ) (b : ℚ) (hb : 0 ≤ b) :
    mergeBoost (some (max (jsOr (soFar.getD 0) 0) b)) rest
      = mergeBoost soFar (some (max b (rest.getD 0))) := by
  rw [jsOr_zero]
  cases rest with
  | none => simp [mergeBoost, max_eq_left hb]
  | some r => simp [mergeBoost, max_assoc]

/-- The loop of `extractResumeSkills` over entries that are all objects: it ends normally, and
every non-empty name holds the value it had merged with the specification's boost. -/
theorem extractLoop_spec (entries : List ResumeItem) (m : BoostMap) :
    ∃ m1, extractLoop m (entries.map some) = some m1 ∧
      (∀ name, name ≠ "" → m1.get name = mergeBoost (m.get name) (specBoost entries name)) ∧
      m1.get "" = m.get "" := by
  induction entries generalizing m with
  | nil => exact ⟨m, rfl, fun name _ => rfl, rfl⟩
  | cons e rest ih =>
    rw [List.map_cons, extractLoop]
    by_cases hkey : entryKey e = ""
    · have hstep : extractStep m (some e) = some m := by
        have hkey1 : toLowerCase (e.skillName.getD "") = "" := hkey
        unfold extractStep
        simp only
        rw [if_pos hkey1]
      rw [hstep]
      obtain ⟨m1, h1, h2, h3⟩ := ih m
      refine ⟨m1, h1, fun name hn => ?_, h3⟩
      rw [h2 name hn, specBoost_cons, if_neg]
      rw [hkey]
      exact fun h => hn h.symm
    · have hstep : extractStep m (some e) = some (m.set (entryKey e)
          (max (jsOr ((m.get (entryKey e)).getD 0) 0)
            (if hasTwoYears e = true then 1 else 1 / 2))) := by
        have hkey1 : ¬ toLowerCase (e.skillName.getD "") = "" := hkey
        have hboost : (match e.yearsExperience with
            | some y => if y ≥ 2 then (1 : ℚ) else 1 / 2
            | none => 1 / 2) = if hasTwoYears e = true then 1 else 1 / 2 := by
          unfold hasTwoYears
          cases e.yearsExperience with
          | none => simp
          | some y => by_cases hy : y ≥ 2 <;> simp [hy]
        unfold extractStep
        simp only
        rw [if_neg hkey1, hboost]
        rfl
      rw [hstep]
      obtain ⟨m1, h1, h2, h3⟩ := ih (m.set (entryKey e)
        (max (jsOr ((m.get (entryKey e)).getD 0) 0) (if hasTwoYears e = true then 1 else 1 / 2)))
      refine ⟨m1, h1, fun name hn => ?_, ?_⟩
      · rw [h2 name hn, BoostMap.get_set, specBoost_cons]
        by_cases hnk : name = entryKey e
        · subst hnk
          rw [if_pos rfl, if_pos rfl]
          apply mergeBoost_step
          split_ifs <;> norm_num
        · rw [if_neg hnk, if_neg (fun h => hnk h.symm)]
      · rw [h3, BoostMap.get_set, if_neg (fun h => hkey h.symm)]

/-- The map of the own numeric properties holds, under every non-empty name, the boost of the
specification. -/
theorem extractLoop_get_spec (entries : List ResumeItem) (name : String) (hn : name ≠ "") :
    BoostMap.get ((extractLoop [] (entries.map some)).getD []) name
      = specBoost entries name := by
  obtain ⟨m1, h1, h2, -⟩ := extractLoop_spec entries []
  rw [h1, Option.getD_some, h2 name hn]
  cases specBoost_values : specBoost entries name with
  | none => rfl
  | some b =>
    have hb : 0 ≤ b := by
      unfold specBoost at specBoost_values
      split_ifs at specBoost_values <;> cases specBoost_values <;> norm_num
    simp [mergeBoost, BoostMap.get, max_eq_right hb]

/-- The own properties after an assignment that is not under `__proto__`. -/
theorem lookup_assign {α : Type} (m : List (String × α)) (key name : String) (v : α) :
    List.lookup name
        (if (m.lookup key).isSome then m.map fun e => if e.1 = key then (key, v) else e
          else m ++ [(key, v)])
      = if name = key then some v else List.lookup name m := by
  cases hl : List.lookup key m with
  | none =>
    simp only [Option.isSome_none, Bool.false_eq_true, if_false]
    exact lookup_append_new m key name v hl
  | some y =>
    simp only [Option.isSome_some, if_true]
    rw [lookup_map_replace, hl]
    simp

/-- Reading the object after an assignment: the assigned value under the assigned name, unless
that name is `__proto__`, and the former value under every other name. -/
theorem ObjectMap.get_assign (m : ObjectMap) (key name : String) (v : MapValue) :
    (m.set key v).get name
      = if name = key ∧ key ≠ "__proto__" then v else m.get name := by
  unfold ObjectMap.set
  by_cases hp : key = "__proto__"
  · rw [if_pos hp, if_neg (fun h => h.2 hp)]
  · rw [if_neg hp]
    unfold ObjectMap.get
    rw [lookup_assign]
    by_cases hn : name = key
    · simp [hn, hp]
    · simp [hn]

namespace WithPrototype

/-- One step of the loop keeps the two models in agreement under every name that is not
inherited, and the step throws in one model exactly when it throws in the other. -/
theorem extractStep_agrees (m : BoostMap) (m1 : ObjectMap) (item : Option ResumeItem)
    (h : ∀ name, name ∉ inheritedNames → m1.get name = MapValue.ofOwn (m.get name)) :
    (SkillGapAnalysis.extractStep m item = none ∧ extractStep m1 item = none) ∨
    ∃ r r1, SkillGapAnalysis.extractStep m item = some r ∧ extractStep m1 item = some r1 ∧
      ∀ name, name ∉ inheritedNames → r1.get name = MapValue.ofOwn (r.get name) := by
  cases item with
  | none => exact Or.inl ⟨rfl, rfl⟩
  | some it =>
    right
    unfold SkillGapAnalysis.extractStep extractStep
    simp only
    by_cases hkey : toLowerCase (it.skillName.getD "") = ""
    · rw [if_pos hkey, if_pos hkey]
      exact ⟨m, m1, rfl, rfl, h⟩
    · rw [if_neg hkey, if_neg hkey]
      refine ⟨_, _, rfl, rfl, fun name hn => ?_⟩
      rw [ObjectMap.get_assign, BoostMap.get_set]
      by_cases hnk : name = toLowerCase (it.skillName.getD "")
      · have hp : toLowerCase (it.skillName.getD "") ≠ "__proto__" := by
          intro hp
          apply hn
          rw [hnk, hp]
          decide
        rw [if_pos ⟨hnk, hp⟩, if_pos hnk, h _ (hnk ▸ hn), jsOr_zero]
        cases m.get (toLowerCase (it.skillName.getD "")) <;> rfl
      · rw [if_neg (fun hc => hnk hc.1), if_neg hnk]
        exact h name hn

/-- The loop keeps the two models in agreement under every name that is not inherited. -/
theorem extractLoop_agrees (items : List (Option ResumeItem)) (m : BoostMap) (m1 : ObjectMap)
    (h : ∀ name, name ∉ inheritedNames → m1.get name = MapValue.ofOwn (m.get name)) :
    ∀ name, name ∉ inheritedNames →
      ((extractLoop m1 items).getD []).get name
        = MapValue.ofOwn (((SkillGapAnalysis.extractLoop m items).getD []).get name) := by
  induction items generalizing m m1 with
  | nil => exact h
  | cons item rest ih =>
    intro name hn
    rw [extractLoop, SkillGapAnalysis.extractLoop]
    rcases extractStep_agrees m m1 item h with ⟨h1, h2⟩ | ⟨r, r1, h1, h2, h3⟩
    · rw [h1, h2]
      simp only [Option.getD_none]
      unfold ObjectMap.get BoostMap.get
      simp [hn, MapValue.ofOwn]
    · rw [h1, h2]
      exact ih r r1 h3 name hn

/-- Under every name that is not inherited from `Object.prototype`, the object returned by
`extractResumeSkills` holds what the map of its own numeric properties holds. -/
theorem extractResumeSkills_agrees (resume : Option Resume) (name : String)
    (hn : name ∉ inheritedNames) :
    (extractResumeSkills resume).get name
      = MapValue.ofOwn ((SkillGapAnalysis.extractResumeSkills resume).get name) := by
  have hempty : ∀ name, name ∉ inheritedNames →
      ObjectMap.get [] name = MapValue.ofOwn (BoostMap.get [] name) := by
    intro name hn
    unfold ObjectMap.get BoostMap.get
    simp [hn, MapValue.ofOwn]
  unfold extractResumeSkills SkillGapAnalysis.extractResumeSkills
  cases resume with
  | none => exact hempty name hn
  | some r =>
    simp only
    cases r.extractedSkills with
    | text parsed =>
      cases parsed with
      | syntaxError => exact hempty name hn
      | notArray => exact hempty name hn
      | array items => exact extractLoop_agrees items [] [] hempty name hn
    | array items => exact extractLoop_agrees items [] [] hempty name hn
    | other => exact hempty name hn

end WithPrototype

/-- C26: for a resume whose extracted skills are an array, or a JSON string of an array, of
entries with ASCII names, the object returned by `extractResumeSkills` holds 1.0 under a
non-empty lowercased skill name when some entry with that name has two years or more, 0.5 when
the entries with that name have less, and nothing (boost 0) when the resume does not list it,
for every name that is not a property name inherited from `Object.prototype`; an absent resume
and malformed JSON give the empty object.  Under an inherited name the object is not a
dictionary: a resume entry `constructor` with three years stores `NaN`, which reads as boost 0
where the boost should be 1.0, an entry `__proto__` stores nothing, and for a resume that does
not list `constructor` the read gives the inherited function and not 0. -/
theorem resume_skill_boost :
    (∀ (entries : List ResumeItem) (name : String), name ≠ "" → name ∉ inheritedNames →
      (∀ e ∈ entries, asciiOnly (e.skillName.getD "") = true) →
      (WithPrototype.extractResumeSkills
          (some ⟨ExtractedSkills.array (entries.map some)⟩)).get name
          = MapValue.ofOwn (specBoost entries name) ∧
        (WithPrototype.extractResumeSkills
            (some ⟨ExtractedSkills.text (JsonParse.array (entries.map some))⟩)).get name
          = MapValue.ofOwn (specBoost entries name)) ∧
    (∀ (entries : List ResumeItem) (skill : Skill), toLowerCase skill.name ≠ "" →
      toLowerCase skill.name ∉ inheritedNames →
      (∀ e ∈ entries, asciiOnly (e.skillName.getD "") = true) → asciiOnly skill.name = true →
      WithPrototype.resumeBoost (WithPrototype.extractResumeSkills
          (some ⟨ExtractedSkills.array (entries.map some)⟩)) skill
        = MapValue.number ((specBoost entries (toLowerCase skill.name)).getD 0)) ∧
    WithPrototype.extractResumeSkills none = [] ∧
    WithPrototype.extractResumeSkills (some ⟨ExtractedSkills.text JsonParse.syntaxError⟩) = [] ∧
    WithPrototype.extractResumeSkills (some ⟨ExtractedSkills.array
        [some ⟨some "Docker", some 1⟩, some ⟨some "SQL", some 1⟩, some ⟨some "docker", some 3⟩,
          some ⟨none, some 5⟩]⟩)
      = [("docker", MapValue.number 1), ("sql", MapValue.number (1 / 2))] ∧
    (specBoost [⟨some "constructor", some 3⟩] "constructor" = some 1 ∧
      WithPrototype.extractResumeSkills
          (some ⟨ExtractedSkills.array [some ⟨some "constructor", some 3⟩]⟩)
        = [("constructor", MapValue.nan)] ∧
      WithPrototype.resumeBoost (WithPrototype.extractResumeSkills
          (some ⟨ExtractedSkills.array [some ⟨some "constructor", some 3⟩]⟩))
          ⟨"constructor", 2, none⟩
        = MapValue.number 0) ∧
    (specBoost [⟨some "__proto__", some 3⟩] "__proto__" = some 1 ∧
      WithPrototype.extractResumeSkills
          (some ⟨ExtractedSkills.array [some ⟨some "__proto__", some 3⟩]⟩)
        = []) ∧
    (specBoost [] "constructor" = none ∧
      (WithPrototype.extractResumeSkills none).get "constructor" = MapValue.inherited ∧
      WithPrototype.resumeBoost (WithPrototype.extractResumeSkills none)
          ⟨"constructor", 2, none⟩
        = MapValue.inherited) := by
  have hget : ∀ (entries : List ResumeItem) (name : String), name ≠ "" →
      name ∉ inheritedNames →
      ObjectMap.get ((WithPrototype.extractLoop [] (entries.map some)).getD []) name
        = MapValue.ofOwn (specBoost entries name) := by
    intro entries name hn hi
    have h := WithPrototype.extractResumeSkills_agrees
      (some ⟨ExtractedSkills.array (entries.map some)⟩) name hi
    have h2 := extractLoop_get_spec entries name hn
    simp only [WithPrototype.extractResumeSkills, extractResumeSkills] at h
    rw [h, h2]
  refine ⟨fun entries name hn hi _ => ⟨hget entries name hn hi, hget entries name hn hi⟩,
    fun entries skill hn hi _ _ => ?_, rfl, rfl, by decide!, by decide!, by decide!,
    by decide!⟩
  unfold WithPrototype.resumeBoost
  have h := hget entries _ hn hi
  simp only [WithPrototype.extractResumeSkills]
  rw [h]
  cases specBoost entries (toLowerCase skill.name) <;> rfl

/-- A rule whose condition holds contributes its string, in place. -/
theorem rules_cons (b : Bool) (s : String) (rest : List (Bool × String)) :
    (((b, s) :: rest).filter fun r => r.1).map (fun r => r.2)
      = (if b = true then [s] else []) ++ (rest.filter fun r => r.1).map fun r => r.2 := by
  cases b <;> simp

/-- The confidence rule of `generateEvidence`, as one condition. -/
theorem confidence_rule (skill : Skill) :
    (match skill.confidence with
      | some c =>
        if c < 2 / 5 then ["Assessment confidence indicates room for improvement"] else []
      | none => [])
      = if (∃ c, skill.confidence = some c ∧ c < 2 / 5) then
          ["Assessment confidence indicates room for improvement"] else [] := by
  cases skill.confidence with
  | none => simp
  | some c => simp

/-- The resume rule of `generateEvidence`, as two rules that exclude each other. -/
theorem resume_rule (skill : Skill) (resume : Option Resume) :
    (match (extractResumeSkills resume).get (toLowerCase skill.name) with
      | some b =>
        if b > 0 then ["Resume shows related experience - build on existing foundation"]
        else ["Limited direct experience in this area"]
      | none => ["Limited direct experience in this area"])
      = (if resumeBoost (extractResumeSkills resume) skill > 0 then
          ["Resume shows related experience - build on existing foundation"] else []) ++
        (if ¬ resumeBoost (extractResumeSkills resume) skill > 0 then
          ["Limited direct experience in this area"] else []) := by
  unfold resumeBoost
  rw [jsOr_zero]
  cases (extractResumeSkills resume).get (toLowerCase skill.name) with
  | none => simp
  | some b => by_cases hb : b > 0 <;> simp [hb]

/-- The evidence of the code is the evidence of the rule list. -/
theorem generateEvidence_eq_specEvidence (targetRole : Option String) (skill : Skill)
    (resume : Option Resume) (responseEvidence : ResponseEvidence) :
    generateEvidence targetRole skill resume responseEvidence
      = specEvidence targetRole skill resume responseEvidence := by
  unfold generateEvidence specEvidence
  simp only [rules_cons, confidence_rule, resume_rule, List.filter_nil, List.map_nil,
    List.append_nil, decide_eq_true_eq, List.append_assoc]

/-- C27: `generateEvidence` returns exactly the strings of the rules whose condition holds, in
the order of the rule list (low confidence, short responses, quick responses, skill confidence
below 0.4, raw level below 2.5, one of the two resume messages, target role); the list has
between 1 and 7 strings. -/
theorem evidence_rule_list (targetRole : Option String) (skill : Skill)
    (resume : Option Resume) (responseEvidence : ResponseEvidence) :
    generateEvidence targetRole skill resume responseEvidence
      = specEvidence targetRole skill resume responseEvidence ∧
    1 ≤ (generateEvidence targetRole skill resume responseEvidence).length ∧
    (generateEvidence targetRole skill resume responseEvidence).length ≤ 7 := by
  have hone : ∀ (c : Prop) [Decidable c] (s : String),
      (if c then [s] else ([] : List String)).length ≤ 1 := by
    intro c _ s
    split_ifs <;> simp
  refine ⟨generateEvidence_eq_specEvidence targetRole skill resume responseEvidence, ?_⟩
  unfold generateEvidence
  simp only [confidence_rule, resume_rule, List.length_append]
  have h1 := hone (responseEvidence.lowConfidence.getD 0 > 2)
    "Multiple responses showed uncertainty - indicates knowledge gaps"
  have h2 := hone (responseEvidence.shortResponses.getD 0 > 3)
    "Brief responses suggest areas needing deeper understanding"
  have h3 := hone (responseEvidence.quickResponses.getD 0 > 2)
    "Quick responses may indicate surface-level knowledge"
  have h4 := hone (∃ c, skill.confidence = some c ∧ c < 2 / 5)
    "Assessment confidence indicates room for improvement"
  have h5 := hone (skill.level < 5 / 2)
    "Current proficiency level suggests foundational gaps"
  have h6 := hone ((truthy targetRole &&
      includes (toLowerCase skill.name) (toLowerCase (targetRole.getD ""))) = true)
    "Highly relevant to target career path"
  by_cases hb : resumeBoost (extractResumeSkills resume) skill > 0
  · simp only [hb, if_true, not_true_eq_false, if_false, List.length_cons, List.length_nil]
    constructor <;> omega
  · simp only [hb, if_true, not_false_eq_true, if_false, List.length_cons, List.length_nil]
    constructor <;> omega

/-- One step of `analyzeUserResponses` raises the quick count by one exactly on a response
with a think time that is not 0 and is below 30. -/
theorem responseStep_quick (e : ResponseEvidence) (r : Response) :
    (responseStep e r).quickResponses.getD 0
      = e.quickResponses.getD 0 + (if countedAsQuick r = true then 1 else 0) := by
  unfold responseStep countedAsQuick
  cases r.thinkTimeSeconds with
  | none =>
    simp only [Bool.false_eq_true, if_false, Nat.add_zero]
    split_ifs <;> rfl
  | some t =>
    simp only [decide_eq_true_eq]
    split_ifs <;> simp

/-- The quick count after a run of steps. -/
theorem foldl_responseStep_quick (rs : List Response) (e : ResponseEvidence) :
    (rs.foldl responseStep e).quickResponses.getD 0
      = e.quickResponses.getD 0 + (rs.filter countedAsQuick).length := by
  induction rs generalizing e with
  | nil => simp
  | cons r rest ih =>
    rw [List.foldl_cons, ih, responseStep_quick, List.filter_cons]
    split_ifs
    · simp
      omega
    · simp

/-- C28: the quick-response count of `analyzeUserResponses` is the number of responses whose
think time is below 30 seconds and is not 0, and the quick-response evidence is produced
exactly when that count exceeds 2.  A think time of 0 is not counted: three responses
answered at once give no count and no evidence. -/
theorem quick_response_count :
    (∀ responses : Option (List Response),
      (analyzeUserResponses responses).quickResponses.getD 0
        = ((responses.getD []).filter countedAsQuick).length) ∧
    (∀ (targetRole : Option String) (skill : Skill) (resume : Option Resume)
        (responseEvidence : ResponseEvidence),
      "Quick responses may indicate surface-level knowledge"
          ∈ generateEvidence targetRole skill resume responseEvidence ↔
        responseEvidence.quickResponses.getD 0 > 2) ∧
    (instantResponses.filter thinkTimeBelow30).length = 3 ∧
    (analyzeUserResponses (some instantResponses)).quickResponses = none ∧
    "Quick responses may indicate surface-level knowledge"
      ∉ generateEvidence none ⟨"sql", 2, none⟩ none
          (analyzeUserResponses (some instantResponses)) := by
  refine ⟨fun responses => ?_, fun targetRole skill resume responseEvidence => ?_,
    by decide!, by decide!, by decide!⟩
  · cases responses with
    | none => rfl
    | some rs =>
      have h := foldl_responseStep_quick rs ⟨none, none, none⟩
      simpa [analyzeUserResponses] using h
  · rw [generateEvidence_eq_specEvidence]
    unfold specEvidence
    simp only [rules_cons, List.filter_nil, List.map_nil, List.append_nil, List.mem_append]
    constructor
    · intro h
      rcases h with h | h | h | h | h | h | h | h <;> split_ifs at h with hc <;>
        first
        | (simpa using hc)
        | (exact absurd h (by decide))
    · intro h
      right; right; left
      simp [h]

end SkillGapAnalysis

namespace FreeResourcesCard

/-- The synonym loop lifts the running maximum to 0.9 exactly when some synonym matches. -/
theorem synonyms_foldl_eq (gapSkill : String) (synonyms : List String) (m : ℚ) :
    synonyms.foldl (synonymStep gapSkill) m
      = if (synonyms.any fun synonym =>
            includes gapSkill synonym || includes synonym gapSkill) = true then max m (9 / 10)
        else m := by
  induction synonyms generalizing m with
  | nil => simp
  | cons y ys ih =>
    rw [List.foldl_cons, ih, List.any_cons]
    unfold synonymStep
    by_cases hy : (includes gapSkill y || includes y gapSkill) = true
    · rw [if_pos hy, hy]
      simp only [Bool.true_or, if_true]
      split_ifs <;> simp [max_assoc]
    · rw [if_neg hy]
      have hf : (includes gapSkill y || includes y gapSkill) = false := by simpa using hy
      rw [hf]
      simp

/-- The token-overlap ratio lies in `[0,1]`. -/
theorem overlapRatio_range (gapSkill tag : String) :
    0 ≤ overlapRatio gapSkill tag ∧ overlapRatio gapSkill tag ≤ 1 := by
  unfold overlapRatio
  constructor
  · exact div_nonneg (Nat.cast_nonneg _) (Nat.cast_nonneg _)
  · apply div_le_one_of_le₀
    · have hle : ((split gapSkill).filter fun word => (split tag).contains word).length
          ≤ max (split gapSkill).length (split tag).length :=
        le_trans (List.length_filter_le _ _) (le_max_left _ _)
      exact_mod_cast hle
    · exact Nat.cast_nonneg _

/-- The score of a single tag: the maximum of the three rules. -/
theorem relevance_single_tag_eq (tag : String) (userSkillGap : SkillGap) :
    calculateSkillRelevance [tag] userSkillGap
      = if directMatch (toLowerCase userSkillGap.skill) (toLowerCase tag) = true then 1
        else if synonymMatch (toLowerCase tag) (toLowerCase userSkillGap.skill) = true then
          max (9 / 10) (overlapRatio (toLowerCase userSkillGap.skill) (toLowerCase tag))
        else overlapRatio (toLowerCase userSkillGap.skill) (toLowerCase tag) := by
  obtain ⟨h0, h1⟩ := overlapRatio_range (toLowerCase userSkillGap.skill) (toLowerCase tag)
  have hzero : ¬ ((split (toLowerCase userSkillGap.skill)).filter fun word =>
      (split (toLowerCase tag)).contains word).length > 0 →
      overlapRatio (toLowerCase userSkillGap.skill) (toLowerCase tag) = 0 := by
    intro h
    have h' : ((split (toLowerCase userSkillGap.skill)).filter fun word =>
      (split (toLowerCase tag)).contains word).length = 0 := by omega
    unfold overlapRatio
    rw [h']
    simp
  unfold calculateSkillRelevance
  simp only [List.foldl_cons, List.foldl_nil, relevanceStep, synonyms_foldl_eq]
  unfold directMatch synonymMatch
  unfold overlapRatio at h0 h1 hzero ⊢
  by_cases hd : (includes (toLowerCase userSkillGap.skill) (toLowerCase tag) ||
      includes (toLowerCase tag) (toLowerCase userSkillGap.skill)) = true
  · simp only [hd, if_true]
    split_ifs with ho hs hs
    · rw [max_eq_right (by norm_num : (0 : ℚ) ≤ 1), max_eq_left (by norm_num : (9 / 10 : ℚ) ≤ 1),
        max_eq_left h1]
    · rw [max_eq_right (by norm_num : (0 : ℚ) ≤ 1), max_eq_left h1]
    · rw [max_eq_right (by norm_num : (0 : ℚ) ≤ 1), max_eq_left (by norm_num : (9 / 10 : ℚ) ≤ 1)]
    · rw [max_eq_right (by norm_num : (0 : ℚ) ≤ 1)]
  · have hf : (includes (toLowerCase userSkillGap.skill) (toLowerCase tag) ||
        includes (toLowerCase tag) (toLowerCase userSkillGap.skill)) = false := by
      simpa using hd
    simp only [hf, Bool.false_eq_true, if_false]
    split_ifs with ho hs hs
    · rw [max_eq_right (by norm_num : (0 : ℚ) ≤ 9 / 10)]
    · rw [max_eq_right h0]
    · rw [max_eq_right (by norm_num : (0 : ℚ) ≤ 9 / 10), hzero ho,
        max_eq_left (by norm_num : (0 : ℚ) ≤ 9 / 10)]
    · rw [hzero ho]

/-- C29 (as stated, refuted): for the tag "machine learning" and the eleven-word gap the direct
rule does not apply and the synonym rule does (the gap contains "ai"), yet the score is 10/11,
the token-overlap ratio, and not the 0.9 of the cascade. -/
theorem relevance_not_a_cascade :
    directMatch (toLowerCase elevenWordGap) (toLowerCase "machine learning") = false ∧
    synonymMatch (toLowerCase "machine learning") (toLowerCase elevenWordGap) = true ∧
    specCascade elevenWordGap "machine learning" = 9 / 10 ∧
    calculateSkillRelevance ["machine learning"] ⟨elevenWordGap⟩ = 10 / 11 := by
  decide!

/-- C29 (amended): per (gap, tag) pair the score is the maximum of the three rules: 1.0 on a
direct match; otherwise, when a synonym of the tag matches the gap, the larger of 0.9 and the
token-overlap ratio, which is exactly 0.9 whenever the ratio is at most 0.9; otherwise the
token-overlap ratio (0 when no word is shared). -/
theorem relevance_max_of_rules (tag : String) (userSkillGap : SkillGap) :
    calculateSkillRelevance [tag] userSkillGap
      = (if directMatch (toLowerCase userSkillGap.skill) (toLowerCase tag) = true then 1
        else if synonymMatch (toLowerCase tag) (toLowerCase userSkillGap.skill) = true then
          max (9 / 10) (overlapRatio (toLowerCase userSkillGap.skill) (toLowerCase tag))
        else overlapRatio (toLowerCase userSkillGap.skill) (toLowerCase tag)) ∧
    (directMatch (toLowerCase userSkillGap.skill) (toLowerCase tag) = false →
      synonymMatch (toLowerCase tag) (toLowerCase userSkillGap.skill) = true →
      overlapRatio (toLowerCase userSkillGap.skill) (toLowerCase tag) ≤ 9 / 10 →
      calculateSkillRelevance [tag] userSkillGap = 9 / 10) ∧
    (directMatch (toLowerCase userSkillGap.skill) (toLowerCase tag) = false →
      synonymMatch (toLowerCase tag) (toLowerCase userSkillGap.skill) = false →
      calculateSkillRelevance [tag] userSkillGap = specCascade userSkillGap.skill tag) ∧
    (directMatch (toLowerCase userSkillGap.skill) (toLowerCase tag) = true →
      calculateSkillRelevance [tag] userSkillGap = specCascade userSkillGap.skill tag) := by
  refine ⟨relevance_single_tag_eq tag userSkillGap, fun hd hs hr => ?_, fun hd hs => ?_,
    fun hd => ?_⟩
  · rw [relevance_single_tag_eq, hd, hs]
    simp [max_eq_left hr]
  · rw [relevance_single_tag_eq, specCascade, hd, hs]
    simp
  · rw [relevance_single_tag_eq, specCascade, hd]
    simp

end FreeResourcesCard

namespace SkillGapAnalysis

/-- A skill whose level is an integer below 4 has priority at least 1. -/
theorem one_le_calculatePriority (skill : Skill) (role : Option String) (n : ℤ)
    (hn : skill.level = n) (hlt : skill.level < 4) : 1 ≤ calculatePriority skill role := by
  have hn3 : n ≤ 3 := by
    have h4 : (n : ℚ) < ((4 : ℤ) : ℚ) := by rw [← hn]; exact_mod_cast hlt
    have h4z : n < 4 := by exact_mod_cast h4
    omega
  have hle : skill.level ≤ 3 := by rw [hn]; exact_mod_cast hn3
  have hmin : min 4 skill.level = skill.level := min_eq_right (by linarith)
  simp only [calculatePriority]
  rw [hmin]
  split_ifs <;> linarith

/-- Every element of the sorted list is built by `toOpportunity` from a skill of `skillData`
with raw level below 4. -/
theorem exists_skill_of_mem_opportunities {props : Props} {o : Opportunity}
    (ho : o ∈ opportunities props) :
    ∃ s ∈ props.skillData.getD [], s.level < 4 ∧
      o = toOpportunity props (extractResumeSkills props.resumeData)
        (analyzeUserResponses props.userResponses) s := by
  unfold opportunities at ho
  rw [List.mem_insertionSort, List.mem_filter] at ho
  obtain ⟨hm, -⟩ := ho
  unfold mapped at hm
  rw [List.mem_map] at hm
  obtain ⟨s, hs, rfl⟩ := hm
  rw [List.mem_filter] at hs
  exact ⟨s, hs.1, by simpa using hs.2, rfl⟩

/-- C30: when every level of the skill list is an integer in 1..5, every opportunity the
analysis produces (before the cut to five) has priority at least 1, so `highImpact` equals
`totalOpportunities` and `moderateImpact` is 0, whatever the target role, the resume and the
response history. -/
theorem impact_summary_degenerates (props : Props)
    (hlevels : ∀ s ∈ props.skillData.getD [], ∃ n : ℤ, 1 ≤ n ∧ n ≤ 5 ∧ s.level = n) :
    (∀ o ∈ opportunities props, 1 ≤ o.priority) ∧
    (∀ o ∈ (analyzeSkillGaps props).opportunities, 1 ≤ o.priority) ∧
    (analyzeSkillGaps props).highImpact = (analyzeSkillGaps props).totalOpportunities ∧
    (analyzeSkillGaps props).moderateImpact = 0 := by
  have hall : ∀ o ∈ opportunities props, 1 ≤ o.priority := by
    intro o ho
    obtain ⟨s, hs, hlt, rfl⟩ := exists_skill_of_mem_opportunities ho
    obtain ⟨n, -, -, hn⟩ := hlevels s hs
    exact one_le_calculatePriority s props.targetRole n hn hlt
  refine ⟨hall, fun o ho => hall o (List.mem_of_mem_take ho), ?_, ?_⟩
  · have hfilter : (opportunities props).filter (fun o => o.priority > 7 / 10)
        = opportunities props := by
      rw [List.filter_eq_self]
      intro o ho
      have h1 := hall o ho
      simp only [gt_iff_lt, decide_eq_true_eq]
      linarith
    simp only [analyzeSkillGaps]
    rw [hfilter]
  · have hfilter : (opportunities props).filter
        (fun o => o.priority ≤ 7 / 10 ∧ o.priority > 2 / 5) = [] := by
      rw [List.filter_eq_nil_iff]
      intro o ho
      have h1 := hall o ho
      simp only [gt_iff_lt, decide_eq_true_eq, not_and, not_lt]
      intro h2
      linarith
    simp only [analyzeSkillGaps]
    rw [hfilter]
    rfl

/-- Witness of `impact_summary_degenerates` on a skill at level 3 that matches the role and a
"basics" skill at level 2: two opportunities, of priorities 2 and 3/2, both counted as high
impact and none as moderate. -/
theorem impact_summary_degenerates_witness :
    (∀ s ∈ roleProps.skillData.getD [], ∃ n : ℤ, 1 ≤ n ∧ n ≤ 5 ∧ s.level = n) ∧
    (opportunities roleProps).map (fun o => (o.skill, o.priority))
      = [("sql basics", 2), ("react", 3 / 2)] ∧
    (analyzeSkillGaps roleProps).totalOpportunities = 2 ∧
    ((∀ o ∈ opportunities roleProps, 1 ≤ o.priority) ∧
      (∀ o ∈ (analyzeSkillGaps roleProps).opportunities, 1 ≤ o.priority) ∧
      (analyzeSkillGaps roleProps).highImpact = (analyzeSkillGaps roleProps).totalOpportunities ∧
      (analyzeSkillGaps roleProps).moderateImpact = 0) :=
  have hlevels : ∀ s ∈ roleProps.skillData.getD [], ∃ n : ℤ, 1 ≤ n ∧ n ≤ 5 ∧ s.level = n := by
    intro s hs
    simp only [roleProps, Option.getD_some, List.mem_cons, List.mem_singleton, List.mem_nil_iff,
      or_false] at hs
    rcases hs with rfl | rfl
    · exact ⟨3, by norm_num, by norm_num, by norm_num⟩
    · exact ⟨2, by norm_num, by norm_num, by norm_num⟩
  ⟨hlevels, by decide!, by decide!, impact_summary_degenerates roleProps hlevels⟩

end SkillGapAnalysis

end NeuroRAG
